import Mathlib

/-!
# llm-radar: classification engine, retry loop, worker pool and helpers

A shallow embedding of the Go packages `internal/models`, `internal/kb`,
`internal/classifier`, `internal/worker` and (for the progress padding)
`internal/tui` of `phorde/llm-radar`, with the properties of the
classification precedence, of the retry loop, of the priority reordering, of
the output trimming, of the worker pool and of the pattern compilation proved
about it.

Conventions of the embedding.

* A Go `string` is a finite sequence of bytes: `GoString := List UInt8`.
  `len(s)` is `s.length`.  A string literal of the source is written
  `str "..."`, its UTF-8 encoding.
* A Go `int` is modelled by `Int`.  Where the source does arithmetic that can
  leave the 64-bit range (`SmartTrim`), the result is wrapped with
  `wrapInt64`.  The loop counter of `TestModel` and its back-off delay are
  left unbounded: wrapping either would take more than 10^10 sequential
  probe runs.
* A Go `map[string]V` is an association list read with `GoMap.get?` (the
  two-value lookup `v, ok := m[k]`) or `GoMap.get` (the one-value lookup,
  which yields the zero value for a missing key).
* A compiled `*regexp.Regexp` is its `MatchString` function; the regular
  expression engine itself is a parameter of the development.
* A run-time panic (index or slice out of range) is the result `none`.
* The goroutines of `StartWorkers` are program counters in a state that a
  scheduler advances one statement at a time, in any order; sends on `msgChan`
  are taken to be received at once, and what the cache and the probes answer
  is supplied with each step.  The cache package is outside the embedded
  sources: the value `resCache.Get` returns is a parameter.
-/

namespace LlmRadar

/-! ## Strings -/

/-- A Go string: a sequence of bytes. -/
abbrev GoString := List UInt8

/-- The bytes of a source string literal (its UTF-8 encoding). -/
def str (s : String) : GoString := s.data.flatMap String.utf8EncodeChar

/-- Go `strings.HasSuffix`: `len(s) >= len(suffix) && s[len(s)-len(suffix):] == suffix`. -/
def HasSuffix (s suffix : GoString) : Bool :=
  decide (suffix.length ≤ s.length) && decide (s.drop (s.length - suffix.length) = suffix)

/-- Go `strings.HasPrefix`: `len(s) >= len(prefix) && s[:len(prefix)] == prefix`. -/
def HasPrefix (s pre : GoString) : Bool :=
  decide (pre.length ≤ s.length) && decide (s.take pre.length = pre)

/-- Go `strings.Split(s, sep)` for a one-byte separator, the only way the
source calls it (`strings.Split(model, "/")`): the substrings between the
occurrences of `sep`; `Split "" sep` is the one-element list `[""]`. -/
def Split (sep : UInt8) : GoString → List GoString
  | [] => [[]]
  | c :: cs =>
    if c = sep then [] :: Split sep cs
    else
      match Split sep cs with
      | [] => [[c]]
      | p :: ps => (c :: p) :: ps

/-- The byte `/`. -/
def slash : UInt8 := 47

/-- Two's-complement wrap-around of a 64-bit Go `int`. -/
def wrapInt64 (x : Int) : Int := (x + 2 ^ 63) % 2 ^ 64 - 2 ^ 63

/-- Go slice expression `s[:hi]`; panics unless `0 <= hi <= len(s)`. -/
def sliceTo (s : GoString) (hi : Int) : Option GoString :=
  if 0 ≤ hi ∧ hi ≤ (s.length : Int) then some (s.take hi.toNat) else none

/-- Go slice expression `s[lo:]`; panics unless `0 <= lo <= len(s)`. -/
def sliceFrom (s : GoString) (lo : Int) : Option GoString :=
  if 0 ≤ lo ∧ lo ≤ (s.length : Int) then some (s.drop lo.toNat) else none

/-! ## Maps -/

/-- A Go `map[string]V`, as an association list; the first binding of a key
is the one in force. -/
abbrev GoMap (V : Type) := List (GoString × V)

/-- Two-value lookup `v, ok := m[k]`. -/
def GoMap.get? {V : Type} : GoMap V → GoString → Option V
  | [], _ => none
  | (k, v) :: rest, key => if k = key then some v else GoMap.get? rest key

/-- One-value lookup `m[k]` of a `map[string]string`: the empty string for a
missing key. -/
def GoMap.get (m : GoMap GoString) (key : GoString) : GoString :=
  (GoMap.get? m key).getD []

/-- One-value lookup `m[k]` of a `map[string]bool`: `false` for a missing
key. -/
def GoMap.getBool (m : GoMap Bool) (key : GoString) : Bool :=
  (GoMap.get? m key).getD false

/-! ## Package `models` -/

def CategoryFree : GoString := str "FREE"
def CategoryFreeLimited : GoString := str "FREE_LIMITED"
def CategoryPaid : GoString := str "PAID"
def CategoryAvailable : GoString := str "AVAILABLE"
def CategoryNotFound : GoString := str "NOT_FOUND"
def CategoryTimeout : GoString := str "TIMEOUT"
def CategoryAuthFailed : GoString := str "AUTH_FAILED"
def CategoryNoQuota : GoString := str "NO_QUOTA"
def CategoryRateLimited : GoString := str "RATE_LIMITED"
def CategoryFreeError : GoString := str "FREE_ERROR"
def CategoryError : GoString := str "ERROR"

/-- Table `models.CategoryIcons`, with the literals of the source file, byte
for byte.  Four of them start with the code point U+F8FF (bytes EF A3 BF),
written as an escape here because it has no visible glyph. -/
def CategoryIcons : GoMap GoString :=
  [ (CategoryFree, str "\uF8FFüÜì"),
    (CategoryFreeLimited, str "\uF8FFüìä"),
    (CategoryPaid, str "\uF8FFüí∞"),
    (CategoryAvailable, str "‚úÖ"),
    (CategoryNotFound, str "‚ùì"),
    (CategoryTimeout, str "‚è∞"),
    (CategoryAuthFailed, str "\uF8FFüîí"),
    (CategoryNoQuota, str "‚ùå"),
    (CategoryRateLimited, str "‚è±Ô∏è"),
    (CategoryFreeError, str "‚ö†Ô∏è"),
    (CategoryError, str "‚ö†Ô∏è") ]

/-- Function `models.AllCategories`. -/
def AllCategories : List GoString :=
  [ CategoryFree, CategoryFreeLimited, CategoryPaid, CategoryAvailable,
    CategoryNotFound, CategoryTimeout, CategoryAuthFailed, CategoryNoQuota,
    CategoryRateLimited, CategoryFreeError, CategoryError ]

/-- Struct `models.RunConfig`.  `Timeout` is a `time.Duration` in
nanoseconds. -/
structure RunConfig where
  Prompt : GoString
  Timeout : Int
  Concurrency : Int
  Retries : Int
  MaxOutputKB : Int
  UseCache : Bool
  CachePath : GoString
  deriving DecidableEq

/-- Struct `models.ModelResult`, without the two fields rendered from the
clock (`Duration`, the formatted duration, and `Timestamp`). -/
structure ModelResult where
  Model : GoString
  Provider : GoString
  Category : GoString
  Reason : GoString
  DurationMs : Int
  Output : GoString
  ExitCode : Int
  Icon : GoString
  deriving DecidableEq

/-! ## Package `kb` -/

/-- Struct `kb.ModelInfo`. -/
structure ModelInfo where
  Category : GoString
  Description : GoString
  Limits : GoString
  deriving DecidableEq

/-- Struct `kb.ProviderInfo`. -/
structure ProviderInfo where
  Category : GoString
  Description : GoString
  Limits : GoString
  deriving DecidableEq

/-- Struct `kb.Config`. -/
structure Config where
  FreeModels : GoMap ModelInfo
  FreeTierProviders : GoMap ProviderInfo
  SuccessRegex : GoString
  NotFoundRegex : GoString
  AuthRegex : GoString
  QuotaRegex : GoString
  RateLimitRegex : GoString
  TimeoutRegex : GoString
  deriving DecidableEq

/-- A compiled, non-nil `*regexp.Regexp`, as far as the source uses it: its
`MatchString` method. -/
structure Regexp where
  MatchString : GoString → Bool

/-- Struct `kb.Compiled`. -/
structure Compiled where
  Config : Config
  SuccessRe : Regexp
  NotFoundRe : Regexp
  AuthRe : Regexp
  QuotaRe : Regexp
  RateLimitRe : Regexp
  TimeoutRe : Regexp

/-- Function `kb.DefaultConfig`. -/
def DefaultConfig : Config where
  FreeModels :=
    [ (str "opencode/big-pickle",
        { Category := CategoryFree, Description := str "Zen - Big Pickle",
          Limits := str "limites não documentados" }),
      (str "opencode/gpt-5-nano",
        { Category := CategoryFree, Description := str "Zen - GPT 5 Nano",
          Limits := str "limites não documentados" }),
      (str "opencode/minimax-m2.1-free",
        { Category := CategoryFree, Description := str "Zen - MiniMax M2.1",
          Limits := str "limites não documentados" }),
      (str "opencode/glm-4.7-free",
        { Category := CategoryFree, Description := str "Zen - GLM 4.7",
          Limits := str "limites não documentados" }),
      (str "opencode/kimi-k2.5-free",
        { Category := CategoryFree, Description := str "Zen - Kimi K2.5",
          Limits := str "limites não documentados" }),
      (str "opencode/trinity-large-preview-free",
        { Category := CategoryFree, Description := str "Zen - Trinity Large",
          Limits := str "limites não documentados" }) ]
  FreeTierProviders :=
    [ (str "cerebras",
        { Category := CategoryFreeLimited, Description := str "Cerebras",
          Limits := str "1M tokens/dia (agregado)" }),
      (str "deepseek",
        { Category := CategoryFreeLimited, Description := str "DeepSeek",
          Limits := str "5M tokens inicial + 50 RPM" }),
      (str "groq",
        { Category := CategoryFreeLimited, Description := str "Groq",
          Limits := str "14.4K req/dia, 30 RPM" }) ]
  SuccessRegex := str "(?i)(^|\\b)(2\\s*,?\\s*3\\s*,?\\s*5|prime|primos|OK)(\\b|$)"
  NotFoundRegex := str "(?i)(404|not\\.found|entity.was.not.found|modelnotfounderror)"
  AuthRegex := str "(?i)(auth|unauthoriz|api\\.?key|invalid.*key|401|403)"
  QuotaRegex := str "(?i)(insufficient.*quota|quota.*exceed|no.*credits?|billing.*limit)"
  RateLimitRegex := str "(?i)(rate.limit|too.many.*request|throttl|429)"
  TimeoutRegex := str "(?i)(timeout|timed.out|deadline.exceeded)"

/-! ## Package `classifier` -/

/-- Struct `classifier.Result`. -/
structure Result where
  Category : GoString
  Reason : GoString
  Icon : GoString
  deriving DecidableEq

/-- Function `classifier.Classify`.  The only operation that can panic is the
index `strings.Split(model, "/")[0]`. -/
def Classify (model : GoString) (exitCode : Int) (output : GoString)
    (compiledKB : Compiled) : Option Result :=
  if compiledKB.NotFoundRe.MatchString output then
    some { Category := CategoryNotFound,
           Reason := str "Modelo não disponível no OpenCode",
           Icon := CategoryIcons.get CategoryNotFound }
  else if exitCode = 124 ∨ compiledKB.TimeoutRe.MatchString output = true then
    some { Category := CategoryTimeout,
           Reason := str "Timeout (20s)",
           Icon := CategoryIcons.get CategoryTimeout }
  else
    match GoMap.get? compiledKB.Config.FreeModels model with
    | some info =>
      if exitCode = 0 ∧ compiledKB.SuccessRe.MatchString output = true then
        some { Category := info.Category,
               Reason := info.Description,
               Icon := CategoryIcons.get info.Category }
      else
        some { Category := CategoryFreeError,
               Reason := info.Description ++ str " (falhou no teste)",
               Icon := CategoryIcons.get CategoryFreeError }
    | none =>
      if HasSuffix model (str "-free") then
        if exitCode = 0 ∧ compiledKB.SuccessRe.MatchString output = true then
          some { Category := CategoryFree,
                 Reason := str "Sufixo -free detectado",
                 Icon := CategoryIcons.get CategoryFree }
        else
          some { Category := CategoryFreeError,
                 Reason := str "Sufixo -free (falhou)",
                 Icon := CategoryIcons.get CategoryFreeError }
      else if exitCode = 0 ∧ compiledKB.SuccessRe.MatchString output = true then
        match (Split slash model)[0]? with
        | none => none
        | some provider =>
          match GoMap.get? compiledKB.Config.FreeTierProviders provider with
          | some info =>
            some { Category := info.Category,
                   Reason := info.Limits,
                   Icon := CategoryIcons.get info.Category }
          | none =>
            some { Category := CategoryAvailable,
                   Reason := str "Modelo disponível",
                   Icon := CategoryIcons.get CategoryAvailable }
      else if compiledKB.QuotaRe.MatchString output then
        some { Category := CategoryNoQuota,
               Reason := str "Sem créditos",
               Icon := CategoryIcons.get CategoryNoQuota }
      else if compiledKB.AuthRe.MatchString output then
        some { Category := CategoryAuthFailed,
               Reason := str "API key inválida",
               Icon := CategoryIcons.get CategoryAuthFailed }
      else if compiledKB.RateLimitRe.MatchString output then
        some { Category := CategoryRateLimited,
               Reason := str "Rate limit",
               Icon := CategoryIcons.get CategoryRateLimited }
      else
        some { Category := CategoryError,
               Reason := str "Erro desconhecido",
               Icon := CategoryIcons.get CategoryError }

/-! ## Package `worker` -/

/-- Function `worker.ExtractProvider`. -/
def ExtractProvider (model : GoString) : GoString :=
  match Split slash model with
  | p :: _ => p
  | [] => []

/-- Function `worker.SmartTrim`.  `maxKB * 1024` and `maxBytes * 2` are
64-bit products; `/` is Go's truncating division; the two slice expressions
panic when out of range. -/
def SmartTrim (s : GoString) (maxKB : Int) : Option GoString :=
  let maxBytes := wrapInt64 (maxKB * 1024)
  if (s.length : Int) ≤ maxBytes then some s
  else
    let headSize := Int.tdiv (wrapInt64 (maxBytes * 2)) 5
    let tailSize := Int.tdiv (wrapInt64 (maxBytes * 2)) 5
    match sliceTo s headSize with
    | none => none
    | some head =>
      match sliceFrom s ((s.length : Int) - tailSize) with
      | none => none
      | some tail => some (head ++ str "\n\n...[TRUNCATED]...\n\n" ++ tail)

/-- The `error` values `ExecuteCommandSecure` can return beside `nil`:
`context.DeadlineExceeded`, which `TestModel` compares against (returned as
`ctx.Err()` when the deadline passes during the run, and by `cmd.Start` when
the context is already done), and any other error (of `cmd.Start`). -/
inductive ExecError where
  | DeadlineExceeded
  | Other
  deriving DecidableEq

/-- What one call of `ExecuteCommandSecure` hands back to `TestModel`: the
triple `(out, code, err)`, and the time `time.Since(start)` measured around
the call, in nanoseconds. -/
structure ProbeOutcome where
  out : GoString
  code : Int
  err : Option ExecError
  elapsed : Int
  deriving DecidableEq

/-- What the retry loop does to the outside world, in order: a call of
`ExecuteCommandSecure` (tagged with the attempt index) or a `time.Sleep` of
the given number of milliseconds. -/
inductive Event where
  | probe (attempt : Nat)
  | sleep (ms : Nat)
  deriving DecidableEq

/-- The variables of `TestModel` that live across loop iterations, and the
events so far. -/
structure LoopState where
  lastOut : GoString
  exitCode : Int
  duration : Int
  trace : List Event
  deriving DecidableEq

/-- The exit code `TestModel` keeps for an attempt: `code`, replaced by 124
when `err == context.DeadlineExceeded`. -/
def effectiveExit (o : ProbeOutcome) : Int :=
  if o.err = some ExecError.DeadlineExceeded then 124 else o.code

/-- The `for attempt := 0; attempt <= cfg.Retries; attempt++` loop of
`TestModel`, from the loop test of iteration `attempt` on.  `exec a` is the
outcome of the probe run by attempt `a`.  The first argument bounds the
number of iterations; `TestModel` passes `Retries + 1`, which is never
exhausted (`retryLoop_fuel`). -/
def retryLoop (compiledKB : Compiled) (retries : Int) (exec : Nat → ProbeOutcome) :
    Nat → Nat → LoopState → LoopState
  | 0, _, st => st
  | fuel + 1, attempt, st =>
    if (attempt : Int) ≤ retries then
      let o := exec attempt
      let lastOut := o.out
      let exitCode := effectiveExit o
      let st1 : LoopState :=
        { lastOut := lastOut, exitCode := exitCode, duration := o.elapsed,
          trace := st.trace ++ [Event.probe attempt] }
      if exitCode = 0 ∧ compiledKB.SuccessRe.MatchString lastOut = true then st1
      else if compiledKB.NotFoundRe.MatchString lastOut = true ∨
          compiledKB.AuthRe.MatchString lastOut = true ∨
          compiledKB.QuotaRe.MatchString lastOut = true then st1
      else if compiledKB.RateLimitRe.MatchString lastOut = true ∧ (attempt : Int) < retries then
        retryLoop compiledKB retries exec fuel (attempt + 1)
          { st1 with trace := st1.trace ++ [Event.sleep ((attempt + 1) * 500)] }
      else if exitCode = 124 then st1
      else retryLoop compiledKB retries exec fuel (attempt + 1) st1
    else st

/-- The state in which `TestModel` enters its loop: `lastOut`, `exitCode`
and `duration` hold their zero values. -/
def initState : LoopState :=
  { lastOut := [], exitCode := 0, duration := 0, trace := [] }

/-- The retry loop of `TestModel`, run from attempt 0. -/
def runLoop (cfg : RunConfig) (compiledKB : Compiled) (exec : Nat → ProbeOutcome) : LoopState :=
  retryLoop compiledKB cfg.Retries exec (cfg.Retries + 1).toNat 0 initState

/-- Function `worker.TestModel`.  `exec a` stands for the call
`ExecuteCommandSecure(ctx, "opencode", "run", "--model", modelName, cfg.Prompt)`
of attempt `a`. -/
def TestModel (modelName : GoString) (cfg : RunConfig) (compiledKB : Compiled)
    (exec : Nat → ProbeOutcome) : Option ModelResult :=
  let provider := ExtractProvider modelName
  let st := runLoop cfg compiledKB exec
  match SmartTrim st.lastOut cfg.MaxOutputKB with
  | none => none
  | some outTrimmed =>
    match Classify modelName st.exitCode outTrimmed compiledKB with
    | none => none
    | some result =>
      some { Model := modelName,
             Provider := provider,
             Category := result.Category,
             Reason := result.Reason,
             Icon := result.Icon,
             DurationMs := Int.tdiv st.duration 1000000,
             Output := outTrimmed,
             ExitCode := st.exitCode }

/-- The three slices `free`, `zai` and `other` that the loop of
`PrioritizeModels` appends to. -/
structure Buckets where
  free : List GoString
  zai : List GoString
  other : List GoString
  deriving DecidableEq

/-- One iteration of the `for _, m := range models` loop of
`PrioritizeModels`. -/
def prioritizeStep (freeModels : GoMap Bool) (zaiPrefix : GoString) (b : Buckets)
    (m : GoString) : Buckets :=
  if GoMap.getBool freeModels m = true then { b with free := b.free ++ [m] }
  else if HasPrefix m zaiPrefix = true then { b with zai := b.zai ++ [m] }
  else { b with other := b.other ++ [m] }

/-- Function `worker.PrioritizeModels`. -/
def PrioritizeModels (models : List GoString) (freeModels : GoMap Bool)
    (zaiPrefix : GoString) : List GoString :=
  let b := models.foldl (prioritizeStep freeModels zaiPrefix)
    { free := [], zai := [], other := [] }
  b.free ++ b.zai ++ b.other

/-- Function `worker.Truncate`.  The slice expression `s[:max-3]` panics when
out of range. -/
def Truncate (s : GoString) (max : Int) : Option GoString :=
  if (s.length : Int) > max then
    match sliceTo s (wrapInt64 (max - 3)) with
    | none => none
    | some head => some (head ++ str "...")
  else some s

/-- What the cache lookup and the probing of one job leave behind: the result
`res` that the worker goes on to count and emit, whether `TestModel` was
called, and the calls `resCache.Set(key, value)` made. -/
structure JobOutcome where
  res : ModelResult
  probed : Bool
  cacheSets : List (GoString × ModelResult)
  deriving DecidableEq

/-- The zero value of `models.ModelResult`, as `var res models.ModelResult`
leaves it. -/
def zeroModelResult : ModelResult :=
  { Model := [], Provider := [], Category := [], Reason := [], DurationMs := 0,
    Output := [], ExitCode := 0, Icon := [] }

/-- The part of the worker body of `StartWorkers` between the start message
and the counter increment (the two `if` statements that fill `res`).
`cacheGet` is what `resCache.Get(model)` returns, the pair `(cached, ok)`;
the cache is consulted only when `cfg.UseCache` holds.  `exec` gives the
outcomes of the probes that `TestModel` runs. -/
def processJob (model : GoString) (cfg : RunConfig) (compiledKB : Compiled)
    (cacheGet : ModelResult × Bool) (exec : Nat → ProbeOutcome) : Option JobOutcome :=
  let res : ModelResult :=
    if cfg.UseCache = true then
      if cacheGet.2 = true then
        { cacheGet.1 with Reason := cacheGet.1.Reason ++ str " (cached)" }
      else zeroModelResult
    else zeroModelResult
  if res.Model = [] then
    match TestModel model cfg compiledKB exec with
    | none => none
    | some tested =>
      some { res := tested, probed := true,
             cacheSets := if cfg.UseCache = true then [(model, tested)] else [] }
  else some { res := res, probed := false, cacheSets := [] }

/-- A message sent on `msgChan`: the start notification of a job (without
its clock reading) or the result of a job. -/
inductive Msg where
  | start (model : GoString)
  | result (res : ModelResult)
  deriving DecidableEq

/-- Where a worker goroutine of `StartWorkers` stands (the start-up delay
`time.Sleep(delay)` left out):
`receiving`, at the head of `for model := range jobs`;
`gotJob m`, about to send the start message;
`started m`, about to fill `res` (cache lookup, `TestModel`, cache update);
`computed m res`, about to run `atomic.AddInt32(processed, 1)`;
`counted m res`, about to run `msgChan <- res`;
`exited`, after `wg.Done()`. -/
inductive WorkerPc where
  | receiving
  | gotJob (model : GoString)
  | started (model : GoString)
  | computed (model : GoString) (res : ModelResult)
  | counted (model : GoString) (res : ModelResult)
  | exited
  deriving DecidableEq

/-- Where the goroutine that runs `StartWorkers` itself stands:
`spawning i`, at the test `i < cfg.Concurrency` of the first loop;
`enqueuing rest`, in the loop `for _, m := range modelList` with `rest` still
to send, `close(jobs)` coming after it;
`waiting`, in `wg.Wait()`;
`closed`, after `close(msgChan)`. -/
inductive MainPc where
  | spawning (i : Nat)
  | enqueuing (rest : List GoString)
  | waiting
  | closed
  deriving DecidableEq

/-- The state of a run of `StartWorkers`: the goroutines, the channel `jobs`
(of capacity `len(modelList)`, so that sending to it never blocks), the
messages sent on `msgChan` so far, the number of increments of `*processed`,
the calls of `resCache.Set`, and, as a record for the statements, the jobs
whose result has been sent. -/
structure PoolState where
  main : MainPc
  workers : List WorkerPc
  jobs : List GoString
  jobsClosed : Bool
  msgs : List Msg
  msgClosed : Bool
  processed : Nat
  cacheSets : List (GoString × ModelResult)
  finished : List GoString
  deriving DecidableEq

/-- What the scheduler may run next: the next statement of `StartWorkers`
itself, or the next statement of worker `i`.  A worker step carries what the
world answers if the step is the one that fills `res`: the pair returned by
`resCache.Get`, and the outcomes of the probes. -/
inductive Action where
  | main
  | worker (i : Nat) (cacheGet : ModelResult × Bool) (exec : Nat → ProbeOutcome)

/-- The state in which `StartWorkers` starts. -/
def initPool : PoolState :=
  { main := MainPc.spawning 0, workers := [], jobs := [], jobsClosed := false, msgs := [],
    msgClosed := false, processed := 0, cacheSets := [], finished := [] }

/-- The next statement of `StartWorkers` itself; `none` when it is blocked
(in `wg.Wait()` while a worker has not returned) or has returned. -/
def mainStep (modelList : List GoString) (cfg : RunConfig) (s : PoolState) :
    Option PoolState :=
  match s.main with
  | MainPc.spawning i =>
    if (i : Int) < cfg.Concurrency then
      some { s with workers := s.workers ++ [WorkerPc.receiving], main := MainPc.spawning (i + 1) }
    else some { s with main := MainPc.enqueuing modelList }
  | MainPc.enqueuing (m :: rest) =>
    some { s with jobs := s.jobs ++ [m], main := MainPc.enqueuing rest }
  | MainPc.enqueuing [] => some { s with jobsClosed := true, main := MainPc.waiting }
  | MainPc.waiting =>
    if s.workers.all (fun w => decide (w = WorkerPc.exited)) = true then
      some { s with msgClosed := true, main := MainPc.closed }
    else none
  | MainPc.closed => none

/-- The next statement of worker `i`; `none` when there is no such worker,
when it is blocked (receiving from the empty, open channel `jobs`), when it
has returned, or when `TestModel` panics. -/
def workerStep (cfg : RunConfig) (compiledKB : Compiled) (s : PoolState) (i : Nat)
    (cacheGet : ModelResult × Bool) (exec : Nat → ProbeOutcome) : Option PoolState :=
  match s.workers[i]? with
  | none => none
  | some WorkerPc.receiving =>
    match s.jobs with
    | m :: rest => some { s with jobs := rest, workers := s.workers.set i (WorkerPc.gotJob m) }
    | [] =>
      if s.jobsClosed = true then some { s with workers := s.workers.set i WorkerPc.exited }
      else none
  | some (WorkerPc.gotJob m) =>
    some { s with msgs := s.msgs ++ [Msg.start m],
                  workers := s.workers.set i (WorkerPc.started m) }
  | some (WorkerPc.started m) =>
    match processJob m cfg compiledKB cacheGet exec with
    | none => none
    | some out =>
      some { s with cacheSets := s.cacheSets ++ out.cacheSets,
                    workers := s.workers.set i (WorkerPc.computed m out.res) }
  | some (WorkerPc.computed m res) =>
    some { s with processed := s.processed + 1,
                  workers := s.workers.set i (WorkerPc.counted m res) }
  | some (WorkerPc.counted m res) =>
    some { s with msgs := s.msgs ++ [Msg.result res], finished := s.finished ++ [m],
                  workers := s.workers.set i WorkerPc.receiving }
  | some WorkerPc.exited => none

/-- One step of a run of `StartWorkers`. -/
def poolStep (modelList : List GoString) (cfg : RunConfig) (compiledKB : Compiled)
    (s : PoolState) : Action → Option PoolState
  | Action.main => mainStep modelList cfg s
  | Action.worker i cacheGet exec => workerStep cfg compiledKB s i cacheGet exec

/-- A run of `StartWorkers` under a schedule, the list of the steps taken in
order; `none` when the schedule asks for a step that cannot be taken. -/
def runPool (modelList : List GoString) (cfg : RunConfig) (compiledKB : Compiled) :
    List Action → PoolState → Option PoolState
  | [], s => some s
  | a :: rest, s =>
    match poolStep modelList cfg compiledKB s a with
    | none => none
    | some s1 => runPool modelList cfg compiledKB rest s1

/-! ## Package `models`: cache entries -/

/-- A `time.Time`, as the instant it denotes, in nanoseconds on the time
line. -/
structure Time where
  instant : Int
  deriving DecidableEq

/-- Go `t.After(u)`: whether the instant `t` is after `u`. -/
def Time.After (t u : Time) : Bool := decide (u.instant < t.instant)

/-- Struct `models.CachedResult`. -/
structure CachedResult where
  Result : ModelResult
  CachedAt : Time
  ExpiresAt : Time
  deriving DecidableEq

/-- Method `CachedResult.IsExpired`; `now` is the value of `time.Now()`. -/
def CachedResult.IsExpired (cr : CachedResult) (now : Time) : Bool :=
  now.After cr.ExpiresAt

/-! ## Package `kb`: compilation -/

/-- Struct `kb.Compiled` as `Compile` fills it: each matcher is a pointer,
`nil` (here `none`) until its pattern has been compiled. -/
structure CompiledPtr where
  Config : Config
  SuccessRe : Option Regexp
  NotFoundRe : Option Regexp
  AuthRe : Option Regexp
  QuotaRe : Option Regexp
  RateLimitRe : Option Regexp
  TimeoutRe : Option Regexp

/-- Function `kb.Compile`.  `regexpCompile` stands for `regexp.Compile`: it
returns a matcher, or the message of its error.  The result is the pair
`(ckb, err)` of the source; `err` is the message of the wrapped error, or
`none` for `nil`. -/
def Compile (regexpCompile : GoString → Except GoString Regexp) (cfg : Config) :
    CompiledPtr × Option GoString :=
  let ckb : CompiledPtr :=
    { Config := cfg, SuccessRe := none, NotFoundRe := none, AuthRe := none,
      QuotaRe := none, RateLimitRe := none, TimeoutRe := none }
  match regexpCompile cfg.SuccessRegex with
  | Except.error err => (ckb, some (str "regex SuccessRegex inválida: " ++ err))
  | Except.ok re1 =>
    let ckb1 := { ckb with SuccessRe := some re1 }
    match regexpCompile cfg.NotFoundRegex with
    | Except.error err => (ckb1, some (str "regex NotFoundRegex inválida: " ++ err))
    | Except.ok re2 =>
      let ckb2 := { ckb1 with NotFoundRe := some re2 }
      match regexpCompile cfg.AuthRegex with
      | Except.error err => (ckb2, some (str "regex AuthRegex inválida: " ++ err))
      | Except.ok re3 =>
        let ckb3 := { ckb2 with AuthRe := some re3 }
        match regexpCompile cfg.QuotaRegex with
        | Except.error err => (ckb3, some (str "regex QuotaRegex inválida: " ++ err))
        | Except.ok re4 =>
          let ckb4 := { ckb3 with QuotaRe := some re4 }
          match regexpCompile cfg.RateLimitRegex with
          | Except.error err => (ckb4, some (str "regex RateLimitRegex inválida: " ++ err))
          | Except.ok re5 =>
            let ckb5 := { ckb4 with RateLimitRe := some re5 }
            match regexpCompile cfg.TimeoutRegex with
            | Except.error err => (ckb5, some (str "regex TimeoutRegex inválida: " ++ err))
            | Except.ok re6 => ({ ckb5 with TimeoutRe := some re6 }, none)

/-! ## Package `tui`: progress padding -/

/-- Go conversion `string(rune(r))`: the UTF-8 encoding of the code point
`r`, or of U+FFFD when `r` is not a valid code point. -/
def runeString (r : Int) : GoString :=
  if 0 ≤ r ∧ (Char.ofNat r.toNat).toNat = r.toNat then
    String.utf8EncodeChar (Char.ofNat r.toNat)
  else [239, 191, 189]

/-- The loop `for n > 0` of `tui.intToString`: `s` is the string built so
far.  The first argument bounds the number of iterations; `intToString`
passes `n`, which is never exhausted because `n / 10 < n`. -/
def intToStringLoop : Nat → Int → GoString → GoString
  | 0, _, s => s
  | fuel + 1, n, s =>
    if n > 0 then intToStringLoop fuel (Int.tdiv n 10) (runeString (48 + Int.tmod n 10) ++ s)
    else s

/-- Function `tui.intToString`. -/
def intToString (n : Int) : GoString :=
  if n = 0 then str "0" else intToStringLoop n.toNat n []

/-- Function `tui.Padding`. -/
def Padding (_n cur total : Int) : Int :=
  let digits : Int := ((intToString total).length : Int)
  digits - ((intToString cur).length : Int) + 1

/-- Go `strings.Repeat(s, count)`; panics when `count` is negative. -/
def Repeat (s : GoString) (count : Int) : Option GoString :=
  if count < 0 then none else some (List.replicate count.toNat s).flatten

/-! ## Vocabulary of the statements -/

/-- The longest prefix of `s` free of the byte `sep`. -/
def beforeSep (sep : UInt8) : GoString → GoString
  | [] => []
  | c :: cs => if c = sep then [] else c :: beforeSep sep cs

/-- The provider of an identifier, in words: the text before the first `/`,
or the whole identifier when it has no `/`. -/
def IsProviderOf (provider model : GoString) : Prop :=
  (∃ rest, model = provider ++ slash :: rest ∧ slash ∉ provider) ∨
    (slash ∉ model ∧ provider = model)

/-- The categories `Classify` gives to a probe that did not succeed. -/
def failureCategories : List GoString :=
  [ CategoryNotFound, CategoryTimeout, CategoryFreeError, CategoryNoQuota,
    CategoryAuthFailed, CategoryRateLimited, CategoryError ]

/-- Attempt `a` is a success: exit code 0 and output matching the success
pattern. -/
def IsSuccess (compiledKB : Compiled) (o : ProbeOutcome) : Prop :=
  effectiveExit o = 0 ∧ compiledKB.SuccessRe.MatchString o.out = true

/-- The output matches the not-found, auth-failure or quota pattern. -/
def IsNonRetryable (compiledKB : Compiled) (o : ProbeOutcome) : Prop :=
  compiledKB.NotFoundRe.MatchString o.out = true ∨
    compiledKB.AuthRe.MatchString o.out = true ∨
    compiledKB.QuotaRe.MatchString o.out = true

/-- The loop body of attempt `a` reaches the increment `attempt++`. -/
def CarriesOn (compiledKB : Compiled) (retries : Int) (exec : Nat → ProbeOutcome) (a : Nat) : Prop :=
  ¬ IsSuccess compiledKB (exec a) ∧ ¬ IsNonRetryable compiledKB (exec a) ∧
    ((compiledKB.RateLimitRe.MatchString (exec a).out = true ∧ (a : Int) < retries) ∨
      effectiveExit (exec a) ≠ 124)

/-- The events of an attempt that is followed by another one: the probe,
and the back-off sleep when the output matches the rate-limit pattern. -/
def attemptEvents (compiledKB : Compiled) (exec : Nat → ProbeOutcome) (a : Nat) : List Event :=
  if compiledKB.RateLimitRe.MatchString (exec a).out = true then
    [Event.probe a, Event.sleep ((a + 1) * 500)]
  else [Event.probe a]

/-- The events of the attempts `attempt, ..., attempt + n - 1`, each followed
by another attempt. -/
def segmentEvents (compiledKB : Compiled) (exec : Nat → ProbeOutcome) (attempt : Nat) :
    Nat → List Event
  | 0 => []
  | n + 1 => attemptEvents compiledKB exec attempt ++ segmentEvents compiledKB exec (attempt + 1) n

/-- The attempt indices of the probes of a trace, in order. -/
def probesOf : List Event → List Nat
  | [] => []
  | Event.probe a :: rest => a :: probesOf rest
  | Event.sleep _ :: rest => probesOf rest

/-- An unrecognized failure: an exit code other than 0 and 124 and an output
that matches none of the six patterns. -/
def IsUnrecognized (compiledKB : Compiled) (o : ProbeOutcome) : Prop :=
  effectiveExit o ≠ 0 ∧ effectiveExit o ≠ 124 ∧
    compiledKB.SuccessRe.MatchString o.out = false ∧
    compiledKB.NotFoundRe.MatchString o.out = false ∧
    compiledKB.AuthRe.MatchString o.out = false ∧
    compiledKB.QuotaRe.MatchString o.out = false ∧
    compiledKB.RateLimitRe.MatchString o.out = false ∧
    compiledKB.TimeoutRe.MatchString o.out = false

/-- The truncation marker of `SmartTrim`. -/
def truncationMarker : GoString := str "\n\n...[TRUNCATED]...\n\n"

/-- The knowledge-base entries of the known-free models with every declared
category `c` replaced by `f c`. -/
def recategorizeModels (f : GoString → GoString) (m : GoMap ModelInfo) : GoMap ModelInfo :=
  m.map (fun kv => (kv.1, { kv.2 with Category := f kv.2.Category }))

/-- The knowledge-base entries of the free-tier providers with every declared
category `c` replaced by `f c`. -/
def recategorizeProviders (f : GoString → GoString) (m : GoMap ProviderInfo) :
    GoMap ProviderInfo :=
  m.map (fun kv => (kv.1, { kv.2 with Category := f kv.2.Category }))

/-- A compiled knowledge base with the categories declared by its entries
replaced through `f`, everything else unchanged. -/
def recategorize (f : GoString → GoString) (compiledKB : Compiled) : Compiled :=
  { compiledKB with
    Config :=
      { compiledKB.Config with
        FreeModels := recategorizeModels f compiledKB.Config.FreeModels
        FreeTierProviders := recategorizeProviders f compiledKB.Config.FreeTierProviders } }

/-- The ASCII digit of `d`, for `d < 10`. -/
def digitByte (d : Nat) : UInt8 := UInt8.ofNat (48 + d)

/-- The decimal representation of a natural number, without leading zeros:
"0" for 0, and otherwise the digits of `Nat.digits 10 n`, most significant
first. -/
def decimal (n : Nat) : GoString :=
  if n = 0 then [digitByte 0] else ((Nat.digits 10 n).reverse).map digitByte

/-- A pattern string that `regexpCompile` accepts. -/
def IsValidPattern (regexpCompile : GoString → Except GoString Regexp) (p : GoString) : Prop :=
  ∃ re, regexpCompile p = Except.ok re

/-- The six patterns of a configuration with the names `Compile` gives them
in its error messages, in the order in which `Compile` compiles them. -/
def namedPatterns (cfg : Config) : List (GoString × GoString) :=
  [ (str "SuccessRegex", cfg.SuccessRegex), (str "NotFoundRegex", cfg.NotFoundRegex),
    (str "AuthRegex", cfg.AuthRegex), (str "QuotaRegex", cfg.QuotaRegex),
    (str "RateLimitRegex", cfg.RateLimitRegex), (str "TimeoutRegex", cfg.TimeoutRegex) ]

/-- The message for the first pattern of the list that `regexpCompile`
rejects: "regex NAME inválida: " followed by the message of the rejection. -/
def firstInvalid (regexpCompile : GoString → Except GoString Regexp) :
    List (GoString × GoString) → Option GoString
  | [] => none
  | (name, p) :: rest =>
    match regexpCompile p with
    | Except.error err => some (str "regex " ++ name ++ str " inválida: " ++ err)
    | Except.ok _ => firstInvalid regexpCompile rest

/-- The results among the messages sent on `msgChan`, in order: the
completion events. -/
def resultsOf : List Msg → List ModelResult
  | [] => []
  | Msg.result res :: rest => res :: resultsOf rest
  | Msg.start _ :: rest => resultsOf rest

/-- The job a worker has received and not yet reported. -/
def inHand : WorkerPc → List GoString
  | WorkerPc.gotJob m => [m]
  | WorkerPc.started m => [m]
  | WorkerPc.computed m _ => [m]
  | WorkerPc.counted m _ => [m]
  | _ => []

/-- The jobs `StartWorkers` has still to send to the channel `jobs`. -/
def pendingJobs (modelList : List GoString) : MainPc → List GoString
  | MainPc.spawning _ => modelList
  | MainPc.enqueuing rest => rest
  | _ => []

/-- Whether a worker has incremented the counter for its job and not yet
sent the result: 1 if so, 0 otherwise. -/
def countedMark : WorkerPc → Nat
  | WorkerPc.counted _ _ => 1
  | _ => 0

/-- The result a worker has computed for the job it holds, with that job. -/
def heldResult : WorkerPc → Option (GoString × ModelResult)
  | WorkerPc.computed m res => some (m, res)
  | WorkerPc.counted m res => some (m, res)
  | _ => none

/-- The number of steps a worker has still to take at most before it
returns, not counting the jobs it has yet to receive. -/
def workerRemaining : WorkerPc → Nat
  | WorkerPc.receiving => 1
  | WorkerPc.gotJob _ => 5
  | WorkerPc.started _ => 4
  | WorkerPc.computed _ _ => 3
  | WorkerPc.counted _ _ => 2
  | WorkerPc.exited => 0

/-- The number of steps `StartWorkers` itself has still to take, each job it
has yet to send counted with the five steps a worker spends on it, and each
worker it has yet to spawn with the step in which that worker returns. -/
def mainRemaining (modelList : List GoString) (cfg : RunConfig) : MainPc → Nat
  | MainPc.spawning i => 2 * (cfg.Concurrency.toNat - i) + 1 + (6 * modelList.length + 2)
  | MainPc.enqueuing rest => 6 * rest.length + 2
  | MainPc.waiting => 1
  | MainPc.closed => 0

/-- A bound on the number of steps a run can still take from a state. -/
def poolMeasure (modelList : List GoString) (cfg : RunConfig) (s : PoolState) : Nat :=
  mainRemaining modelList cfg s.main + 5 * s.jobs.length + (s.workers.map workerRemaining).sum

/-- What holds of every state of a run of `StartWorkers`:
every job of the input is, once each, either reported, in the hands of a
worker, in the channel, or still to be sent; the counter has been
incremented once for each reported job and each job about to be reported;
there are as many results on `msgChan` as reported jobs; the channel `jobs`
is closed exactly when `StartWorkers` has gone past `close(jobs)`; a worker
returns only once `jobs` is closed and drained; `msgChan` is closed exactly
when `StartWorkers` has run `close(msgChan)`, and then every worker has
returned; and the number of workers is the number spawned so far, in the end
`cfg.Concurrency` (none if that is negative). -/
structure PoolInv (modelList : List GoString) (cfg : RunConfig) (s : PoolState) : Prop where
  jobs_perm :
    (s.finished ++ s.workers.flatMap inHand ++ s.jobs ++ pendingJobs modelList s.main).Perm
      modelList
  processed_eq : s.processed = s.finished.length + (s.workers.map countedMark).sum
  results_len : (resultsOf s.msgs).length = s.finished.length
  jobsClosed_iff : s.jobsClosed = true ↔ (s.main = MainPc.waiting ∨ s.main = MainPc.closed)
  exited_drained : WorkerPc.exited ∈ s.workers → s.jobsClosed = true ∧ s.jobs = []
  msgClosed_iff : s.msgClosed = true ↔ s.main = MainPc.closed
  closed_exited : s.main = MainPc.closed → ∀ w ∈ s.workers, w = WorkerPc.exited
  workers_len :
    (∀ i, s.main = MainPc.spawning i → s.workers.length = i ∧ i ≤ cfg.Concurrency.toNat) ∧
    ((∀ i, s.main ≠ MainPc.spawning i) → s.workers.length = cfg.Concurrency.toNat)

/-- Whether the answer of the cache that a step carries is one a cache keyed
by model identifier gives: when the step is the one in which worker `i` fills
`res` for the job `m`, a hit returns a record whose `Model` is `m` or is
empty. -/
def cacheAnswerOk (s : PoolState) : Action → Bool
  | Action.main => true
  | Action.worker i cacheGet _ =>
    match s.workers[i]? with
    | some (WorkerPc.started m) =>
      !cacheGet.2 || decide (cacheGet.1.Model = m) || decide (cacheGet.1.Model = [])
    | _ => true

/-- Whether every answer of the cache along a run is one a cache keyed by
model identifier gives. -/
def cacheFaithful (modelList : List GoString) (cfg : RunConfig) (compiledKB : Compiled) :
    List Action → PoolState → Bool
  | [], _ => true
  | a :: rest, s =>
    cacheAnswerOk s a &&
      match poolStep modelList cfg compiledKB s a with
      | none => true
      | some s1 => cacheFaithful modelList cfg compiledKB rest s1

/-- The completion events sent so far bear, in order, the names of the jobs
reported, and every result a worker holds bears the name of its job. -/
def NamesInv (s : PoolState) : Prop :=
  (resultsOf s.msgs).map (fun r => r.Model) = s.finished ∧
    ∀ w ∈ s.workers, ∀ m res, heldResult w = some (m, res) → res.Model = m

/-! ## Fixtures

Concrete inputs at which the theorems below are instantiated. -/

/-- Go `strings.Contains`. -/
def Contains : GoString → GoString → Bool
  | [], sub => decide (sub = [])
  | c :: cs, sub => HasPrefix (c :: cs) sub || Contains cs sub

/-- A compiled knowledge base over the default configuration whose six
matchers are substring tests, each for one phrase of the corresponding
default pattern. -/
def sampleKB : Compiled where
  Config := DefaultConfig
  SuccessRe := ⟨fun s => Contains s (str "2, 3, 5")⟩
  NotFoundRe := ⟨fun s => Contains s (str "404")⟩
  AuthRe := ⟨fun s => Contains s (str "unauthorized")⟩
  QuotaRe := ⟨fun s => Contains s (str "quota")⟩
  RateLimitRe := ⟨fun s => Contains s (str "rate limit")⟩
  TimeoutRe := ⟨fun s => Contains s (str "timed out")⟩

/-- The run configuration `main` builds under its default flags (20 s
timeout, one retry, 64 KB of output, no cache), with two workers. -/
def sampleCfg : RunConfig where
  Prompt := str "Escreva apenas: 2, 3, 5"
  Timeout := 20000000000
  Concurrency := 2
  Retries := 1
  MaxOutputKB := 64
  UseCache := false
  CachePath := []

/-- A knowledge base as `LoadAndCompile` builds it from an override file
whose `free_models` object binds `x/y` to an empty object: the defaults, with
one more known-free model whose entry has no category and no description. -/
def overrideKB : Compiled :=
  { sampleKB with
    Config :=
      { DefaultConfig with
        FreeModels :=
          (str "x/y", { Category := [], Description := [], Limits := [] }) ::
            DefaultConfig.FreeModels } }

/-- The probe outcomes of a run in which the first attempt is rate-limited
and every later one succeeds. -/
def execRateLimitedThenOk (a : Nat) : ProbeOutcome :=
  if a = 0 then { out := str "rate limit", code := 1, err := none, elapsed := 5000000 }
  else { out := str "2, 3, 5", code := 0, err := none, elapsed := 7000000 }

/-- The probe outcomes of a run in which the first attempt is rate-limited
and every later one reports, with exit code 1, an exhausted quota in an
output that also matches the rate-limit matcher. -/
def execRateLimitedThenQuota (a : Nat) : ProbeOutcome :=
  if a = 0 then { out := str "rate limit", code := 1, err := none, elapsed := 5000000 }
  else { out := str "rate limit: quota exceeded", code := 1, err := none, elapsed := 7000000 }

/-- The probe outcomes of a run in which the first attempt hits the deadline
after printing a rate-limit notice, and every later one succeeds. -/
def execTimeoutRateLimited (a : Nat) : ProbeOutcome :=
  if a = 0 then
    { out := str "rate limit", code := 124, err := some ExecError.DeadlineExceeded,
      elapsed := 20000000000 }
  else { out := str "2, 3, 5", code := 0, err := none, elapsed := 7000000 }

/-- The probe outcomes of a run in which every attempt hits the deadline
without output. -/
def execTimeout (_ : Nat) : ProbeOutcome :=
  { out := [], code := 124, err := some ExecError.DeadlineExceeded, elapsed := 20000000000 }

/-- The probe outcomes of a run in which every attempt fails with exit code 2
and an output none of the matchers recognizes. -/
def execUnrecognized (_ : Nat) : ProbeOutcome :=
  { out := str "segmentation fault", code := 2, err := none, elapsed := 3000000 }

/-- The probe outcomes of a run in which no attempt can spawn the process:
`ExecuteCommandSecure` returns `("", 1, err)` with a start error. -/
def execStartError (_ : Nat) : ProbeOutcome :=
  { out := [], code := 1, err := some ExecError.Other, elapsed := 1000000 }

/-- The probe outcomes of a run in which the context is already done when the
process is to be started (a timeout of 0): `cmd.Start` returns the error of
the context, so `ExecuteCommandSecure` returns
`("", 1, context.DeadlineExceeded)`. -/
def execStartDeadline (_ : Nat) : ProbeOutcome :=
  { out := [], code := 1, err := some ExecError.DeadlineExceeded, elapsed := 1000 }

/-- The free set of the test `TestPrioritizeModels`. -/
def sampleFreeModels : GoMap Bool :=
  [ (str "opencode/free-model", true), (str "opencode/big-pickle", true) ]

/-- The model list of the test `TestPrioritizeModels`. -/
def sampleModels : List GoString :=
  [ str "anthropic/claude", str "opencode/free-model", str "zai-coding-plan/glm-4.5",
    str "groq/llama-3.1", str "opencode/big-pickle", str "zai-coding-plan/glm-4.7" ]

/-- A stand-in for `regexp.Compile` that rejects the patterns with an
unclosed bracket at their start, as in the test `TestInvalidRegexReturnsError`,
and compiles every other pattern to the substring test for it. -/
def sampleRegexpCompile (p : GoString) : Except GoString Regexp :=
  if HasPrefix p (str "[") = true then
    Except.error (str "error parsing regexp: missing closing ]")
  else Except.ok ⟨fun s => Contains s p⟩

/-- A cached result for the model `groq/llama-3.1`. -/
def sampleCached : ModelResult :=
  { Model := str "groq/llama-3.1", Provider := str "groq", Category := CategoryFreeLimited,
    Reason := str "14.4K req/dia, 30 RPM", DurationMs := 1500, Output := str "2, 3, 5",
    ExitCode := 0, Icon := CategoryIcons.get CategoryFreeLimited }

/-- A world in which the cache never has the model and every probe fails to
start: the worker step `i` under it. -/
def stepOf (i : Nat) : Action := Action.worker i (zeroModelResult, false) execStartError

/-- A schedule for two workers and two jobs: `StartWorkers` spawns both
workers, sends both jobs and closes `jobs`; worker 0 takes the first job and
worker 1 the second; worker 1 reports first; both return; `StartWorkers`
closes `msgChan`. -/
def sampleSchedule : List Action :=
  [ Action.main, Action.main, Action.main, Action.main, Action.main, Action.main,
    stepOf 0, stepOf 1, stepOf 0, stepOf 1, stepOf 1, stepOf 1, stepOf 1,
    stepOf 0, stepOf 0, stepOf 0, stepOf 1, stepOf 0, Action.main ]

/-- The only schedule `StartWorkers` has with a concurrency of 0: leave the
spawning loop, send the jobs (one here), close `jobs`, pass `wg.Wait()`. -/
def scheduleNoWorkers : List Action :=
  [ Action.main, Action.main, Action.main, Action.main ]

/-- A schedule for one worker and one job: `StartWorkers` spawns the worker,
sends the job and closes `jobs`; the worker takes the job, reports it and
returns; `StartWorkers` closes `msgChan`.  At the step that fills `res` the
cache answers with a hit, the record `sampleCached`. -/
def scheduleCachedHit : List Action :=
  [ Action.main, Action.main, Action.main, Action.main,
    stepOf 0, stepOf 0, Action.worker 0 (sampleCached, true) execStartError,
    stepOf 0, stepOf 0, stepOf 0, Action.main ]

/-! ## Auxiliary facts -/

/-- The first element of `Split sep s` always exists: it is the longest
prefix of `s` free of `sep`. -/
theorem Split_head (sep : UInt8) (s : GoString) :
    (Split sep s)[0]? = some (beforeSep sep s) := by
  induction s with
  | nil => simp [Split, beforeSep]
  | cons c cs ih =>
    by_cases hc : c = sep
    · simp [Split, beforeSep, hc]
    · simp only [Split, beforeSep, if_neg hc]
      cases hs : Split sep cs with
      | nil => simp [hs] at ih
      | cons p ps =>
        rw [hs] at ih
        simp at ih
        simp [ih]

/-- Function `HasSuffix` holds exactly for the strings that end with the suffix. -/
theorem HasSuffix_iff (s suffix : GoString) :
    HasSuffix s suffix = true ↔ ∃ p, s = p ++ suffix := by
  constructor
  · intro h
    simp only [HasSuffix, Bool.and_eq_true, decide_eq_true_eq] at h
    refine ⟨s.take (s.length - suffix.length), ?_⟩
    have := List.take_append_drop (s.length - suffix.length) s
    rw [h.2] at this
    exact this.symm
  · rintro ⟨p, rfl⟩
    simp [HasSuffix]

/-- A string free of `sep` is its own `beforeSep`. -/
theorem beforeSep_of_not_mem (sep : UInt8) (a : GoString) (ha : sep ∉ a) :
    beforeSep sep a = a := by
  induction a with
  | nil => rfl
  | cons c cs ih =>
    have hc : c ≠ sep := fun e => ha (by simp [e])
    have hcs : sep ∉ cs := fun e => ha (by simp [e])
    simp [beforeSep, hc, ih hcs]

/-- The provider in the sense of `IsProviderOf` is the prefix `beforeSep`. -/
theorem beforeSep_of_IsProviderOf {provider model : GoString}
    (h : IsProviderOf provider model) : beforeSep slash model = provider := by
  rcases h with ⟨rest, rfl, hp⟩ | ⟨hm, rfl⟩
  · induction provider with
    | nil => simp [beforeSep]
    | cons c cs ih =>
      have hc : c ≠ slash := fun e => hp (by simp [e])
      have hcs : slash ∉ cs := fun e => hp (by simp [e])
      simp [beforeSep, hc, ih hcs]
  · exact beforeSep_of_not_mem _ _ hm

/-- Every identifier has a provider, the prefix `beforeSep`. -/
theorem IsProviderOf_beforeSep (model : GoString) :
    IsProviderOf (beforeSep slash model) model := by
  induction model with
  | nil => right; simp [beforeSep]
  | cons c cs ih =>
    by_cases hc : c = slash
    · left
      exact ⟨cs, by simp [beforeSep, hc], by simp [beforeSep, hc]⟩
    · have hc2 : slash ≠ c := fun e => hc e.symm
      rcases ih with ⟨rest, h1, h2⟩ | ⟨h1, h2⟩
      · left
        refine ⟨rest, ?_, ?_⟩
        · simp only [beforeSep, if_neg hc, List.cons_append]
          exact congrArg (c :: ·) h1
        · simp only [beforeSep, if_neg hc, List.mem_cons, not_or]
          exact ⟨hc2, h2⟩
      · right
        refine ⟨?_, ?_⟩
        · simp only [List.mem_cons, not_or]
          exact ⟨hc2, h1⟩
        · simp only [beforeSep, if_neg hc]
          exact congrArg (c :: ·) h2

/-! ## The precedence of `Classify` (C1 to C6) -/

/-- C1: when the output matches the not-found pattern, `Classify` returns
NOT_FOUND with the icon registered for NOT_FOUND, whatever the model, the
exit code (124 included), the knowledge base and the other patterns. -/
theorem classify_not_found (model : GoString) (exitCode : Int) (output : GoString)
    (compiledKB : Compiled) (h : compiledKB.NotFoundRe.MatchString output = true) :
    Classify model exitCode output compiledKB =
      some { Category := CategoryNotFound,
             Reason := str "Modelo não disponível no OpenCode",
             Icon := CategoryIcons.get CategoryNotFound } := by
  simp [Classify, h]

/-- Instance of C1: exit code 124 and an output that also matches the
timeout matcher. -/
theorem classify_not_found_witness :
    sampleKB.NotFoundRe.MatchString (str "404 not found, timed out") = true ∧
    Classify (str "any/model") 124 (str "404 not found, timed out") sampleKB =
      some { Category := CategoryNotFound,
             Reason := str "Modelo não disponível no OpenCode",
             Icon := CategoryIcons.get CategoryNotFound } :=
  ⟨by decide, classify_not_found _ _ _ _ (by decide)⟩

/-- C2: when the output does not match the not-found pattern and the exit
code is 124 or the output matches the timeout pattern, `Classify` returns
TIMEOUT, whatever the model and the other patterns. -/
theorem classify_timeout (model : GoString) (exitCode : Int) (output : GoString)
    (compiledKB : Compiled) (hnf : compiledKB.NotFoundRe.MatchString output = false)
    (ht : exitCode = 124 ∨ compiledKB.TimeoutRe.MatchString output = true) :
    Classify model exitCode output compiledKB =
      some { Category := CategoryTimeout,
             Reason := str "Timeout (20s)",
             Icon := CategoryIcons.get CategoryTimeout } := by
  simp [Classify, hnf, ht]

/-- Instance of C2: a known-free model ending in `-free`, exit code 0, and
an output matching the success, quota and timeout matchers. -/
theorem classify_timeout_witness :
    sampleKB.NotFoundRe.MatchString (str "2, 3, 5 quota timed out") = false ∧
    ((0 : Int) = 124 ∨ sampleKB.TimeoutRe.MatchString (str "2, 3, 5 quota timed out") = true) ∧
    Classify (str "opencode/glm-4.7-free") 0 (str "2, 3, 5 quota timed out") sampleKB =
      some { Category := CategoryTimeout,
             Reason := str "Timeout (20s)",
             Icon := CategoryIcons.get CategoryTimeout } :=
  ⟨by decide, by decide, classify_timeout _ _ _ _ (by decide) (by decide)⟩

/-- C3: when neither the not-found rule nor the timeout rule applies and the
model is a key of the known-free-models map with entry `e`, `Classify`
returns `e.Category` with reason `e.Description` if the exit code is 0 and
the output matches the success pattern, and otherwise FREE_ERROR with reason
`e.Description` followed by " (falhou no teste)"; replacing the quota, auth
and rate-limit matchers changes nothing. -/
theorem classify_known_free (model : GoString) (exitCode : Int) (output : GoString)
    (compiledKB : Compiled) (e : ModelInfo)
    (hnf : compiledKB.NotFoundRe.MatchString output = false)
    (hcode : exitCode ≠ 124)
    (hto : compiledKB.TimeoutRe.MatchString output = false)
    (hkey : GoMap.get? compiledKB.Config.FreeModels model = some e) :
    (exitCode = 0 ∧ compiledKB.SuccessRe.MatchString output = true →
      Classify model exitCode output compiledKB =
        some { Category := e.Category,
               Reason := e.Description,
               Icon := CategoryIcons.get e.Category }) ∧
    (¬ (exitCode = 0 ∧ compiledKB.SuccessRe.MatchString output = true) →
      Classify model exitCode output compiledKB =
        some { Category := CategoryFreeError,
               Reason := e.Description ++ str " (falhou no teste)",
               Icon := CategoryIcons.get CategoryFreeError }) ∧
    (∀ q a r : Regexp,
      Classify model exitCode output
          { compiledKB with QuotaRe := q, AuthRe := a, RateLimitRe := r } =
        Classify model exitCode output compiledKB) := by
  refine ⟨fun hs => ?_, fun hs => ?_, fun q a r => ?_⟩
  · simp [Classify, hnf, hcode, hto, hkey, hs]
  · simp only [Classify, hnf, hcode, hto, hkey, if_neg hs]
    simp
  · simp [Classify, hnf, hcode, hto, hkey]

/-- Instance of C3: a known-free model of the default configuration that
fails with an output matching the quota matcher. -/
theorem classify_known_free_witness :
    Classify (str "opencode/big-pickle") 1 (str "quota exceeded") sampleKB =
      some { Category := CategoryFreeError,
             Reason := str "Zen - Big Pickle (falhou no teste)",
             Icon := CategoryIcons.get CategoryFreeError } :=
  (classify_known_free (str "opencode/big-pickle") 1 (str "quota exceeded") sampleKB
    { Category := CategoryFree, Description := str "Zen - Big Pickle",
      Limits := str "limites não documentados" }
    (by decide) (by decide) (by decide) (by decide)).2.1 (by decide)

/-- C4: when the not-found and timeout rules do not apply, the model is not
a key of the known-free-models map and it ends with "-free", `Classify`
returns FREE if the exit code is 0 and the output matches the success
pattern, and FREE_ERROR in every other case, whatever the quota, auth and
rate-limit matchers say. -/
theorem classify_free_suffix (model : GoString) (exitCode : Int) (output : GoString)
    (compiledKB : Compiled)
    (hnf : compiledKB.NotFoundRe.MatchString output = false)
    (hcode : exitCode ≠ 124)
    (hto : compiledKB.TimeoutRe.MatchString output = false)
    (hkey : GoMap.get? compiledKB.Config.FreeModels model = none)
    (hsuf : ∃ p, model = p ++ str "-free") :
    (exitCode = 0 ∧ compiledKB.SuccessRe.MatchString output = true →
      Classify model exitCode output compiledKB =
        some { Category := CategoryFree,
               Reason := str "Sufixo -free detectado",
               Icon := CategoryIcons.get CategoryFree }) ∧
    (¬ (exitCode = 0 ∧ compiledKB.SuccessRe.MatchString output = true) →
      Classify model exitCode output compiledKB =
        some { Category := CategoryFreeError,
               Reason := str "Sufixo -free (falhou)",
               Icon := CategoryIcons.get CategoryFreeError }) := by
  have hs : HasSuffix model (str "-free") = true := (HasSuffix_iff _ _).2 hsuf
  refine ⟨fun h => ?_, fun h => ?_⟩
  · simp [Classify, hnf, hcode, hto, hkey, hs, h]
  · simp only [Classify, hnf, hcode, hto, hkey, hs, if_neg h]
    simp

/-- Instance of C4: an unknown model ending in "-free" that fails with an
output matching the auth matcher. -/
theorem classify_free_suffix_witness :
    Classify (str "unknown/model-free") 1 (str "unauthorized") sampleKB =
      some { Category := CategoryFreeError,
             Reason := str "Sufixo -free (falhou)",
             Icon := CategoryIcons.get CategoryFreeError } :=
  (classify_free_suffix (str "unknown/model-free") 1 (str "unauthorized") sampleKB
    (by decide) (by decide) (by decide) (by decide)
    ⟨str "unknown/model", by decide⟩).2 (by decide)

/-- C5: when rules 1 to 4 do not apply, the exit code is 0 and the output
matches the success pattern, `Classify` returns the category and the limits
of the free-tier-providers entry of the model's provider when there is one,
and AVAILABLE otherwise.  The provider is the text before the first "/", or
the whole identifier when it has no "/". -/
theorem classify_generic_success (model provider : GoString) (output : GoString)
    (compiledKB : Compiled)
    (hnf : compiledKB.NotFoundRe.MatchString output = false)
    (hto : compiledKB.TimeoutRe.MatchString output = false)
    (hkey : GoMap.get? compiledKB.Config.FreeModels model = none)
    (hsuf : ¬ ∃ p, model = p ++ str "-free")
    (hs : compiledKB.SuccessRe.MatchString output = true)
    (hprov : IsProviderOf provider model) :
    (∀ p, GoMap.get? compiledKB.Config.FreeTierProviders provider = some p →
      Classify model 0 output compiledKB =
        some { Category := p.Category,
               Reason := p.Limits,
               Icon := CategoryIcons.get p.Category }) ∧
    (GoMap.get? compiledKB.Config.FreeTierProviders provider = none →
      Classify model 0 output compiledKB =
        some { Category := CategoryAvailable,
               Reason := str "Modelo disponível",
               Icon := CategoryIcons.get CategoryAvailable }) := by
  have hsf : HasSuffix model (str "-free") = false := by
    cases h : HasSuffix model (str "-free") with
    | false => rfl
    | true => exact absurd ((HasSuffix_iff _ _).1 h) hsuf
  have hp : (Split slash model)[0]? = some provider := by
    rw [Split_head, beforeSep_of_IsProviderOf hprov]
  refine ⟨fun p h => ?_, fun h => ?_⟩
  · simp [Classify, hnf, hto, hkey, hsf, hs, hp, h]
  · simp [Classify, hnf, hto, hkey, hsf, hs, hp, h]

/-- Instance of C5: a model of the free-tier provider `groq`. -/
theorem classify_generic_success_witness :
    Classify (str "groq/llama-3.1") 0 (str "2, 3, 5") sampleKB =
      some { Category := CategoryFreeLimited,
             Reason := str "14.4K req/dia, 30 RPM",
             Icon := CategoryIcons.get CategoryFreeLimited } :=
  (classify_generic_success (str "groq/llama-3.1") (str "groq") (str "2, 3, 5") sampleKB
    (by decide) (by decide) (by decide)
    (by rw [← HasSuffix_iff]; decide) (by decide)
    (Or.inl ⟨str "llama-3.1", by decide, by decide⟩)).1
    { Category := CategoryFreeLimited, Description := str "Groq",
      Limits := str "14.4K req/dia, 30 RPM" } (by decide)

/-- C6: when none of rules 1 to 5 applies, `Classify` returns NO_QUOTA if the
output matches the quota pattern, otherwise AUTH_FAILED if it matches the
auth pattern, otherwise RATE_LIMITED if it matches the rate-limit pattern,
otherwise ERROR. -/
theorem classify_error_patterns (model : GoString) (exitCode : Int) (output : GoString)
    (compiledKB : Compiled)
    (hnf : compiledKB.NotFoundRe.MatchString output = false)
    (hcode : exitCode ≠ 124)
    (hto : compiledKB.TimeoutRe.MatchString output = false)
    (hkey : GoMap.get? compiledKB.Config.FreeModels model = none)
    (hsuf : ¬ ∃ p, model = p ++ str "-free")
    (hns : ¬ (exitCode = 0 ∧ compiledKB.SuccessRe.MatchString output = true)) :
    Classify model exitCode output compiledKB =
      if compiledKB.QuotaRe.MatchString output = true then
        some { Category := CategoryNoQuota,
               Reason := str "Sem créditos",
               Icon := CategoryIcons.get CategoryNoQuota }
      else if compiledKB.AuthRe.MatchString output = true then
        some { Category := CategoryAuthFailed,
               Reason := str "API key inválida",
               Icon := CategoryIcons.get CategoryAuthFailed }
      else if compiledKB.RateLimitRe.MatchString output = true then
        some { Category := CategoryRateLimited,
               Reason := str "Rate limit",
               Icon := CategoryIcons.get CategoryRateLimited }
      else
        some { Category := CategoryError,
               Reason := str "Erro desconhecido",
               Icon := CategoryIcons.get CategoryError } := by
  have hsf : HasSuffix model (str "-free") = false := by
    cases h : HasSuffix model (str "-free") with
    | false => rfl
    | true => exact absurd ((HasSuffix_iff _ _).1 h) hsuf
  simp only [Classify, hnf, hcode, hto, hkey, hsf, if_neg hns]
  simp

/-- Instance of C6: an output matching the quota, auth and rate-limit
matchers at once is classified NO_QUOTA. -/
theorem classify_error_patterns_witness :
    Classify (str "test/model") 1 (str "quota unauthorized rate limit") sampleKB =
      some { Category := CategoryNoQuota,
             Reason := str "Sem créditos",
             Icon := CategoryIcons.get CategoryNoQuota } :=
  classify_error_patterns (str "test/model") 1 (str "quota unauthorized rate limit") sampleKB
    (by decide) (by decide) (by decide) (by decide)
    (by rw [← HasSuffix_iff]; decide) (by decide)

/-! ## Well-formed results of `Classify` (C7, C8) -/

theorem GoMap.get?_mem {V : Type} (m : GoMap V) (k : GoString) (v : V)
    (h : GoMap.get? m k = some v) : (k, v) ∈ m := by
  induction m with
  | nil => simp [GoMap.get?] at h
  | cons kv rest ih =>
    obtain ⟨k', v'⟩ := kv
    by_cases hk : k' = k
    · simp [GoMap.get?, hk] at h
      simp [hk, h]
    · simp only [GoMap.get?, if_neg hk] at h
      exact List.mem_cons_of_mem _ (ih h)

theorem icons_total : ∀ c ∈ AllCategories, c ≠ [] ∧ CategoryIcons.get c ≠ [] := by
  decide

theorem append_annotation_ne_nil (d : GoString) : d ++ str " (falhou no teste)" ≠ [] := by
  intro h
  have := congrArg List.length h
  simp at this
  exact absurd this.2 (by decide)

/-- The shape of every result of `Classify`. -/
theorem Classify_shape (model : GoString) (exitCode : Int) (output : GoString)
    (compiledKB : Compiled) :
    ∃ r, Classify model exitCode output compiledKB = some r ∧
      r.Icon = CategoryIcons.get r.Category ∧
      ((r.Category ∈ failureCategories ∧ r.Reason ≠ []) ∨
       ((exitCode = 0 ∧ compiledKB.SuccessRe.MatchString output = true) ∧
        ((r.Category ∈ [CategoryFree, CategoryAvailable] ∧ r.Reason ≠ []) ∨
         (∃ e, GoMap.get? compiledKB.Config.FreeModels model = some e ∧
            r.Category = e.Category ∧ r.Reason = e.Description) ∨
         (∃ p, GoMap.get? compiledKB.Config.FreeTierProviders (beforeSep slash model) = some p ∧
            r.Category = p.Category ∧ r.Reason = p.Limits)))) := by
  unfold Classify
  split
  · exact ⟨_, rfl, rfl, Or.inl ⟨by decide, by decide⟩⟩
  split
  · exact ⟨_, rfl, rfl, Or.inl ⟨by decide, by decide⟩⟩
  split
  · rename_i info hinfo
    split
    · rename_i hs
      exact ⟨_, rfl, rfl, Or.inr ⟨hs, Or.inr (Or.inl ⟨info, hinfo, rfl, rfl⟩)⟩⟩
    · exact ⟨_, rfl, rfl, Or.inl ⟨by simp [failureCategories], append_annotation_ne_nil _⟩⟩
  · split
    · split
      · rename_i hs
        exact ⟨_, rfl, rfl, Or.inr ⟨hs, Or.inl ⟨by decide, by decide⟩⟩⟩
      · exact ⟨_, rfl, rfl, Or.inl ⟨by decide, by decide⟩⟩
    split
    · rename_i hs
      rw [Split_head]
      cases hp : GoMap.get? compiledKB.Config.FreeTierProviders (beforeSep slash model) with
      | none =>
        simp only [hp]
        exact ⟨_, rfl, rfl, Or.inr ⟨hs, Or.inl ⟨by decide, by decide⟩⟩⟩
      | some p =>
        simp only [hp]
        exact ⟨_, rfl, rfl, Or.inr ⟨hs, Or.inr (Or.inr ⟨p, rfl, rfl, rfl⟩)⟩⟩
    split
    · exact ⟨_, rfl, rfl, Or.inl ⟨by decide, by decide⟩⟩
    split
    · exact ⟨_, rfl, rfl, Or.inl ⟨by decide, by decide⟩⟩
    split
    · exact ⟨_, rfl, rfl, Or.inl ⟨by decide, by decide⟩⟩
    · exact ⟨_, rfl, rfl, Or.inl ⟨by decide, by decide⟩⟩

theorem failureCategories_sub :
    ∀ c ∈ failureCategories, c ∈ AllCategories ∧ c ≠ CategoryPaid := by
  decide

theorem successCategories_sub :
    ∀ c ∈ [CategoryFree, CategoryAvailable], c ∈ AllCategories ∧ c ≠ CategoryPaid := by
  decide

theorem DefaultConfig_FreeModels_wf (k : GoString) (e : ModelInfo)
    (h : GoMap.get? DefaultConfig.FreeModels k = some e) :
    e.Category = CategoryFree ∧ e.Description ≠ [] := by
  have hall : ∀ kv ∈ DefaultConfig.FreeModels,
      kv.2.Category = CategoryFree ∧ kv.2.Description ≠ [] := by decide
  exact hall _ (GoMap.get?_mem _ _ _ h)

theorem DefaultConfig_FreeTierProviders_wf (k : GoString) (p : ProviderInfo)
    (h : GoMap.get? DefaultConfig.FreeTierProviders k = some p) :
    p.Category = CategoryFreeLimited ∧ p.Limits ≠ [] := by
  have hall : ∀ kv ∈ DefaultConfig.FreeTierProviders,
      kv.2.Category = CategoryFreeLimited ∧ kv.2.Limits ≠ [] := by decide
  exact hall _ (GoMap.get?_mem _ _ _ h)

/-- C7, as stated, fails: with a knowledge base whose override adds a
known-free model without category and description, a successful probe of
that model is classified with an empty category, reason and icon. -/
theorem classify_fields_empty_counterexample :
    Classify (str "x/y") 0 (str "2, 3, 5") overrideKB =
      some { Category := [], Reason := [], Icon := [] } ∧
    ¬ ∃ r, Classify (str "x/y") 0 (str "2, 3, 5") overrideKB = some r ∧
        r.Category ≠ [] ∧ r.Reason ≠ [] ∧ r.Icon ≠ [] := by
  have h : Classify (str "x/y") 0 (str "2, 3, 5") overrideKB =
      some { Category := [], Reason := [], Icon := [] } := by decide
  refine ⟨h, ?_⟩
  rintro ⟨r, hr, hc, -, -⟩
  rw [h] at hr
  cases hr
  exact hc rfl

/-- C7, amended: for every compiled knowledge base whose known-free-model
entries each declare one of the enumerated categories and a non-empty
description, and whose free-tier-provider entries each declare one of the
enumerated categories and non-empty limits, `Classify` returns a result with
a non-empty category, a non-empty reason and a non-empty icon. -/
theorem classify_fields_nonempty (model : GoString) (exitCode : Int) (output : GoString)
    (compiledKB : Compiled)
    (hm : ∀ k e, GoMap.get? compiledKB.Config.FreeModels k = some e →
      e.Category ∈ AllCategories ∧ e.Description ≠ [])
    (hp : ∀ k p, GoMap.get? compiledKB.Config.FreeTierProviders k = some p →
      p.Category ∈ AllCategories ∧ p.Limits ≠ []) :
    ∃ r, Classify model exitCode output compiledKB = some r ∧
      r.Category ≠ [] ∧ r.Reason ≠ [] ∧ r.Icon ≠ [] := by
  obtain ⟨r, hr, hicon, hcases⟩ := Classify_shape model exitCode output compiledKB
  have hcat : r.Category ∈ AllCategories ∧ r.Reason ≠ [] := by
    rcases hcases with ⟨hc, hre⟩ | ⟨-, ⟨hc, hre⟩ | ⟨e, he, hc, hre⟩ | ⟨p, hpe, hc, hre⟩⟩
    · exact ⟨(failureCategories_sub _ hc).1, hre⟩
    · exact ⟨(successCategories_sub _ hc).1, hre⟩
    · rw [hc, hre]; exact hm _ _ he
    · rw [hc, hre]; exact hp _ _ hpe
  refine ⟨r, hr, (icons_total _ hcat.1).1, hcat.2, ?_⟩
  rw [hicon]
  exact (icons_total _ hcat.1).2

/-- Instance of C7 (amended) at the default configuration. -/
theorem classify_fields_nonempty_witness :
    ∃ r, Classify (str "groq/llama-3.1") 0 (str "2, 3, 5") sampleKB = some r ∧
      r.Category ≠ [] ∧ r.Reason ≠ [] ∧ r.Icon ≠ [] :=
  classify_fields_nonempty (str "groq/llama-3.1") 0 (str "2, 3, 5") sampleKB
    (fun k e h => by
      have := DefaultConfig_FreeModels_wf k e h
      exact ⟨by rw [this.1]; decide, this.2⟩)
    (fun k p h => by
      have := DefaultConfig_FreeTierProviders_wf k p h
      exact ⟨by rw [this.1]; decide, this.2⟩)

/-- C8: with the built-in default configuration and any six matchers,
`Classify` returns, for every model, exit code and output, one of the
enumerated categories other than PAID, with a non-empty icon and a non-empty
reason. -/
theorem classify_default_config (model : GoString) (exitCode : Int) (output : GoString)
    (compiledKB : Compiled) (hcfg : compiledKB.Config = DefaultConfig) :
    ∃ r, Classify model exitCode output compiledKB = some r ∧
      r.Category ∈ AllCategories ∧ r.Category ≠ CategoryPaid ∧
      r.Icon ≠ [] ∧ r.Reason ≠ [] := by
  obtain ⟨r, hr, hicon, hcases⟩ := Classify_shape model exitCode output compiledKB
  rw [hcfg] at hcases
  have hcat : (r.Category ∈ AllCategories ∧ r.Category ≠ CategoryPaid) ∧ r.Reason ≠ [] := by
    rcases hcases with ⟨hc, hre⟩ | ⟨-, ⟨hc, hre⟩ | ⟨e, he, hc, hre⟩ | ⟨p, hpe, hc, hre⟩⟩
    · exact ⟨failureCategories_sub _ hc, hre⟩
    · exact ⟨successCategories_sub _ hc, hre⟩
    · have := DefaultConfig_FreeModels_wf _ e he
      rw [hc, hre, this.1]
      exact ⟨by decide, this.2⟩
    · have := DefaultConfig_FreeTierProviders_wf _ p hpe
      rw [hc, hre, this.1]
      exact ⟨by decide, this.2⟩
  refine ⟨r, hr, hcat.1.1, hcat.1.2, ?_, hcat.2⟩
  rw [hicon]
  exact (icons_total _ hcat.1.1).2

/-- Instance of C8: a known-free model of the default configuration. -/
theorem classify_default_config_witness :
    sampleKB.Config = DefaultConfig ∧
    ∃ r, Classify (str "opencode/big-pickle") 0 (str "2, 3, 5") sampleKB = some r ∧
      r.Category ∈ AllCategories ∧ r.Category ≠ CategoryPaid ∧
      r.Icon ≠ [] ∧ r.Reason ≠ [] :=
  ⟨rfl, classify_default_config _ _ _ sampleKB rfl⟩

/-! ## The retry loop of `TestModel` (C9, C10) -/

theorem retryLoop_of_lt (compiledKB : Compiled) (retries : Int) (exec : Nat → ProbeOutcome)
    (fuel attempt : Nat) (st : LoopState) (h : retries < (attempt : Int)) :
    retryLoop compiledKB retries exec fuel attempt st = st := by
  cases fuel with
  | zero => rfl
  | succ n => simp [retryLoop, not_le.2 h]

/-- The retry loop, described: when the loop test holds at `attempt` and the
iteration bound is large enough, the loop runs the attempts `attempt, ...,
last` for some `last <= retries`, every attempt before `last` carries on to
the next, attempt `last` does not unless it is attempt `retries`, and the
loop leaves the outcome of attempt `last` in its variables. -/
theorem retryLoop_spec (compiledKB : Compiled) (retries : Int) (exec : Nat → ProbeOutcome) :
    ∀ (fuel attempt : Nat) (st : LoopState),
      retries + 1 ≤ (attempt : Int) + fuel → (attempt : Int) ≤ retries →
      ∃ n : Nat, ((attempt + n : Nat) : Int) ≤ retries ∧
        (retryLoop compiledKB retries exec fuel attempt st).lastOut = (exec (attempt + n)).out ∧
        (retryLoop compiledKB retries exec fuel attempt st).exitCode =
          effectiveExit (exec (attempt + n)) ∧
        (retryLoop compiledKB retries exec fuel attempt st).duration =
          (exec (attempt + n)).elapsed ∧
        (retryLoop compiledKB retries exec fuel attempt st).trace =
          st.trace ++ segmentEvents compiledKB exec attempt n ++ [Event.probe (attempt + n)] ∧
        (∀ a, attempt ≤ a → a < attempt + n → CarriesOn compiledKB retries exec a) ∧
        (((attempt + n : Nat) : Int) < retries →
          ¬ CarriesOn compiledKB retries exec (attempt + n)) := by
  intro fuel
  induction fuel with
  | zero =>
    intro attempt st hfuel hle
    omega
  | succ fuel ih =>
    intro attempt st hfuel hle
    -- the recursive call, when the body carries on and attempts remain
    have hrec : ∀ st2 : LoopState, CarriesOn compiledKB retries exec attempt →
        ((attempt + 1 : Nat) : Int) ≤ retries →
        st2.trace = st.trace ++ attemptEvents compiledKB exec attempt →
        ∃ n : Nat, ((attempt + n : Nat) : Int) ≤ retries ∧
          (retryLoop compiledKB retries exec fuel (attempt + 1) st2).lastOut =
            (exec (attempt + n)).out ∧
          (retryLoop compiledKB retries exec fuel (attempt + 1) st2).exitCode =
            effectiveExit (exec (attempt + n)) ∧
          (retryLoop compiledKB retries exec fuel (attempt + 1) st2).duration =
            (exec (attempt + n)).elapsed ∧
          (retryLoop compiledKB retries exec fuel (attempt + 1) st2).trace =
            st.trace ++ segmentEvents compiledKB exec attempt n ++ [Event.probe (attempt + n)] ∧
          (∀ a, attempt ≤ a → a < attempt + n → CarriesOn compiledKB retries exec a) ∧
          (((attempt + n : Nat) : Int) < retries →
            ¬ CarriesOn compiledKB retries exec (attempt + n)) := by
      intro st2 hcarry hnext h4
      obtain ⟨n, hn, g1, g2, g3, g4, g5, g6⟩ :=
        ih (attempt + 1) st2 (by push_cast at hfuel ⊢; omega) hnext
      have e : attempt + 1 + n = attempt + (n + 1) := by omega
      rw [e] at hn g1 g2 g3 g4 g6
      refine ⟨n + 1, hn, g1, g2, g3, ?_, ?_, g6⟩
      · rw [g4, h4]
        simp [segmentEvents, List.append_assoc]
      · intro a ha1 ha2
        by_cases hae : a = attempt
        · rw [hae]; exact hcarry
        · exact g5 a (by omega) (by omega)
    -- the loop stops at this attempt
    have hstop : retryLoop compiledKB retries exec (fuel + 1) attempt st =
          { lastOut := (exec attempt).out, exitCode := effectiveExit (exec attempt),
            duration := (exec attempt).elapsed,
            trace := st.trace ++ [Event.probe attempt] } →
        ((attempt : Int) < retries → ¬ CarriesOn compiledKB retries exec attempt) →
        ∃ n : Nat, ((attempt + n : Nat) : Int) ≤ retries ∧
          (retryLoop compiledKB retries exec (fuel + 1) attempt st).lastOut =
            (exec (attempt + n)).out ∧
          (retryLoop compiledKB retries exec (fuel + 1) attempt st).exitCode =
            effectiveExit (exec (attempt + n)) ∧
          (retryLoop compiledKB retries exec (fuel + 1) attempt st).duration =
            (exec (attempt + n)).elapsed ∧
          (retryLoop compiledKB retries exec (fuel + 1) attempt st).trace =
            st.trace ++ segmentEvents compiledKB exec attempt n ++ [Event.probe (attempt + n)] ∧
          (∀ a, attempt ≤ a → a < attempt + n → CarriesOn compiledKB retries exec a) ∧
          (((attempt + n : Nat) : Int) < retries →
            ¬ CarriesOn compiledKB retries exec (attempt + n)) := by
      intro hres h5
      rw [hres]
      refine ⟨0, by simpa using hle, rfl, rfl, rfl, by simp [segmentEvents], ?_, by simpa using h5⟩
      intro a ha1 ha2
      omega
    by_cases hs : effectiveExit (exec attempt) = 0 ∧
        compiledKB.SuccessRe.MatchString (exec attempt).out = true
    · exact hstop (by simp only [retryLoop, if_pos hle, if_pos hs]) (fun _ hc => hc.1 hs)
    by_cases hn : compiledKB.NotFoundRe.MatchString (exec attempt).out = true ∨
        compiledKB.AuthRe.MatchString (exec attempt).out = true ∨
        compiledKB.QuotaRe.MatchString (exec attempt).out = true
    · exact hstop (by simp only [retryLoop, if_pos hle, if_neg hs, if_pos hn])
        (fun _ hc => hc.2.1 hn)
    by_cases hrl : compiledKB.RateLimitRe.MatchString (exec attempt).out = true ∧
        (attempt : Int) < retries
    · have hres : retryLoop compiledKB retries exec (fuel + 1) attempt st =
          retryLoop compiledKB retries exec fuel (attempt + 1)
            { lastOut := (exec attempt).out, exitCode := effectiveExit (exec attempt),
              duration := (exec attempt).elapsed,
              trace := (st.trace ++ [Event.probe attempt]) ++
                [Event.sleep ((attempt + 1) * 500)] } := by
        simp only [retryLoop, if_pos hle, if_neg hs, if_neg hn, if_pos hrl]
      rw [hres]
      exact hrec _ ⟨hs, hn, Or.inl hrl⟩ (by push_cast; omega)
        (by simp [attemptEvents, hrl.1])
    by_cases h124 : effectiveExit (exec attempt) = 124
    · exact hstop (by simp only [retryLoop, if_pos hle, if_neg hs, if_neg hn, if_neg hrl,
        if_pos h124])
        (fun _ hc => hc.2.2.elim (fun h => hrl h) (fun h => h h124))
    · have hres : retryLoop compiledKB retries exec (fuel + 1) attempt st =
          retryLoop compiledKB retries exec fuel (attempt + 1)
            { lastOut := (exec attempt).out, exitCode := effectiveExit (exec attempt),
              duration := (exec attempt).elapsed,
              trace := st.trace ++ [Event.probe attempt] } := by
        simp only [retryLoop, if_pos hle, if_neg hs, if_neg hn, if_neg hrl, if_neg h124]
      by_cases hnext : ((attempt + 1 : Nat) : Int) ≤ retries
      · rw [hres]
        have hnorl : ¬ compiledKB.RateLimitRe.MatchString (exec attempt).out = true :=
          fun h => hrl ⟨h, by push_cast at hnext; omega⟩
        exact hrec _ ⟨hs, hn, Or.inr h124⟩ hnext (by simp [attemptEvents, hnorl])
      · refine hstop ?_ (fun h => absurd h (by push_cast at hnext; omega))
        rw [hres]
        exact retryLoop_of_lt _ _ _ _ _ _ (by push_cast at hnext ⊢; omega)

/-- The iteration bound is immaterial once it covers the attempts left:
`Retries + 1 - attempt` iterations are never exhausted. -/
theorem retryLoop_fuel (compiledKB : Compiled) (retries : Int) (exec : Nat → ProbeOutcome)
    (k : Nat) :
    ∀ (fuel attempt : Nat) (st : LoopState), retries + 1 ≤ (attempt : Int) + fuel →
      retryLoop compiledKB retries exec (fuel + k) attempt st =
        retryLoop compiledKB retries exec fuel attempt st := by
  intro fuel
  induction fuel with
  | zero =>
    intro attempt st h
    rw [retryLoop_of_lt _ _ _ _ _ _ (by omega), retryLoop_of_lt _ _ _ _ _ _ (by omega)]
  | succ fuel ih =>
    intro attempt st h
    have e : fuel + 1 + k = (fuel + k) + 1 := by omega
    rw [e]
    simp only [retryLoop]
    split_ifs <;> first | rfl | exact ih _ _ (by push_cast at h ⊢; omega)

theorem mem_segmentEvents (compiledKB : Compiled) (exec : Nat → ProbeOutcome) (b : Nat) :
    ∀ (n attempt : Nat), Event.probe b ∈ segmentEvents compiledKB exec attempt n →
      attempt ≤ b ∧ b < attempt + n := by
  intro n
  induction n with
  | zero => intro attempt h; simp [segmentEvents] at h
  | succ n ih =>
    intro attempt h
    simp only [segmentEvents, List.mem_append] at h
    rcases h with h | h
    · have : b = attempt := by
        unfold attemptEvents at h
        split_ifs at h <;> simpa using h
      omega
    · have := ih _ h
      omega

theorem wrapInt64_of_range (x : Int) (h0 : -(2 : Int) ^ 63 ≤ x) (h1 : x < (2 : Int) ^ 63) :
    wrapInt64 x = x := by
  unfold wrapInt64
  have e63 : (2 : Int) ^ 63 = 9223372036854775808 := by norm_num
  have e64 : (2 : Int) ^ 64 = 18446744073709551616 := by norm_num
  rw [e63] at h0 h1 ⊢
  rw [e64]
  rw [Int.emod_eq_of_lt (by omega) (by omega)]
  omega

/-- Function `SmartTrim` does not panic for a budget of at least 0 and less than 2^52
kilobytes. -/
theorem SmartTrim_isSome (s : GoString) (maxKB : Int) (h0 : 0 ≤ maxKB)
    (h1 : maxKB < (2 : Int) ^ 52) : (SmartTrim s maxKB).isSome = true := by
  have e52 : (2 : Int) ^ 52 = 4503599627370496 := by norm_num
  have e63 : (2 : Int) ^ 63 = 9223372036854775808 := by norm_num
  rw [e52] at h1
  have w1 : wrapInt64 (maxKB * 1024) = maxKB * 1024 :=
    wrapInt64_of_range _ (by rw [e63]; omega) (by rw [e63]; omega)
  have w2 : wrapInt64 (maxKB * 1024 * 2) = maxKB * 1024 * 2 :=
    wrapInt64_of_range _ (by rw [e63]; omega) (by rw [e63]; omega)
  unfold SmartTrim
  simp only [w1, w2]
  split_ifs with hle
  · rfl
  · have hd : Int.tdiv (maxKB * 1024 * 2) 5 = maxKB * 1024 * 2 / 5 :=
      Int.tdiv_eq_ediv (by omega) (by omega)
    rw [hd]
    have hh : 0 ≤ maxKB * 1024 * 2 / 5 ∧ maxKB * 1024 * 2 / 5 ≤ (s.length : Int) := by omega
    have ht : 0 ≤ (s.length : Int) - maxKB * 1024 * 2 / 5 ∧
        (s.length : Int) - maxKB * 1024 * 2 / 5 ≤ (s.length : Int) := by omega
    simp [sliceTo, sliceFrom, hh, ht]

/-- C9: for `Retries >= 0`, the result of `TestModel` is built from the last
probe attempt only.  There is an attempt `last <= Retries` whose probe is the
last event of the loop, and `TestModel` returns exactly the record made of
`ExtractProvider(model)`, of the exit code of attempt `last` (124 when its
error is the deadline error), of `SmartTrim` of its output, and of `Classify`
applied to that exit code and that trimmed output; no outcome of another
attempt occurs in it.  `TestModel` returns a result whenever `MaxOutputKB` is
at least 0 and below 2^52. -/
theorem testModel_last_attempt (modelName : GoString) (cfg : RunConfig)
    (compiledKB : Compiled) (exec : Nat → ProbeOutcome) (hr : 0 ≤ cfg.Retries) :
    ∃ last : Nat, (last : Int) ≤ cfg.Retries ∧
      (∃ pre, (runLoop cfg compiledKB exec).trace = pre ++ [Event.probe last] ∧
        ∀ b, Event.probe b ∈ pre → b < last) ∧
      ((exec last).err = some ExecError.DeadlineExceeded → effectiveExit (exec last) = 124) ∧
      ((exec last).err ≠ some ExecError.DeadlineExceeded →
        effectiveExit (exec last) = (exec last).code) ∧
      TestModel modelName cfg compiledKB exec =
        (match SmartTrim (exec last).out cfg.MaxOutputKB with
         | none => none
         | some outTrimmed =>
           match Classify modelName (effectiveExit (exec last)) outTrimmed compiledKB with
           | none => none
           | some result =>
             some { Model := modelName,
                    Provider := ExtractProvider modelName,
                    Category := result.Category,
                    Reason := result.Reason,
                    Icon := result.Icon,
                    DurationMs := Int.tdiv (exec last).elapsed 1000000,
                    Output := outTrimmed,
                    ExitCode := effectiveExit (exec last) }) ∧
      (0 ≤ cfg.MaxOutputKB → cfg.MaxOutputKB < (2 : Int) ^ 52 →
        (TestModel modelName cfg compiledKB exec).isSome = true) := by
  obtain ⟨n, hn, h1, h2, h3, h4, -, -⟩ :=
    retryLoop_spec compiledKB cfg.Retries exec (cfg.Retries + 1).toNat 0 initState
      (by have := Int.toNat_of_nonneg (show 0 ≤ cfg.Retries + 1 by omega); omega)
      (by simpa using hr)
  simp only [Nat.zero_add] at hn h1 h2 h3 h4
  have heq : TestModel modelName cfg compiledKB exec =
      (match SmartTrim (exec n).out cfg.MaxOutputKB with
       | none => none
       | some outTrimmed =>
         match Classify modelName (effectiveExit (exec n)) outTrimmed compiledKB with
         | none => none
         | some result =>
           some { Model := modelName,
                  Provider := ExtractProvider modelName,
                  Category := result.Category,
                  Reason := result.Reason,
                  Icon := result.Icon,
                  DurationMs := Int.tdiv (exec n).elapsed 1000000,
                  Output := outTrimmed,
                  ExitCode := effectiveExit (exec n) }) := by
    simp only [TestModel, runLoop, h1, h2, h3]
  refine ⟨n, hn, ⟨segmentEvents compiledKB exec 0 n, ?_, ?_⟩, ?_, ?_, heq, ?_⟩
  · simpa [runLoop, initState] using h4
  · intro b hb
    have := mem_segmentEvents compiledKB exec b n 0 hb
    omega
  · intro h; simp [effectiveExit, h]
  · intro h; simp [effectiveExit, h]
  · intro m0 m1
    rw [heq]
    obtain ⟨t, ht⟩ := Option.isSome_iff_exists.1 (SmartTrim_isSome (exec n).out _ m0 m1)
    obtain ⟨r, hr', -⟩ := Classify_shape modelName (effectiveExit (exec n)) t compiledKB
    simp [ht, hr']

/-- Instance of C9: one retry, a rate-limited first attempt and a successful
second one. -/
theorem testModel_last_attempt_witness :
    0 ≤ sampleCfg.Retries ∧
    ∃ last : Nat, (last : Int) ≤ sampleCfg.Retries ∧
      (∃ pre, (runLoop sampleCfg sampleKB execRateLimitedThenOk).trace =
          pre ++ [Event.probe last] ∧ ∀ b, Event.probe b ∈ pre → b < last) ∧
      TestModel (str "unknown/model") sampleCfg sampleKB execRateLimitedThenOk =
        (match SmartTrim (execRateLimitedThenOk last).out sampleCfg.MaxOutputKB with
         | none => none
         | some outTrimmed =>
           match Classify (str "unknown/model") (effectiveExit (execRateLimitedThenOk last))
               outTrimmed sampleKB with
           | none => none
           | some result =>
             some { Model := str "unknown/model",
                    Provider := ExtractProvider (str "unknown/model"),
                    Category := result.Category,
                    Reason := result.Reason,
                    Icon := result.Icon,
                    DurationMs := Int.tdiv (execRateLimitedThenOk last).elapsed 1000000,
                    Output := outTrimmed,
                    ExitCode := effectiveExit (execRateLimitedThenOk last) }) ∧
      (TestModel (str "unknown/model") sampleCfg sampleKB execRateLimitedThenOk).isSome = true :=
  ⟨by decide,
    match testModel_last_attempt (str "unknown/model") sampleCfg sampleKB
        execRateLimitedThenOk (by decide) with
    | ⟨last, h1, h2, _, _, h3, h4⟩ => ⟨last, h1, h2, h3, h4 (by decide) (by decide)⟩⟩

/-- C10: an attempt of the retry loop that is a success (exit code 0 and
output matching the success pattern) or whose output matches the not-found,
auth-failure or quota pattern is the last one: its probe is the last event of
the loop, whatever the retry count, the outcomes of the probes and the
rate-limit matcher; every other probe has a smaller attempt index. -/
theorem retryLoop_stops_on_final_outcome (cfg : RunConfig) (compiledKB : Compiled)
    (exec : Nat → ProbeOutcome) (a : Nat)
    (hran : Event.probe a ∈ (runLoop cfg compiledKB exec).trace)
    (hfinal : IsSuccess compiledKB (exec a) ∨ IsNonRetryable compiledKB (exec a)) :
    ∃ pre, (runLoop cfg compiledKB exec).trace = pre ++ [Event.probe a] ∧
      ∀ b, Event.probe b ∈ pre → b < a := by
  by_cases hr : 0 ≤ cfg.Retries
  · obtain ⟨n, -, -, -, -, h4, h5, -⟩ :=
      retryLoop_spec compiledKB cfg.Retries exec (cfg.Retries + 1).toNat 0 initState
        (by have := Int.toNat_of_nonneg (show 0 ≤ cfg.Retries + 1 by omega); omega)
        (by simpa using hr)
    simp only [Nat.zero_add] at h4 h5
    have htrace : (runLoop cfg compiledKB exec).trace =
        segmentEvents compiledKB exec 0 n ++ [Event.probe n] := by
      simpa [runLoop, initState] using h4
    rw [htrace] at hran ⊢
    have han : a = n := by
      rcases List.mem_append.1 hran with h | h
      · have hlt := mem_segmentEvents compiledKB exec a n 0 h
        have hc := h5 a (Nat.zero_le _) (by omega)
        rcases hfinal with hf | hf
        · exact absurd hf hc.1
        · exact absurd hf hc.2.1
      · simpa using h
    subst han
    refine ⟨_, rfl, fun b hb => ?_⟩
    have := mem_segmentEvents compiledKB exec b a 0 hb
    omega
  · have hnil : (runLoop cfg compiledKB exec).trace = [] := by
      unfold runLoop
      rw [retryLoop_of_lt _ _ _ _ _ _ (by push_cast; omega)]
      rfl
    rw [hnil] at hran
    simp at hran

/-- Instance of C10: three retries allowed; the second attempt reports an
exhausted quota in an output that also matches the rate-limit matcher, and
the loop ends there. -/
theorem retryLoop_stops_on_final_outcome_witness :
    Event.probe 1 ∈
      (runLoop { sampleCfg with Retries := 3 } sampleKB execRateLimitedThenQuota).trace ∧
    IsNonRetryable sampleKB (execRateLimitedThenQuota 1) ∧
    sampleKB.RateLimitRe.MatchString (execRateLimitedThenQuota 1).out = true ∧
    ∃ pre, (runLoop { sampleCfg with Retries := 3 } sampleKB execRateLimitedThenQuota).trace =
        pre ++ [Event.probe 1] ∧ ∀ b, Event.probe b ∈ pre → b < 1 :=
  ⟨by decide, Or.inr (Or.inr (by decide)), by decide,
    retryLoop_stops_on_final_outcome { sampleCfg with Retries := 3 } sampleKB
      execRateLimitedThenQuota 1 (by decide) (Or.inr (Or.inr (Or.inr (by decide))))⟩

/-! ## The retry loop: timeouts, bounds and back-off (C11 to C14) -/

/-- The retry loop of `TestModel` for `Retries >= 0`, described from attempt
0 on. -/
theorem runLoop_spec (cfg : RunConfig) (compiledKB : Compiled) (exec : Nat → ProbeOutcome)
    (hr : 0 ≤ cfg.Retries) :
    ∃ n : Nat, (n : Int) ≤ cfg.Retries ∧
      (runLoop cfg compiledKB exec).lastOut = (exec n).out ∧
      (runLoop cfg compiledKB exec).exitCode = effectiveExit (exec n) ∧
      (runLoop cfg compiledKB exec).duration = (exec n).elapsed ∧
      (runLoop cfg compiledKB exec).trace =
        segmentEvents compiledKB exec 0 n ++ [Event.probe n] ∧
      (∀ a, a < n → CarriesOn compiledKB cfg.Retries exec a) ∧
      ((n : Int) < cfg.Retries → ¬ CarriesOn compiledKB cfg.Retries exec n) := by
  obtain ⟨n, hn, h1, h2, h3, h4, h5, h6⟩ :=
    retryLoop_spec compiledKB cfg.Retries exec (cfg.Retries + 1).toNat 0 initState
      (by have := Int.toNat_of_nonneg (show 0 ≤ cfg.Retries + 1 by omega); omega)
      (by simpa using hr)
  simp only [Nat.zero_add] at hn h1 h2 h3 h4 h5 h6
  refine ⟨n, hn, h1, h2, h3, ?_, fun a ha => h5 a (Nat.zero_le _) ha, h6⟩
  simpa [runLoop, initState] using h4

/-- With a negative retry count the loop body never runs. -/
theorem runLoop_of_neg (cfg : RunConfig) (compiledKB : Compiled) (exec : Nat → ProbeOutcome)
    (hr : cfg.Retries < 0) : runLoop cfg compiledKB exec = initState := by
  unfold runLoop
  exact retryLoop_of_lt _ _ _ _ _ _ (by push_cast; omega)

/-- An attempt that was run and does not carry on is the last event of the
loop. -/
theorem runLoop_ends_at (cfg : RunConfig) (compiledKB : Compiled) (exec : Nat → ProbeOutcome)
    (a : Nat) (hran : Event.probe a ∈ (runLoop cfg compiledKB exec).trace)
    (hstop : ¬ CarriesOn compiledKB cfg.Retries exec a) :
    ∃ pre, (runLoop cfg compiledKB exec).trace = pre ++ [Event.probe a] ∧
      ∀ b, Event.probe b ∈ pre → b < a := by
  by_cases hr : 0 ≤ cfg.Retries
  · obtain ⟨n, -, -, -, -, h4, h5, -⟩ := runLoop_spec cfg compiledKB exec hr
    rw [h4] at hran ⊢
    have han : a = n := by
      rcases List.mem_append.1 hran with h | h
      · have hlt := mem_segmentEvents compiledKB exec a n 0 h
        exact absurd (h5 a (by omega)) hstop
      · simpa using h
    subst han
    refine ⟨_, rfl, fun b hb => ?_⟩
    have := mem_segmentEvents compiledKB exec b a 0 hb
    omega
  · rw [runLoop_of_neg cfg compiledKB exec (by omega)] at hran
    simp [initState] at hran

theorem probesOf_append (l₁ l₂ : List Event) :
    probesOf (l₁ ++ l₂) = probesOf l₁ ++ probesOf l₂ := by
  induction l₁ with
  | nil => rfl
  | cons e rest ih =>
    cases e with
    | probe a => simp [probesOf, ih]
    | sleep ms => simp [probesOf, ih]

theorem probesOf_segmentEvents (compiledKB : Compiled) (exec : Nat → ProbeOutcome) :
    ∀ (n attempt : Nat),
      probesOf (segmentEvents compiledKB exec attempt n) = List.range' attempt n := by
  intro n
  induction n with
  | zero => intro attempt; rfl
  | succ n ih =>
    intro attempt
    rw [segmentEvents, probesOf_append, ih, List.range'_succ]
    unfold attemptEvents
    split_ifs <;> simp [probesOf]

/-- C11, as stated, fails: with one retry allowed, a first attempt that hits
the deadline (exit code 124) with an output matching the rate-limit matcher
is followed by a back-off sleep and a second attempt. -/
theorem retryLoop_timeout_retried_counterexample :
    effectiveExit (execTimeoutRateLimited 0) = 124 ∧
    (runLoop sampleCfg sampleKB execTimeoutRateLimited).trace =
      [Event.probe 0, Event.sleep 500, Event.probe 1] := by
  decide

/-- C12: for every retry count `R >= 0` and every behaviour of the probe, the
retry loop runs the attempts `0, ..., k - 1` for some `k` with
`1 <= k <= R + 1`, and `k = R + 1` when every attempt is an unrecognized
failure. -/
theorem retryLoop_attempts_bounded (cfg : RunConfig) (compiledKB : Compiled)
    (exec : Nat → ProbeOutcome) (hr : 0 ≤ cfg.Retries) :
    ∃ k : Nat, probesOf (runLoop cfg compiledKB exec).trace = List.range k ∧
      1 ≤ k ∧ (k : Int) ≤ cfg.Retries + 1 ∧
      ((∀ a : Nat, (a : Int) ≤ cfg.Retries → IsUnrecognized compiledKB (exec a)) →
        (k : Int) = cfg.Retries + 1) := by
  obtain ⟨n, hn, -, -, -, h4, -, h6⟩ := runLoop_spec cfg compiledKB exec hr
  refine ⟨n + 1, ?_, by omega, by push_cast; omega, fun hall => ?_⟩
  · rw [h4, probesOf_append, probesOf_segmentEvents, List.range_eq_range',
      List.range'_concat]
    simp [probesOf]
  · by_contra hne
    have hlt : (n : Int) < cfg.Retries := by push_cast at hne; omega
    have hu := hall n hn
    refine h6 hlt ⟨fun hs => hu.1 hs.1, ?_, Or.inr hu.2.1⟩
    rintro (h | h | h)
    · rw [hu.2.2.2.1] at h; cases h
    · rw [hu.2.2.2.2.1] at h; cases h
    · rw [hu.2.2.2.2.2.1] at h; cases h

/-- Instance of C12: three retries and a probe that always fails in an
unrecognized way; four attempts are made. -/
theorem retryLoop_attempts_bounded_witness :
    (0 : Int) ≤ ({ sampleCfg with Retries := 3 } : RunConfig).Retries ∧
    ∃ k : Nat,
      probesOf (runLoop { sampleCfg with Retries := 3 } sampleKB execUnrecognized).trace =
        List.range k ∧
      1 ≤ k ∧ (k : Int) ≤ ({ sampleCfg with Retries := 3 } : RunConfig).Retries + 1 ∧
      ((∀ a : Nat, (a : Int) ≤ ({ sampleCfg with Retries := 3 } : RunConfig).Retries →
          IsUnrecognized sampleKB (execUnrecognized a)) →
        (k : Int) = ({ sampleCfg with Retries := 3 } : RunConfig).Retries + 1) :=
  ⟨by decide,
    retryLoop_attempts_bounded { sampleCfg with Retries := 3 } sampleKB execUnrecognized
      (by decide)⟩


/-- The events from attempt `attempt` up to the probe of attempt
`attempt + n` start with the probe of `attempt`. -/
theorem segment_head (compiledKB : Compiled) (exec : Nat → ProbeOutcome) (n attempt : Nat) :
    ∃ tl, segmentEvents compiledKB exec attempt n ++ [Event.probe (attempt + n)] =
      Event.probe attempt :: tl := by
  cases n with
  | zero => exact ⟨[], by simp [segmentEvents]⟩
  | succ n =>
    unfold segmentEvents attemptEvents
    split_ifs
    · exact ⟨Event.sleep ((attempt + 1) * 500) ::
        (segmentEvents compiledKB exec (attempt + 1) n ++ [Event.probe (attempt + (n + 1))]),
        by simp⟩
    · exact ⟨segmentEvents compiledKB exec (attempt + 1) n ++ [Event.probe (attempt + (n + 1))],
        by simp⟩

/-- In the events of a loop run, a sleep that directly follows the probe of
attempt `a` belongs to an attempt before the last one whose output matches
the rate-limit pattern, lasts `(a + 1) * 500` ms and is directly followed by
the probe of attempt `a + 1`. -/
theorem segment_sleep_after (compiledKB : Compiled) (exec : Nat → ProbeOutcome) :
    ∀ (n attempt : Nat) (pre post : List Event) (a ms : Nat),
      segmentEvents compiledKB exec attempt n ++ [Event.probe (attempt + n)] =
        pre ++ Event.probe a :: Event.sleep ms :: post →
      attempt ≤ a ∧ a < attempt + n ∧
        compiledKB.RateLimitRe.MatchString (exec a).out = true ∧
        ms = (a + 1) * 500 ∧ ∃ post2, post = Event.probe (a + 1) :: post2 := by
  intro n
  induction n with
  | zero =>
    intro attempt pre post a ms h
    have := congrArg List.length h
    simp [segmentEvents] at this
    omega
  | succ n ih =>
    intro attempt pre post a ms h
    obtain ⟨tl, htl⟩ := segment_head compiledKB exec n (attempt + 1)
    have e : attempt + (n + 1) = attempt + 1 + n := by omega
    rw [segmentEvents, List.append_assoc, e] at h
    by_cases hrl : compiledKB.RateLimitRe.MatchString (exec attempt).out = true
    · simp only [attemptEvents, if_pos hrl, List.cons_append, List.nil_append] at h
      cases pre with
      | nil =>
        simp only [List.nil_append, List.cons.injEq, Event.probe.injEq, Event.sleep.injEq] at h
        obtain ⟨h1, h2, h3⟩ := h
        subst h1
        refine ⟨le_refl _, by omega, hrl, h2.symm, tl, ?_⟩
        rw [← h3, htl]
      | cons x pre1 =>
        cases pre1 with
        | nil =>
          simp at h
        | cons y pre2 =>
          simp only [List.cons_append, List.cons.injEq] at h
          have := ih (attempt + 1) pre2 post a ms h.2.2
          refine ⟨by omega, by omega, this.2.2⟩
    · simp only [attemptEvents, if_neg hrl, List.cons_append, List.nil_append] at h
      cases pre with
      | nil =>
        simp only [List.nil_append, List.cons.injEq] at h
        rw [htl] at h
        simp at h
      | cons x pre1 =>
        simp only [List.cons_append, List.cons.injEq] at h
        have := ih (attempt + 1) pre1 post a ms h.2
        refine ⟨by omega, by omega, this.2.2⟩

theorem segmentEvents_append (compiledKB : Compiled) (exec : Nat → ProbeOutcome) :
    ∀ (m attempt k : Nat),
      segmentEvents compiledKB exec attempt (m + k) =
        segmentEvents compiledKB exec attempt m ++ segmentEvents compiledKB exec (attempt + m) k := by
  intro m
  induction m with
  | zero => intro attempt k; simp [segmentEvents]
  | succ m ih =>
    intro attempt k
    have e : m + 1 + k = (m + k) + 1 := by omega
    have e2 : attempt + (m + 1) = attempt + 1 + m := by omega
    rw [e, segmentEvents, segmentEvents, ih, e2, List.append_assoc]

/-- In the events of a loop run, the probe of an attempt `a` before the last
one whose output matches the rate-limit pattern is directly followed by a
sleep of `(a + 1) * 500` ms and the probe of attempt `a + 1`. -/
theorem segment_sleep_exists (compiledKB : Compiled) (exec : Nat → ProbeOutcome)
    (n a : Nat) (ha : a < n)
    (hrl : compiledKB.RateLimitRe.MatchString (exec a).out = true) :
    ∃ pre post, segmentEvents compiledKB exec 0 n ++ [Event.probe n] =
      pre ++ Event.probe a :: Event.sleep ((a + 1) * 500) :: Event.probe (a + 1) :: post := by
  obtain ⟨k, rfl⟩ : ∃ k, n = a + (1 + k) := ⟨n - a - 1, by omega⟩
  obtain ⟨tl, htl⟩ := segment_head compiledKB exec k (a + 1)
  refine ⟨segmentEvents compiledKB exec 0 a, tl, ?_⟩
  have e : a + (1 + k) = a + 1 + k := by omega
  rw [segmentEvents_append, segmentEvents_append, List.append_assoc, List.append_assoc,
    Nat.zero_add, e, htl]
  simp [segmentEvents, attemptEvents, hrl]

theorem sleep_mem_segmentEvents (compiledKB : Compiled) (exec : Nat → ProbeOutcome) (ms : Nat) :
    ∀ (n attempt : Nat), Event.sleep ms ∈ segmentEvents compiledKB exec attempt n →
      ∃ a, attempt ≤ a ∧ a < attempt + n ∧
        compiledKB.RateLimitRe.MatchString (exec a).out = true ∧ ms = (a + 1) * 500 := by
  intro n
  induction n with
  | zero => intro attempt h; simp [segmentEvents] at h
  | succ n ih =>
    intro attempt h
    simp only [segmentEvents, List.mem_append] at h
    rcases h with h | h
    · unfold attemptEvents at h
      split_ifs at h with hrl
      · refine ⟨attempt, le_refl _, by omega, hrl, ?_⟩
        simpa using h
      · simp at h
    · obtain ⟨a, h1, h2, h3⟩ := ih _ h
      exact ⟨a, by omega, by omega, h3⟩

/-- C11, amended: an attempt of the retry loop that ends with exit code 124
is followed by another attempt exactly when its output matches the rate-limit
pattern, matches none of the not-found, auth-failure and quota patterns, and
attempts remain (`attempt < Retries`).  In that case its probe is directly
followed by a sleep of `(attempt + 1) * 500` ms and the probe of the next
attempt; in every other case its probe is the last event of the loop.  This
holds for every retry count and every sequence of probe outcomes. -/
theorem retryLoop_timeout_not_retried (cfg : RunConfig) (compiledKB : Compiled)
    (exec : Nat → ProbeOutcome) (a : Nat)
    (hran : Event.probe a ∈ (runLoop cfg compiledKB exec).trace)
    (h124 : effectiveExit (exec a) = 124) :
    (Event.probe (a + 1) ∈ (runLoop cfg compiledKB exec).trace ↔
      (compiledKB.RateLimitRe.MatchString (exec a).out = true ∧ (a : Int) < cfg.Retries ∧
        ¬ IsNonRetryable compiledKB (exec a))) ∧
    ((compiledKB.RateLimitRe.MatchString (exec a).out = true ∧ (a : Int) < cfg.Retries ∧
        ¬ IsNonRetryable compiledKB (exec a)) →
      ∃ pre post, (runLoop cfg compiledKB exec).trace =
        pre ++ Event.probe a :: Event.sleep ((a + 1) * 500) :: Event.probe (a + 1) :: post) ∧
    (¬ (compiledKB.RateLimitRe.MatchString (exec a).out = true ∧ (a : Int) < cfg.Retries ∧
        ¬ IsNonRetryable compiledKB (exec a)) →
      ∃ pre, (runLoop cfg compiledKB exec).trace = pre ++ [Event.probe a] ∧
        ∀ b, Event.probe b ∈ pre → b < a) := by
  have hns : ¬ IsSuccess compiledKB (exec a) := by
    intro hs
    rw [hs.1] at h124
    cases h124
  have hcarry : CarriesOn compiledKB cfg.Retries exec a ↔
      (compiledKB.RateLimitRe.MatchString (exec a).out = true ∧ (a : Int) < cfg.Retries ∧
        ¬ IsNonRetryable compiledKB (exec a)) := by
    constructor
    · rintro ⟨-, hnr, h | h⟩
      · exact ⟨h.1, h.2, hnr⟩
      · exact absurd h124 h
    · rintro ⟨hrl, hlt, hnr⟩
      exact ⟨hns, hnr, Or.inl ⟨hrl, hlt⟩⟩
  have hexists : (compiledKB.RateLimitRe.MatchString (exec a).out = true ∧
      (a : Int) < cfg.Retries ∧ ¬ IsNonRetryable compiledKB (exec a)) →
      ∃ pre post, (runLoop cfg compiledKB exec).trace =
        pre ++ Event.probe a :: Event.sleep ((a + 1) * 500) :: Event.probe (a + 1) :: post := by
    intro hc
    have hr : 0 ≤ cfg.Retries := by
      have := hc.2.1
      omega
    obtain ⟨n, -, -, -, -, h4, -, h6⟩ := runLoop_spec cfg compiledKB exec hr
    rw [h4] at hran ⊢
    have han : a < n := by
      rcases List.mem_append.1 hran with h | h
      · have := mem_segmentEvents compiledKB exec a n 0 h
        omega
      · have e : a = n := by simpa using h
        subst e
        exact absurd (hcarry.2 hc) (h6 hc.2.1)
    exact segment_sleep_exists compiledKB exec n a han hc.1
  refine ⟨⟨fun hnext => ?_, fun hc => ?_⟩, hexists, fun hstop => ?_⟩
  · by_cases hr : 0 ≤ cfg.Retries
    · obtain ⟨n, -, -, -, -, h4, h5, -⟩ := runLoop_spec cfg compiledKB exec hr
      rw [h4] at hnext
      have han : a < n := by
        rcases List.mem_append.1 hnext with h | h
        · have := mem_segmentEvents compiledKB exec (a + 1) n 0 h
          omega
        · have e : a + 1 = n := by simpa using h
          omega
      exact hcarry.1 (h5 a han)
    · rw [runLoop_of_neg cfg compiledKB exec (by omega)] at hran
      simp [initState] at hran
  · obtain ⟨pre, post, h⟩ := hexists hc
    rw [h]
    simp
  · exact runLoop_ends_at cfg compiledKB exec a hran (fun hc => hstop (hcarry.1 hc))

/-- Instance of C11 (amended): three retries allowed, a first attempt that
hits the deadline without output; no second attempt is made. -/
theorem retryLoop_timeout_not_retried_witness :
    Event.probe 0 ∈ (runLoop { sampleCfg with Retries := 3 } sampleKB execTimeout).trace ∧
    effectiveExit (execTimeout 0) = 124 ∧
    ∃ pre, (runLoop { sampleCfg with Retries := 3 } sampleKB execTimeout).trace =
        pre ++ [Event.probe 0] ∧ ∀ b, Event.probe b ∈ pre → b < 0 :=
  ⟨by decide, by decide,
    (retryLoop_timeout_not_retried { sampleCfg with Retries := 3 } sampleKB execTimeout 0
      (by decide) (by decide)).2.2 (fun h => absurd h.1 (by decide))⟩

/-- C13: back-off is linear and applies only to rate-limited attempts with
attempts remaining.  In the events of the retry loop, the probe of an attempt
`a` that was run is directly followed by a sleep if and only if the attempt
is neither a success nor non-retryable, its output matches the rate-limit
pattern and `a < Retries`; such a sleep lasts exactly `(a + 1) * 500` ms and
is directly followed by the probe of attempt `a + 1`; and every sleep of the
loop directly follows a probe.  So there is no sleep after the final attempt
and none after an unrecognized failure. -/
theorem retryLoop_backoff (cfg : RunConfig) (compiledKB : Compiled)
    (exec : Nat → ProbeOutcome) :
    (∀ a, Event.probe a ∈ (runLoop cfg compiledKB exec).trace →
      ((∃ pre ms post, (runLoop cfg compiledKB exec).trace =
          pre ++ Event.probe a :: Event.sleep ms :: post) ↔
        (¬ IsSuccess compiledKB (exec a) ∧ ¬ IsNonRetryable compiledKB (exec a) ∧
          compiledKB.RateLimitRe.MatchString (exec a).out = true ∧
          (a : Int) < cfg.Retries))) ∧
    (∀ pre a ms post, (runLoop cfg compiledKB exec).trace =
        pre ++ Event.probe a :: Event.sleep ms :: post →
      ms = (a + 1) * 500 ∧ ∃ post2, post = Event.probe (a + 1) :: post2) ∧
    (∀ ms, Event.sleep ms ∈ (runLoop cfg compiledKB exec).trace →
      ∃ pre a post, (runLoop cfg compiledKB exec).trace =
        pre ++ Event.probe a :: Event.sleep ms :: post) := by
  by_cases hr : 0 ≤ cfg.Retries
  · obtain ⟨n, hn, -, -, -, h4, h5, h6⟩ := runLoop_spec cfg compiledKB exec hr
    rw [h4]
    refine ⟨fun a hran => ⟨?_, ?_⟩, ?_, ?_⟩
    · rintro ⟨pre, ms, post, h⟩
      obtain ⟨-, han, hrl, -, -⟩ := segment_sleep_after compiledKB exec n 0 pre post a ms
        (by simpa using h)
      have hc := h5 a (by omega)
      exact ⟨hc.1, hc.2.1, hrl, by omega⟩
    · rintro ⟨hs, hnr, hrl, hlt⟩
      have hc : CarriesOn compiledKB cfg.Retries exec a := ⟨hs, hnr, Or.inl ⟨hrl, hlt⟩⟩
      have han : a < n := by
        rcases List.mem_append.1 hran with h | h
        · have := mem_segmentEvents compiledKB exec a n 0 h
          omega
        · have e : a = n := by simpa using h
          subst e
          exact absurd hc (h6 hlt)
      obtain ⟨pre, post, h⟩ := segment_sleep_exists compiledKB exec n a han hrl
      exact ⟨pre, _, _, h⟩
    · intro pre a ms post h
      obtain ⟨-, -, -, hms, hpost⟩ := segment_sleep_after compiledKB exec n 0 pre post a ms
        (by simpa using h)
      exact ⟨hms, hpost⟩
    · intro ms hmem
      have hseg : Event.sleep ms ∈ segmentEvents compiledKB exec 0 n := by
        rcases List.mem_append.1 hmem with h | h
        · exact h
        · simp at h
      obtain ⟨a, -, han, hrl, hms⟩ := sleep_mem_segmentEvents compiledKB exec ms n 0 hseg
      obtain ⟨pre, post, h⟩ := segment_sleep_exists compiledKB exec n a (by omega) hrl
      exact ⟨pre, a, _, by rw [hms]; exact h⟩
  · rw [runLoop_of_neg cfg compiledKB exec (by omega)]
    refine ⟨fun a hran => ?_, fun pre a ms post h => ?_, fun ms hmem => ?_⟩
    · simp [initState] at hran
    · simp [initState] at h
    · simp [initState] at hmem


/-- Instance of C13: one retry, a rate-limited first attempt; the loop sleeps
500 ms between the two probes. -/
theorem retryLoop_backoff_witness :
    (runLoop sampleCfg sampleKB execRateLimitedThenOk).trace =
      [] ++ Event.probe 0 :: Event.sleep 500 :: [Event.probe 1] ∧
    (500 = (0 + 1) * 500 ∧ ∃ post2, [Event.probe 1] = Event.probe (0 + 1) :: post2) :=
  ⟨by decide,
    (retryLoop_backoff sampleCfg sampleKB execRateLimitedThenOk).2.1
      [] 0 500 [Event.probe 1] (by decide)⟩

/-- Function `SmartTrim` returns its argument when the length is within the
budget the code computes, the 64-bit product `maxKB * 1024`. -/
theorem SmartTrim_of_le_budget (s : GoString) (maxKB : Int)
    (h : (s.length : Int) ≤ wrapInt64 (maxKB * 1024)) : SmartTrim s maxKB = some s := by
  simp [SmartTrim, h]

theorem wrapInt64_budget (maxKB : Int) (h0 : 0 ≤ maxKB) (h1 : maxKB < (2 : Int) ^ 53) :
    wrapInt64 (maxKB * 1024) = maxKB * 1024 := by
  have e53 : (2 : Int) ^ 53 = 9007199254740992 := by norm_num
  have e63 : (2 : Int) ^ 63 = 9223372036854775808 := by norm_num
  rw [e53] at h1
  exact wrapInt64_of_range _ (by rw [e63]; omega) (by rw [e63]; omega)

/-- C14, as stated, fails: when no attempt can spawn the process, a
known-free model of the default knowledge base is classified FREE_ERROR, not
ERROR; with a negative retry count no attempt is made and the exit code is 0;
with a negative output budget `SmartTrim` panics and nothing is returned; and
when the start error is `context.DeadlineExceeded` (the context was done
before the start) the exit code is 124 and the category TIMEOUT. -/
theorem testModel_start_error_counterexample :
    (TestModel (str "opencode/big-pickle") sampleCfg sampleKB execStartError).map
        (fun r => (r.ExitCode, r.Category)) = some (1, CategoryFreeError) ∧
    (TestModel (str "test/model") { sampleCfg with Retries := -1 } sampleKB
        execStartError).map (fun r => (r.ExitCode, r.Category)) = some (0, CategoryError) ∧
    TestModel (str "test/model") { sampleCfg with MaxOutputKB := -1 } sampleKB
        execStartError = none ∧
    (TestModel (str "test/model") sampleCfg sampleKB execStartDeadline).map
        (fun r => (r.ExitCode, r.Category)) = some (124, CategoryTimeout) := by
  decide

/-- C14, amended: with the default configuration, matchers that do not match
the empty output (as the compiled default patterns do not), `Retries >= 0`
and `0 <= MaxOutputKB < 2^53`, when every attempt fails to spawn the process
(empty output, exit code 1 and a start error), `TestModel` returns a result
with an empty output.  When none of the start errors is
`context.DeadlineExceeded`, the result has `ExitCode` 1 and is of category
ERROR when the model is neither a known-free model nor ends with "-free",
and of category FREE_ERROR when it is or does.  When the start error of some
attempt is `context.DeadlineExceeded`, the result has `ExitCode` 124 and is
of category TIMEOUT, whatever the model. -/
theorem testModel_start_error (modelName : GoString) (cfg : RunConfig)
    (compiledKB : Compiled) (exec : Nat → ProbeOutcome)
    (hcfg : compiledKB.Config = DefaultConfig)
    (hnf : compiledKB.NotFoundRe.MatchString [] = false)
    (hto : compiledKB.TimeoutRe.MatchString [] = false)
    (hq : compiledKB.QuotaRe.MatchString [] = false)
    (hau : compiledKB.AuthRe.MatchString [] = false)
    (hrl : compiledKB.RateLimitRe.MatchString [] = false)
    (hr : 0 ≤ cfg.Retries)
    (hkb0 : 0 ≤ cfg.MaxOutputKB) (hkb1 : cfg.MaxOutputKB < (2 : Int) ^ 53)
    (hexec : ∀ a, (exec a).out = [] ∧ (exec a).code = 1 ∧ (exec a).err ≠ none) :
    ∃ r, TestModel modelName cfg compiledKB exec = some r ∧ r.Output = [] ∧
      ((∀ a : Nat, (a : Int) ≤ cfg.Retries → (exec a).err = some ExecError.Other) →
        r.ExitCode = 1 ∧
        ((GoMap.get? DefaultConfig.FreeModels modelName = none ∧
            ¬ (∃ p, modelName = p ++ str "-free")) → r.Category = CategoryError) ∧
        (((GoMap.get? DefaultConfig.FreeModels modelName).isSome = true ∨
            ∃ p, modelName = p ++ str "-free") → r.Category = CategoryFreeError)) ∧
      ((∃ a : Nat, (a : Int) ≤ cfg.Retries ∧
          (exec a).err = some ExecError.DeadlineExceeded) →
        r.ExitCode = 124 ∧ r.Category = CategoryTimeout) := by
  obtain ⟨n, hn, h1, h2, -, -, h5, h6⟩ := runLoop_spec cfg compiledKB exec hr
  obtain ⟨ho, hc, he⟩ := hexec n
  rw [ho] at h1
  have htrim : SmartTrim [] cfg.MaxOutputKB = some [] :=
    SmartTrim_of_le_budget _ _ (by rw [wrapInt64_budget _ hkb0 hkb1]; simp; omega)
  have hT : ∀ res : Result,
      Classify modelName (runLoop cfg compiledKB exec).exitCode [] compiledKB = some res →
      TestModel modelName cfg compiledKB exec =
        some { Model := modelName,
               Provider := ExtractProvider modelName,
               Category := res.Category,
               Reason := res.Reason,
               Icon := res.Icon,
               DurationMs := Int.tdiv (runLoop cfg compiledKB exec).duration 1000000,
               Output := [],
               ExitCode := (runLoop cfg compiledKB exec).exitCode } := by
    intro res hcl
    simp only [TestModel, h1, htrim, hcl]
  -- an attempt whose start error is not the deadline error carries on
  have hcarry : ∀ a, (exec a).err = some ExecError.Other →
      CarriesOn compiledKB cfg.Retries exec a := by
    intro a hea
    obtain ⟨hoa, hca, -⟩ := hexec a
    have hx : effectiveExit (exec a) = 1 := by simp [effectiveExit, hea, hca]
    refine ⟨fun hs => ?_, ?_, Or.inr (by rw [hx]; decide)⟩
    · have h0 := hs.1
      rw [hx] at h0
      exact absurd h0 (by decide)
    · rw [IsNonRetryable, hoa, hnf, hau, hq]
      simp
  -- an attempt whose start error is the deadline error does not
  have hstop : ∀ a, (exec a).err = some ExecError.DeadlineExceeded →
      ¬ CarriesOn compiledKB cfg.Retries exec a := by
    intro a hea hca
    obtain ⟨hoa, -, -⟩ := hexec a
    have hx : effectiveExit (exec a) = 124 := by simp [effectiveExit, hea]
    rcases hca.2.2 with h | h
    · rw [hoa, hrl] at h
      cases h.1
    · exact h hx
  cases hen : (exec n).err with
  | none => exact absurd hen he
  | some e =>
    cases e with
    | DeadlineExceeded =>
      have hexit : effectiveExit (exec n) = 124 := by simp [effectiveExit, hen]
      rw [hexit] at h2
      have hcl : Classify modelName (runLoop cfg compiledKB exec).exitCode [] compiledKB =
          some { Category := CategoryTimeout,
                 Reason := str "Timeout (20s)",
                 Icon := CategoryIcons.get CategoryTimeout } := by
        rw [h2]
        simp [Classify, hnf]
      refine ⟨_, hT _ hcl, rfl, fun hall => ?_, fun _ => ⟨h2, rfl⟩⟩
      have := hall n hn
      rw [hen] at this
      cases this
    | Other =>
      have hexit : effectiveExit (exec n) = 1 := by simp [effectiveExit, hen, hc]
      rw [hexit] at h2
      have hnone : ¬ ∃ a : Nat, (a : Int) ≤ cfg.Retries ∧
          (exec a).err = some ExecError.DeadlineExceeded := by
        rintro ⟨a, ha, hea⟩
        have hnR : ¬ ((n : Int) < cfg.Retries) := fun hlt => h6 hlt (hcarry n hen)
        have han : a ≠ n := by
          intro e
          rw [e, hen] at hea
          cases hea
        exact hstop a hea (h5 a (by omega))
      have h0 : ¬ ((1 : Int) = 0 ∧ compiledKB.SuccessRe.MatchString [] = true) :=
        fun h => absurd h.1 (by decide)
      have h124 : ¬ ((1 : Int) = 124) := by decide
      cases hkey : GoMap.get? DefaultConfig.FreeModels modelName with
      | some info =>
        have hcl : Classify modelName (runLoop cfg compiledKB exec).exitCode [] compiledKB =
            some { Category := CategoryFreeError,
                   Reason := info.Description ++ str " (falhou no teste)",
                   Icon := CategoryIcons.get CategoryFreeError } := by
          rw [h2]
          simp only [Classify, hnf, hto, hcfg, hkey, if_neg h0]
          simp
        refine ⟨_, hT _ hcl, rfl, fun _ => ⟨h2, ?_, fun _ => rfl⟩,
          fun hd => absurd hd hnone⟩
        rintro ⟨hk, -⟩
        cases hk
      | none =>
        cases hsuf : HasSuffix modelName (str "-free") with
        | true =>
          have hcl : Classify modelName (runLoop cfg compiledKB exec).exitCode [] compiledKB =
              some { Category := CategoryFreeError,
                     Reason := str "Sufixo -free (falhou)",
                     Icon := CategoryIcons.get CategoryFreeError } := by
            rw [h2]
            simp only [Classify, hnf, hto, hcfg, hkey, hsuf, if_neg h0]
            simp
          refine ⟨_, hT _ hcl, rfl, fun _ => ⟨h2, ?_, fun _ => rfl⟩,
            fun hd => absurd hd hnone⟩
          rintro ⟨-, hns⟩
          exact absurd ((HasSuffix_iff _ _).1 hsuf) hns
        | false =>
          have hcl : Classify modelName (runLoop cfg compiledKB exec).exitCode [] compiledKB =
              some { Category := CategoryError,
                     Reason := str "Erro desconhecido",
                     Icon := CategoryIcons.get CategoryError } := by
            rw [h2]
            simp only [Classify, hnf, hto, hq, hau, hrl, hcfg, hkey, hsuf, if_neg h0]
            simp
          refine ⟨_, hT _ hcl, rfl, fun _ => ⟨h2, fun _ => rfl, ?_⟩,
            fun hd => absurd hd hnone⟩
          rintro (hk | hs)
          · simp at hk
          · rw [← HasSuffix_iff, hsuf] at hs
            cases hs

/-- Instance of C14 (amended): a model that is neither known-free nor ends
with "-free", with the configuration of `main`, and start errors other than
the deadline error. -/
theorem testModel_start_error_witness :
    ∃ r, TestModel (str "test/model") sampleCfg sampleKB execStartError = some r ∧
      r.Output = [] ∧
      ((∀ a : Nat, (a : Int) ≤ sampleCfg.Retries →
          (execStartError a).err = some ExecError.Other) →
        r.ExitCode = 1 ∧
        ((GoMap.get? DefaultConfig.FreeModels (str "test/model") = none ∧
            ¬ (∃ p, str "test/model" = p ++ str "-free")) → r.Category = CategoryError) ∧
        (((GoMap.get? DefaultConfig.FreeModels (str "test/model")).isSome = true ∨
            ∃ p, str "test/model" = p ++ str "-free") → r.Category = CategoryFreeError)) ∧
      ((∃ a : Nat, (a : Int) ≤ sampleCfg.Retries ∧
          (execStartError a).err = some ExecError.DeadlineExceeded) →
        r.ExitCode = 124 ∧ r.Category = CategoryTimeout) :=
  testModel_start_error (str "test/model") sampleCfg sampleKB execStartError rfl
    (by decide) (by decide) (by decide) (by decide) (by decide) (by decide) (by decide)
    (by decide) (fun _ => ⟨rfl, rfl, fun h => Option.noConfusion h⟩)


/-! ## Priority reordering (C15 to C17) -/

/-- The loop of `PrioritizeModels` appends to each slice, in input order, the
models that belong to it. -/
theorem foldl_prioritizeStep (freeModels : GoMap Bool) (zaiPrefix : GoString) :
    ∀ (models : List GoString) (b : Buckets),
      models.foldl (prioritizeStep freeModels zaiPrefix) b =
        { free := b.free ++ models.filter (fun m => GoMap.getBool freeModels m),
          zai := b.zai ++ models.filter
            (fun m => !GoMap.getBool freeModels m && HasPrefix m zaiPrefix),
          other := b.other ++ models.filter
            (fun m => !GoMap.getBool freeModels m && !HasPrefix m zaiPrefix) } := by
  intro models
  induction models with
  | nil => intro b; simp
  | cons m rest ih =>
    intro b
    rw [List.foldl_cons, ih]
    unfold prioritizeStep
    by_cases hf : GoMap.getBool freeModels m = true
    · simp [hf, List.filter_cons]
    · by_cases hp : HasPrefix m zaiPrefix = true
      · simp [hf, hp, List.filter_cons]
      · simp [hf, hp, List.filter_cons]

theorem PrioritizeModels_eq (models : List GoString) (freeModels : GoMap Bool)
    (zaiPrefix : GoString) :
    PrioritizeModels models freeModels zaiPrefix =
      models.filter (fun m => GoMap.getBool freeModels m) ++
      models.filter (fun m => !GoMap.getBool freeModels m && HasPrefix m zaiPrefix) ++
      models.filter (fun m => !GoMap.getBool freeModels m && !HasPrefix m zaiPrefix) := by
  simp [PrioritizeModels, foldl_prioritizeStep]

/-- In a concatenation whose first part satisfies `P` throughout and whose
second part nowhere, an element that satisfies `P` stands before one that
does not. -/
theorem index_lt_of_append {α : Type} (P : α → Prop) (A B : List α)
    (hA : ∀ x ∈ A, P x) (hB : ∀ y ∈ B, ¬ P y) (i j : Nat) (x y : α)
    (hi : (A ++ B)[i]? = some x) (hj : (A ++ B)[j]? = some y) (hx : P x) (hy : ¬ P y) :
    i < j := by
  by_contra hle
  by_cases hiA : i < A.length
  · rw [List.getElem?_append_left (by omega)] at hj
    exact hy (hA y (List.getElem?_mem hj))
  · rw [List.getElem?_append_right (by omega)] at hi
    exact hB x (List.getElem?_mem hi) hx

theorem filter_filter_and {α : Type} (p q : α → Bool) (l : List α) :
    (l.filter q).filter p = l.filter (fun a => q a && p a) := by
  rw [List.filter_filter]
  congr 1
  funext a
  exact Bool.and_comm _ _

/-- C15: `PrioritizeModels` is a stable three-way partition: its result is
the sub-list of the models in the free set, followed by the sub-list of the
remaining models that start with the prefix, followed by the sub-list of all
other models, each in the order of the input. -/
theorem prioritizeModels_partition (models : List GoString) (freeModels : GoMap Bool)
    (zaiPrefix : GoString) :
    PrioritizeModels models freeModels zaiPrefix =
      models.filter (fun m => GoMap.getBool freeModels m) ++
      (models.filter (fun m => !GoMap.getBool freeModels m)).filter
        (fun m => HasPrefix m zaiPrefix) ++
      (models.filter (fun m => !GoMap.getBool freeModels m)).filter
        (fun m => !HasPrefix m zaiPrefix) := by
  rw [PrioritizeModels_eq, filter_filter_and, filter_filter_and]

/-- C16: in the result of `PrioritizeModels`, every element of the free set
stands at a smaller index than every element outside it, and every element
outside the free set that starts with the prefix stands at a smaller index
than every element outside the free set that does not. -/
theorem prioritizeModels_order (models : List GoString) (freeModels : GoMap Bool)
    (zaiPrefix : GoString) :
    (∀ (i j : Nat) (x y : GoString),
      (PrioritizeModels models freeModels zaiPrefix)[i]? = some x →
      (PrioritizeModels models freeModels zaiPrefix)[j]? = some y →
      GoMap.getBool freeModels x = true → GoMap.getBool freeModels y = false → i < j) ∧
    (∀ (i j : Nat) (x y : GoString),
      (PrioritizeModels models freeModels zaiPrefix)[i]? = some x →
      (PrioritizeModels models freeModels zaiPrefix)[j]? = some y →
      GoMap.getBool freeModels x = false → HasPrefix x zaiPrefix = true →
      GoMap.getBool freeModels y = false → HasPrefix y zaiPrefix = false → i < j) := by
  rw [PrioritizeModels_eq]
  constructor
  · intro i j x y hi hj hx hy
    rw [List.append_assoc] at hi hj
    refine index_lt_of_append (fun m => GoMap.getBool freeModels m = true) _ _ ?_ ?_
      i j x y hi hj hx (by simp [hy])
    · intro m hm
      exact (List.mem_filter.1 hm).2
    · intro m hm
      rcases List.mem_append.1 hm with h | h
      · have := (List.mem_filter.1 h).2
        simp at this
        simp [this.1]
      · have := (List.mem_filter.1 h).2
        simp at this
        simp [this.1]
  · intro i j x y hi hj hx hxp hy hyp
    refine index_lt_of_append
      (fun m => GoMap.getBool freeModels m = true ∨ HasPrefix m zaiPrefix = true) _ _ ?_ ?_
      i j x y hi hj (Or.inr hxp) (by simp [hy, hyp])
    · intro m hm
      rcases List.mem_append.1 hm with h | h
      · exact Or.inl (List.mem_filter.1 h).2
      · have := (List.mem_filter.1 h).2
        simp at this
        exact Or.inr this.2
    · intro m hm
      have := (List.mem_filter.1 hm).2
      simp at this
      simp [this.1, this.2]

/-- C17: `PrioritizeModels` neither drops nor adds models: its result is a
permutation of the input, so it has the same length and contains every
identifier as many times as the input does. -/
theorem prioritizeModels_perm (models : List GoString) (freeModels : GoMap Bool)
    (zaiPrefix : GoString) :
    (PrioritizeModels models freeModels zaiPrefix).Perm models ∧
    (PrioritizeModels models freeModels zaiPrefix).length = models.length ∧
    ∀ m : GoString,
      (PrioritizeModels models freeModels zaiPrefix).countP (fun x => decide (x = m)) =
        models.countP (fun x => decide (x = m)) := by
  have hperm : (PrioritizeModels models freeModels zaiPrefix).Perm models := by
    have e1 := filter_filter_and (fun m => HasPrefix m zaiPrefix)
      (fun m => !GoMap.getBool freeModels m) models
    have e2 := filter_filter_and (fun m => !HasPrefix m zaiPrefix)
      (fun m => !GoMap.getBool freeModels m) models
    rw [PrioritizeModels_eq, ← e1, ← e2, List.append_assoc]
    exact List.Perm.trans
      (List.Perm.append_left _
        (List.filter_append_perm (fun m => HasPrefix m zaiPrefix)
          (models.filter (fun m => !GoMap.getBool freeModels m))))
      (List.filter_append_perm (fun m => GoMap.getBool freeModels m) models)
  exact ⟨hperm, hperm.length_eq, fun m => hperm.countP_eq _⟩

/-- Instance of C16 on the list of the test `TestPrioritizeModels`: the free
model at index 1 of the result and the model `anthropic/claude` at index 4. -/
theorem prioritizeModels_order_witness :
    (PrioritizeModels sampleModels sampleFreeModels (str "zai-coding-plan/"))[1]? =
      some (str "opencode/big-pickle") ∧
    (PrioritizeModels sampleModels sampleFreeModels (str "zai-coding-plan/"))[4]? =
      some (str "anthropic/claude") ∧
    1 < 4 :=
  ⟨by decide, by decide,
    (prioritizeModels_order sampleModels sampleFreeModels (str "zai-coding-plan/")).1 1 4
      (str "opencode/big-pickle") (str "anthropic/claude")
      (by decide) (by decide) (by decide) (by decide)⟩

/-! ## Output trimming (C18 to C20) -/

/-- The result of `SmartTrim` on a string longer than the budget of `maxKB`
kilobytes, for a string shorter than 2^62 bytes, with the budget as a Go
`int`. -/
theorem SmartTrim_of_long_int (s : GoString) (maxKB : Int) (h0 : 0 ≤ maxKB)
    (hlen : s.length < 2 ^ 62) (hlong : maxKB * 1024 < (s.length : Int)) :
    SmartTrim s maxKB =
      some (s.take (maxKB * 1024 * 2 / 5).toNat ++ str "\n\n...[TRUNCATED]...\n\n" ++
        s.drop (s.length - (maxKB * 1024 * 2 / 5).toNat)) := by
  have e62 : (2 : Nat) ^ 62 = 4611686018427387904 := by norm_num
  have e63 : (2 : Int) ^ 63 = 9223372036854775808 := by norm_num
  rw [e62] at hlen
  have w1 : wrapInt64 (maxKB * 1024) = maxKB * 1024 :=
    wrapInt64_of_range _ (by rw [e63]; omega) (by rw [e63]; omega)
  have w2 : wrapInt64 (maxKB * 1024 * 2) = maxKB * 1024 * 2 :=
    wrapInt64_of_range _ (by rw [e63]; omega) (by rw [e63]; omega)
  have hd : Int.tdiv (maxKB * 1024 * 2) 5 = maxKB * 1024 * 2 / 5 :=
    Int.tdiv_eq_ediv (by omega) (by omega)
  have hnle : ¬ ((s.length : Int) ≤ maxKB * 1024) := by omega
  have h1 : sliceTo s (maxKB * 1024 * 2 / 5) =
      some (s.take (maxKB * 1024 * 2 / 5).toNat) := by
    unfold sliceTo
    rw [if_pos ⟨by omega, by omega⟩]
  have h2 : sliceFrom s ((s.length : Int) - maxKB * 1024 * 2 / 5) =
      some (s.drop (s.length - (maxKB * 1024 * 2 / 5).toNat)) := by
    have e : ((s.length : Int) - maxKB * 1024 * 2 / 5).toNat =
        s.length - (maxKB * 1024 * 2 / 5).toNat := by omega
    unfold sliceFrom
    rw [if_pos ⟨by omega, by omega⟩, e]
  unfold SmartTrim
  simp only [w1, w2, hd, if_neg hnle, h1, h2]

/-- The result of `SmartTrim` on a string longer than the budget of `maxKB`
kilobytes, for a string shorter than 2^62 bytes. -/
theorem SmartTrim_of_long (s : GoString) (maxKB : Nat) (hlen : s.length < 2 ^ 62)
    (hlong : maxKB * 1024 < s.length) :
    SmartTrim s (maxKB : Int) =
      some (s.take (2 * (maxKB * 1024) / 5) ++ str "\n\n...[TRUNCATED]...\n\n" ++
        s.drop (s.length - 2 * (maxKB * 1024) / 5)) := by
  have e : ((maxKB : Int) * 1024 * 2 / 5).toNat = 2 * (maxKB * 1024) / 5 := by omega
  rw [SmartTrim_of_long_int s (maxKB : Int) (by omega) hlen (by omega), e]

/-- C18, as stated, fails: for a budget of 2^53 kilobytes the 64-bit product
`maxKB * 1024` wraps around to a negative number, and the empty string, whose
length is within the budget, comes back as the truncation marker. -/
theorem smartTrim_identity_counterexample :
    ((([] : GoString).length : Int) ≤ (2 : Int) ^ 53 * 1024) ∧
    SmartTrim [] ((2 : Int) ^ 53) = some truncationMarker ∧
    SmartTrim [] ((2 : Int) ^ 53) ≠ some [] := by
  decide

/-- C18, amended: `SmartTrim` is the identity on strings within budget for
every budget below 2^53 kilobytes (the budgets whose byte count `maxKB * 1024`
fits a 64-bit integer): if `len(s) <= maxKB * 1024`, a length equal to the
budget included, then `SmartTrim(s, maxKB) = s`. -/
theorem smartTrim_identity (s : GoString) (maxKB : Int) (hb : maxKB < (2 : Int) ^ 53)
    (h : (s.length : Int) ≤ maxKB * 1024) : SmartTrim s maxKB = some s := by
  have h0 : 0 ≤ maxKB := by omega
  exact SmartTrim_of_le_budget s maxKB (by rw [wrapInt64_budget maxKB h0 hb]; exact h)

/-- Instance of C18 (amended): a string of exactly 1024 bytes and a budget of
one kilobyte. -/
theorem smartTrim_identity_witness :
    (1 : Int) < (2 : Int) ^ 53 ∧
    (((List.replicate 1024 (120 : UInt8)).length : Int) ≤ 1 * 1024) ∧
    SmartTrim (List.replicate 1024 120) 1 = some (List.replicate 1024 120) :=
  ⟨by decide, by rw [List.length_replicate]; decide,
    smartTrim_identity (List.replicate 1024 120) 1 (by decide)
      (by rw [List.length_replicate]; decide)⟩

/-- C19, as stated, fails: with a budget of 0 kilobytes the three-byte string
"abc" is longer than the budget, and `SmartTrim` returns the 21-byte marker,
which is not shorter. -/
theorem smartTrim_shrinks_counterexample :
    (0 : Int) * 1024 < ((str "abc").length : Int) ∧
    SmartTrim (str "abc") 0 = some truncationMarker ∧
    ¬ (truncationMarker.length < (str "abc").length) := by
  decide

/-- C19, amended: for every budget `maxKB >= 1` and every string `s` (of
fewer than 2^62 bytes) with `len(s) > maxKB * 1024`, `SmartTrim(s, maxKB)` is
strictly shorter than `s` and contains the truncation marker "[TRUNCATED]". -/
theorem smartTrim_shrinks (s : GoString) (maxKB : Nat) (h1 : 1 ≤ maxKB)
    (hlen : s.length < 2 ^ 62) (hlong : maxKB * 1024 < s.length) :
    ∃ r, SmartTrim s (maxKB : Int) = some r ∧ r.length < s.length ∧
      ∃ a b, r = a ++ str "[TRUNCATED]" ++ b := by
  refine ⟨_, SmartTrim_of_long s maxKB hlen hlong, ?_, ?_⟩
  · have hm : (str "\n\n...[TRUNCATED]...\n\n").length = 21 := by decide
    simp only [List.length_append, List.length_take, List.length_drop, hm]
    omega
  · refine ⟨s.take (2 * (maxKB * 1024) / 5) ++ str "\n\n...",
      str "...\n\n" ++ s.drop (s.length - 2 * (maxKB * 1024) / 5), ?_⟩
    have hm : str "\n\n...[TRUNCATED]...\n\n" =
        str "\n\n..." ++ str "[TRUNCATED]" ++ str "...\n\n" := by
      decide
    rw [hm]
    simp only [List.append_assoc]

/-- Instance of C19 (amended): the input of the test `TestSmartTrimLongString`,
2048 bytes against a budget of one kilobyte. -/
theorem smartTrim_shrinks_witness :
    ∃ r, SmartTrim (List.replicate 2048 (120 : UInt8)) ((1 : Nat) : Int) = some r ∧
      r.length < (List.replicate 2048 (120 : UInt8)).length ∧
      ∃ a b, r = a ++ str "[TRUNCATED]" ++ b :=
  smartTrim_shrinks (List.replicate 2048 120) 1 (by decide)
    (by rw [List.length_replicate]; norm_num) (by rw [List.length_replicate]; decide)

/-- C20: for every budget `maxKB >= 0` and every string `s` (of fewer than
2^62 bytes) longer than `B = maxKB * 1024` bytes, `SmartTrim(s, maxKB)` does
not panic and is exactly the first `h` bytes of `s`, then the marker
"\n\n...[TRUNCATED]...\n\n", then the last `h` bytes of `s`, where
`h = floor(2 * B / 5)`; both slices lie within `s` and have `h` bytes. -/
theorem smartTrim_head_marker_tail (s : GoString) (maxKB : Nat)
    (hlen : s.length < 2 ^ 62) (hlong : maxKB * 1024 < s.length) :
    SmartTrim s (maxKB : Int) =
      some (s.take (2 * (maxKB * 1024) / 5) ++ str "\n\n...[TRUNCATED]...\n\n" ++
        s.drop (s.length - 2 * (maxKB * 1024) / 5)) ∧
    2 * (maxKB * 1024) / 5 ≤ s.length ∧
    (s.take (2 * (maxKB * 1024) / 5)).length = 2 * (maxKB * 1024) / 5 ∧
    (s.drop (s.length - 2 * (maxKB * 1024) / 5)).length = 2 * (maxKB * 1024) / 5 := by
  refine ⟨SmartTrim_of_long s maxKB hlen hlong, by omega, ?_, ?_⟩
  · rw [List.length_take]
    omega
  · rw [List.length_drop]
    omega

/-- Instance of C20: 2048 bytes against a budget of one kilobyte; `h` is 409. -/
theorem smartTrim_head_marker_tail_witness :
    SmartTrim (List.replicate 2048 (120 : UInt8)) ((1 : Nat) : Int) =
      some ((List.replicate 2048 (120 : UInt8)).take (2 * (1 * 1024) / 5) ++
        str "\n\n...[TRUNCATED]...\n\n" ++
        (List.replicate 2048 (120 : UInt8)).drop
          ((List.replicate 2048 (120 : UInt8)).length - 2 * (1 * 1024) / 5)) :=
  (smartTrim_head_marker_tail (List.replicate 2048 120) 1
    (by rw [List.length_replicate]; norm_num) (by rw [List.length_replicate]; decide)).1

/-! ## Cache freshness, icons, providers and truncation (C23, C24, C26, C27) -/

/-- C23: a cached entry is expired exactly when the current time is strictly
after its expires-at instant; an entry whose `ExpiresAt` is the current
instant or later is not expired, and `CachedAt` plays no role. -/
theorem isExpired_iff (c : CachedResult) (now : Time) :
    (c.IsExpired now = true ↔ c.ExpiresAt.instant < now.instant) ∧
    (now.instant ≤ c.ExpiresAt.instant → c.IsExpired now = false) ∧
    (∀ t : Time, ({ c with CachedAt := t } : CachedResult).IsExpired now = c.IsExpired now) := by
  refine ⟨?_, ?_, fun t => rfl⟩
  · simp [CachedResult.IsExpired, Time.After]
  · intro h
    simp [CachedResult.IsExpired, Time.After, h]

/-- C24: `AllCategories` lists exactly the 11 categories, pairwise distinct;
`CategoryIcons` binds each of them to a non-empty icon, binds each once, and
binds no other key. -/
theorem categoryIcons_total :
    AllCategories =
      [ str "FREE", str "FREE_LIMITED", str "PAID", str "AVAILABLE", str "NOT_FOUND",
        str "TIMEOUT", str "AUTH_FAILED", str "NO_QUOTA", str "RATE_LIMITED",
        str "FREE_ERROR", str "ERROR" ] ∧
    AllCategories.length = 11 ∧
    AllCategories.Nodup ∧
    (∀ c ∈ AllCategories, ∃ icon, GoMap.get? CategoryIcons c = some icon ∧ icon ≠ []) ∧
    CategoryIcons.map (fun kv => kv.1) = AllCategories ∧
    (∀ k : GoString, GoMap.get? CategoryIcons k ≠ none → k ∈ AllCategories) := by
  refine ⟨by decide, by decide, by decide, by decide, by decide, ?_⟩
  intro k hk
  cases h : GoMap.get? CategoryIcons k with
  | none => exact absurd h hk
  | some v =>
    have hmem := GoMap.get?_mem _ _ _ h
    have hkeys : CategoryIcons.map (fun kv => kv.1) = AllCategories := by decide
    rw [← hkeys]
    exact List.mem_map.2 ⟨(k, v), hmem, rfl⟩

/-- C26: `ExtractProvider` returns the text before the first separator: when
`m` contains "/" the result is the prefix of `m` that precedes its first "/",
and when it does not the result is `m` itself; the result never contains "/",
and element 0 of the split, which it is, always exists. -/
theorem extractProvider_spec (m : GoString) :
    (slash ∈ m → ∃ rest, m = ExtractProvider m ++ slash :: rest) ∧
    (slash ∉ m → ExtractProvider m = m) ∧
    slash ∉ ExtractProvider m ∧
    (Split slash m)[0]? = some (ExtractProvider m) := by
  have hhead := Split_head slash m
  have hE : ExtractProvider m = beforeSep slash m := by
    unfold ExtractProvider
    cases hs : Split slash m with
    | nil => rw [hs] at hhead; simp at hhead
    | cons p ps =>
      rw [hs] at hhead
      simp at hhead
      simp [hhead]
  rw [hE]
  have hprov := IsProviderOf_beforeSep m
  refine ⟨fun hm => ?_, fun hm => beforeSep_of_not_mem _ _ hm, ?_, hhead⟩
  · rcases hprov with ⟨rest, h1, -⟩ | ⟨h1, -⟩
    · exact ⟨rest, h1⟩
    · exact absurd hm h1
  · rcases hprov with ⟨rest, -, h2⟩ | ⟨h1, h2⟩
    · exact h2
    · rw [h2]; exact h1

/-- C27: for every string `s` and every `max >= 3` (a Go `int`, so below
2^63), `Truncate(s, max)` is `s` when `len(s) <= max`, and otherwise the
first `max - 3` bytes of `s` followed by "...", of length exactly `max`; in
both cases the result is at most `max` bytes long. -/
theorem truncate_spec (s : GoString) (max : Int) (h3 : 3 ≤ max)
    (hint : max < (2 : Int) ^ 63) :
    ((s.length : Int) ≤ max → Truncate s max = some s) ∧
    (max < (s.length : Int) →
      Truncate s max = some (s.take (max - 3).toNat ++ str "...") ∧
      ((s.take (max - 3).toNat ++ str "...").length : Int) = max) ∧
    ∃ r, Truncate s max = some r ∧ (r.length : Int) ≤ max := by
  have e63 : (2 : Int) ^ 63 = 9223372036854775808 := by norm_num
  have hw : wrapInt64 (max - 3) = max - 3 :=
    wrapInt64_of_range _ (by rw [e63]; omega) (by rw [e63] at hint ⊢; omega)
  have hdots : (str "...").length = 3 := by decide
  have hshort : (s.length : Int) ≤ max → Truncate s max = some s := by
    intro h
    simp [Truncate, not_lt.2 h]
  have hlong : max < (s.length : Int) →
      Truncate s max = some (s.take (max - 3).toNat ++ str "...") ∧
      ((s.take (max - 3).toNat ++ str "...").length : Int) = max := by
    intro h
    constructor
    · have hs : sliceTo s (max - 3) = some (s.take (max - 3).toNat) := by
        unfold sliceTo
        rw [if_pos ⟨by omega, by omega⟩]
      unfold Truncate
      rw [if_pos h, hw, hs]
    · rw [List.length_append, List.length_take, hdots]
      omega
  refine ⟨hshort, hlong, ?_⟩
  by_cases h : (s.length : Int) ≤ max
  · exact ⟨s, hshort h, h⟩
  · obtain ⟨h1, h2⟩ := hlong (by omega)
    exact ⟨_, h1, by omega⟩

/-- Instance of C27: the second case of the test `TestTruncate`. -/
theorem truncate_spec_witness :
    (3 : Int) ≤ 10 ∧ (10 : Int) < (2 : Int) ^ 63 ∧
    Truncate (str "this is a very long string") 10 =
      some ((str "this is a very long string").take ((10 : Int) - 3).toNat ++ str "...") :=
  ⟨by decide, by decide,
    ((truncate_spec (str "this is a very long string") 10 (by decide) (by decide)).2.1
      (by decide)).1⟩

/-! ## Usable only after success, and trimmed output within budget (C28, C29) -/

theorem GoMap.get?_map {V : Type} (g : V → V) (m : GoMap V) (k : GoString) :
    GoMap.get? (m.map (fun kv => (kv.1, g kv.2))) k = (GoMap.get? m k).map g := by
  induction m with
  | nil => rfl
  | cons kv rest ih =>
    obtain ⟨k1, v1⟩ := kv
    by_cases hk : k1 = k
    · simp [GoMap.get?, hk]
    · simp only [List.map_cons, GoMap.get?, if_neg hk]
      exact ih

/-- C28: when the exit code is not 0 or the output does not match the success
pattern, `Classify` returns one of NOT_FOUND, TIMEOUT, FREE_ERROR, NO_QUOTA,
AUTH_FAILED, RATE_LIMITED, ERROR, hence neither AVAILABLE nor FREE nor
FREE_LIMITED nor PAID, and the result owes nothing to the categories that the
knowledge-base entries declare: it is the same when these are replaced by
any others. -/
theorem classify_failure_categories (model : GoString) (exitCode : Int) (output : GoString)
    (compiledKB : Compiled)
    (hfail : ¬ (exitCode = 0 ∧ compiledKB.SuccessRe.MatchString output = true)) :
    ∃ r, Classify model exitCode output compiledKB = some r ∧
      r.Category ∈ failureCategories ∧
      r.Category ≠ CategoryAvailable ∧ r.Category ≠ CategoryFree ∧
      r.Category ≠ CategoryFreeLimited ∧ r.Category ≠ CategoryPaid ∧
      ∀ f : GoString → GoString,
        Classify model exitCode output (recategorize f compiledKB) = some r := by
  obtain ⟨r, hr, -, hcases⟩ := Classify_shape model exitCode output compiledKB
  have hcat : r.Category ∈ failureCategories := by
    rcases hcases with ⟨hc, -⟩ | ⟨hs, -⟩
    · exact hc
    · exact absurd hs hfail
  have hne : ∀ c ∈ failureCategories, c ≠ CategoryAvailable ∧ c ≠ CategoryFree ∧
      c ≠ CategoryFreeLimited ∧ c ≠ CategoryPaid := by decide
  obtain ⟨n1, n2, n3, n4⟩ := hne _ hcat
  refine ⟨r, hr, hcat, n1, n2, n3, n4, fun f => ?_⟩
  rw [← hr]
  have hm : GoMap.get? (recategorize f compiledKB).Config.FreeModels model =
      (GoMap.get? compiledKB.Config.FreeModels model).map
        (fun e => { e with Category := f e.Category }) :=
    GoMap.get?_map (fun e : ModelInfo => { e with Category := f e.Category }) _ _
  have hfail2 : ¬ (exitCode = 0 ∧
      (recategorize f compiledKB).SuccessRe.MatchString output = true) := hfail
  unfold Classify
  rw [hm]
  by_cases hnf : compiledKB.NotFoundRe.MatchString output = true
  · have hnf2 : (recategorize f compiledKB).NotFoundRe.MatchString output = true := hnf
    rw [if_pos hnf, if_pos hnf2]
  · have hnf2 : ¬ (recategorize f compiledKB).NotFoundRe.MatchString output = true := hnf
    rw [if_neg hnf, if_neg hnf2]
    by_cases hto : exitCode = 124 ∨ compiledKB.TimeoutRe.MatchString output = true
    · have hto2 : exitCode = 124 ∨
          (recategorize f compiledKB).TimeoutRe.MatchString output = true := hto
      rw [if_pos hto, if_pos hto2]
    · have hto2 : ¬ (exitCode = 124 ∨
          (recategorize f compiledKB).TimeoutRe.MatchString output = true) := hto
      rw [if_neg hto, if_neg hto2]
      cases hkey : GoMap.get? compiledKB.Config.FreeModels model with
      | some info =>
        simp only [Option.map_some', if_neg hfail, if_neg hfail2]
      | none =>
        simp only [Option.map_none', if_neg hfail, if_neg hfail2]
        rfl

/-- Instance of C28: a model of a free-tier provider whose probe fails with
an output matching the rate-limit matcher. -/
theorem classify_failure_categories_witness :
    ∃ r, Classify (str "groq/llama-3.1") 1 (str "rate limit") sampleKB = some r ∧
      r.Category ∈ failureCategories ∧
      r.Category ≠ CategoryAvailable ∧ r.Category ≠ CategoryFree ∧
      r.Category ≠ CategoryFreeLimited ∧ r.Category ≠ CategoryPaid ∧
      ∀ f : GoString → GoString,
        Classify (str "groq/llama-3.1") 1 (str "rate limit") (recategorize f sampleKB) =
          some r :=
  classify_failure_categories (str "groq/llama-3.1") 1 (str "rate limit") sampleKB
    (by decide)

/-- C29, as stated, fails: for a budget of 2^53 + 1 kilobytes the 64-bit
products wrap around, the head size comes out as 409, and `SmartTrim` of the
empty string panics on the slice `s[:409]`; there is no result to measure. -/
theorem smartTrim_fits_counterexample :
    (1 : Int) ≤ (2 : Int) ^ 53 + 1 ∧ SmartTrim [] ((2 : Int) ^ 53 + 1) = none := by
  decide

/-- C29, amended: for every budget `1 <= maxKB < 2^53` and every string `s`
(of fewer than 2^62 bytes), `SmartTrim(s, maxKB)` returns a string of at most
`maxKB * 1024` bytes, which a second `SmartTrim` with the same budget leaves
unchanged. -/
theorem smartTrim_fits (s : GoString) (maxKB : Nat) (h1 : 1 ≤ maxKB)
    (hb : maxKB < 2 ^ 53) (hlen : s.length < 2 ^ 62) :
    ∃ r, SmartTrim s (maxKB : Int) = some r ∧ r.length ≤ maxKB * 1024 ∧
      SmartTrim r (maxKB : Int) = some r := by
  have e53 : (2 : Nat) ^ 53 = 9007199254740992 := by norm_num
  have e53i : (2 : Int) ^ 53 = 9007199254740992 := by norm_num
  rw [e53] at hb
  have hw : wrapInt64 ((maxKB : Int) * 1024) = (maxKB : Int) * 1024 :=
    wrapInt64_budget _ (by omega) (by rw [e53i]; omega)
  have hid : ∀ t : GoString, t.length ≤ maxKB * 1024 → SmartTrim t (maxKB : Int) = some t := by
    intro t ht
    exact SmartTrim_of_le_budget t _ (by rw [hw]; omega)
  by_cases hle : s.length ≤ maxKB * 1024
  · exact ⟨s, hid s hle, hle, hid s hle⟩
  · have hlong : maxKB * 1024 < s.length := by omega
    have hm : (str "\n\n...[TRUNCATED]...\n\n").length = 21 := by decide
    have hfit : (s.take (2 * (maxKB * 1024) / 5) ++ str "\n\n...[TRUNCATED]...\n\n" ++
        s.drop (s.length - 2 * (maxKB * 1024) / 5)).length ≤ maxKB * 1024 := by
      simp only [List.length_append, List.length_take, List.length_drop, hm]
      omega
    exact ⟨_, SmartTrim_of_long s maxKB hlen hlong, hfit, hid _ hfit⟩

/-- Instance of C29 (amended): 2048 bytes against a budget of one kilobyte. -/
theorem smartTrim_fits_witness :
    ∃ r, SmartTrim (List.replicate 2048 (120 : UInt8)) ((1 : Nat) : Int) = some r ∧
      r.length ≤ 1 * 1024 ∧ SmartTrim r ((1 : Nat) : Int) = some r :=
  smartTrim_fits (List.replicate 2048 120) 1 (by decide) (by norm_num)
    (by rw [List.length_replicate]; norm_num)

/-! ## Progress padding (C30) -/

theorem runeString_digit (d : Nat) (hd : d < 10) :
    runeString (48 + ((d : Nat) : Int)) = [digitByte d] := by
  interval_cases d <;> decide

theorem intToStringLoop_zero (fuel : Nat) (s : GoString) :
    intToStringLoop fuel 0 s = s := by
  cases fuel with
  | zero => rfl
  | succ f => simp [intToStringLoop]

/-- The loop of `intToString` prepends the decimal digits of a positive
number, most significant first, whenever the iteration bound is at least the
number. -/
theorem intToStringLoop_digits :
    ∀ (m : Nat), 0 < m → ∀ (fuel : Nat), m ≤ fuel → ∀ s : GoString,
      intToStringLoop fuel (m : Int) s = ((Nat.digits 10 m).reverse).map digitByte ++ s := by
  intro m
  induction m using Nat.strong_induction_on with
  | _ m ih =>
    intro hm fuel hfuel s
    obtain ⟨f, rfl⟩ : ∃ f, fuel = f + 1 := ⟨fuel - 1, by omega⟩
    have hpos : (m : Int) > 0 := by omega
    have hdiv : Int.tdiv (m : Int) 10 = ((m / 10 : Nat) : Int) := by
      rw [Int.tdiv_eq_ediv (by omega) (by omega)]
      push_cast
      rfl
    have hmod : Int.tmod (m : Int) 10 = ((m % 10 : Nat) : Int) := by
      rw [Int.tmod_eq_emod (by omega) (by omega)]
      push_cast
      rfl
    have hdig : Nat.digits 10 m = (m % 10) :: Nat.digits 10 (m / 10) :=
      Nat.digits_def' (by decide) hm
    rw [intToStringLoop, if_pos hpos, hdiv, hmod, runeString_digit _ (Nat.mod_lt _ (by decide)),
      hdig]
    by_cases hq : m / 10 = 0
    · rw [hq]
      simp [intToStringLoop_zero]
    · rw [ih (m / 10) (by omega) (by omega) f (by omega)]
      simp

/-- Function `intToString` yields, for every `n >= 0`, the decimal
representation of `n`. -/
theorem intToString_eq_decimal (n : Nat) : intToString (n : Int) = decimal n := by
  by_cases h0 : n = 0
  · subst h0
    decide
  · have hne : ¬ ((n : Int) = 0) := by omega
    rw [intToString, if_neg hne, decimal, if_neg h0, Int.toNat_ofNat,
      intToStringLoop_digits n (by omega) n (le_refl _)]
    simp

theorem decimal_length_pos (n : Nat) : 1 ≤ (decimal n).length := by
  unfold decimal
  split_ifs with h
  · simp
  · rw [List.length_map, List.length_reverse]
    have : Nat.digits 10 n ≠ [] := Nat.digits_ne_nil_iff_ne_zero.2 h
    exact List.length_pos.2 this

theorem decimal_length_mono (a b : Nat) (h : a ≤ b) :
    (decimal a).length ≤ (decimal b).length := by
  by_cases ha : a = 0
  · subst ha
    have := decimal_length_pos b
    simpa [decimal] using this
  · have hb : b ≠ 0 := by omega
    simp only [decimal, if_neg ha, if_neg hb, List.length_map, List.length_reverse]
    exact Nat.le_digits_len_le 10 a b h

/-- C30: for all integers `0 <= cur <= total`, `Padding(n, cur, total)` is
`digits(total) - digits(cur) + 1` and at least 1, where `digits` is the length
of `intToString`, which on a number `>= 0` is its decimal representation
without leading zeros; so `strings.Repeat` with that count does not panic. -/
theorem padding_pos (n cur total : Int) (h0 : 0 ≤ cur) (hle : cur ≤ total) :
    Padding n cur total =
      ((intToString total).length : Int) - ((intToString cur).length : Int) + 1 ∧
    1 ≤ Padding n cur total ∧
    intToString cur = decimal cur.toNat ∧
    intToString total = decimal total.toNat ∧
    (∀ m : Nat, 0 < m → (decimal m).head? ≠ some (digitByte 0)) ∧
    (Repeat (str " ") (Padding n cur total)).isSome = true := by
  obtain ⟨c, rfl⟩ : ∃ c : Nat, cur = (c : Int) := ⟨cur.toNat, by omega⟩
  obtain ⟨t, rfl⟩ : ∃ t : Nat, total = (t : Int) := ⟨total.toNat, by omega⟩
  have hct : c ≤ t := by omega
  have hlen := decimal_length_mono c t hct
  have hpad : Padding n (c : Int) (t : Int) =
      ((intToString (t : Int)).length : Int) - ((intToString (c : Int)).length : Int) + 1 := rfl
  have hge : 1 ≤ Padding n (c : Int) (t : Int) := by
    rw [hpad, intToString_eq_decimal, intToString_eq_decimal]
    omega
  refine ⟨hpad, hge, ?_, ?_, ?_, ?_⟩
  · rw [Int.toNat_ofNat]; exact intToString_eq_decimal c
  · rw [Int.toNat_ofNat]; exact intToString_eq_decimal t
  · intro m hm hhead
    have hm0 : m ≠ 0 := by omega
    have hnil : Nat.digits 10 m ≠ [] := Nat.digits_ne_nil_iff_ne_zero.2 hm0
    have hlast := Nat.getLast_digit_ne_zero 10 hm0
    have hlt : (Nat.digits 10 m).getLast hnil < 10 :=
      Nat.digits_lt_base (by decide) (List.getLast_mem hnil)
    simp only [decimal, if_neg hm0] at hhead
    rw [List.head?_map, List.head?_reverse, List.getLast?_eq_getLast _ hnil] at hhead
    simp only [Option.map_some', Option.some.injEq] at hhead
    generalize (Nat.digits 10 m).getLast hnil = d at hlast hlt hhead
    interval_cases d
    · exact hlast rfl
    all_goals exact absurd hhead (by decide)
  · unfold Repeat
    rw [if_neg (by omega)]
    rfl

/-- Instance of C30: 7 of 1234 models processed; three spaces plus one. -/
theorem padding_pos_witness :
    (0 : Int) ≤ 7 ∧ (7 : Int) ≤ 1234 ∧ Padding 0 7 1234 = 4 ∧ 1 ≤ Padding 0 7 1234 :=
  ⟨by decide, by decide, by decide, (padding_pos 0 7 1234 (by decide) (by decide)).2.1⟩

/-! ## Compilation of the knowledge base (C25) -/

/-- C25: `Compile` returns an error exactly when one of the six patterns is
not a valid regular expression; the message of the error names the first
invalid pattern in the order SuccessRegex, NotFoundRegex, AuthRegex,
QuotaRegex, RateLimitRegex, TimeoutRegex; and when there is no error the
returned value carries the input configuration and six matchers, none of them
`nil`, each the compilation of its pattern.  "Valid" is what the parameter
`regexpCompile`, for `regexp.Compile`, accepts. -/
theorem compile_spec (regexpCompile : GoString → Except GoString Regexp) (cfg : Config) :
    ((Compile regexpCompile cfg).2 ≠ none ↔
      ∃ np ∈ namedPatterns cfg, ¬ IsValidPattern regexpCompile np.2) ∧
    (Compile regexpCompile cfg).2 = firstInvalid regexpCompile (namedPatterns cfg) ∧
    (Compile regexpCompile cfg).1.Config = cfg ∧
    ((Compile regexpCompile cfg).2 = none →
      (∃ re, (Compile regexpCompile cfg).1.SuccessRe = some re ∧
        regexpCompile cfg.SuccessRegex = Except.ok re) ∧
      (∃ re, (Compile regexpCompile cfg).1.NotFoundRe = some re ∧
        regexpCompile cfg.NotFoundRegex = Except.ok re) ∧
      (∃ re, (Compile regexpCompile cfg).1.AuthRe = some re ∧
        regexpCompile cfg.AuthRegex = Except.ok re) ∧
      (∃ re, (Compile regexpCompile cfg).1.QuotaRe = some re ∧
        regexpCompile cfg.QuotaRegex = Except.ok re) ∧
      (∃ re, (Compile regexpCompile cfg).1.RateLimitRe = some re ∧
        regexpCompile cfg.RateLimitRegex = Except.ok re) ∧
      (∃ re, (Compile regexpCompile cfg).1.TimeoutRe = some re ∧
        regexpCompile cfg.TimeoutRegex = Except.ok re)) := by
  have hfirst : (Compile regexpCompile cfg).2 = firstInvalid regexpCompile (namedPatterns cfg) := by
    unfold Compile namedPatterns
    cases h1 : regexpCompile cfg.SuccessRegex with
    | error e => simp [firstInvalid, h1, str]
    | ok r1 =>
      cases h2 : regexpCompile cfg.NotFoundRegex with
      | error e => simp [firstInvalid, h1, h2, str]
      | ok r2 =>
        cases h3 : regexpCompile cfg.AuthRegex with
        | error e => simp [firstInvalid, h1, h2, h3, str]
        | ok r3 =>
          cases h4 : regexpCompile cfg.QuotaRegex with
          | error e => simp [firstInvalid, h1, h2, h3, h4, str]
          | ok r4 =>
            cases h5 : regexpCompile cfg.RateLimitRegex with
            | error e => simp [firstInvalid, h1, h2, h3, h4, h5, str]
            | ok r5 =>
              cases h6 : regexpCompile cfg.TimeoutRegex with
              | error e => simp [firstInvalid, h1, h2, h3, h4, h5, h6, str]
              | ok r6 => simp [firstInvalid, h1, h2, h3, h4, h5, h6]
  have hinv : ∀ l : List (GoString × GoString),
      firstInvalid regexpCompile l ≠ none ↔ ∃ np ∈ l, ¬ IsValidPattern regexpCompile np.2 := by
    intro l
    induction l with
    | nil => simp [firstInvalid]
    | cons np rest ih =>
      obtain ⟨name, p⟩ := np
      cases h : regexpCompile p with
      | error e =>
        simp only [firstInvalid, h, ne_eq, not_false_eq_true, true_iff, reduceCtorEq]
        exact ⟨(name, p), List.mem_cons_self _ _, fun ⟨re, hre⟩ => by rw [h] at hre; cases hre⟩
      | ok r =>
        simp only [firstInvalid, h]
        rw [ih]
        constructor
        · rintro ⟨np, hmem, hnp⟩
          exact ⟨np, List.mem_cons_of_mem _ hmem, hnp⟩
        · rintro ⟨np, hmem, hnp⟩
          rcases List.mem_cons.1 hmem with rfl | hmem
          · exact absurd ⟨r, h⟩ hnp
          · exact ⟨np, hmem, hnp⟩
  refine ⟨by rw [hfirst]; exact hinv _, hfirst, ?_, ?_⟩
  · unfold Compile
    cases regexpCompile cfg.SuccessRegex <;> cases regexpCompile cfg.NotFoundRegex <;>
      cases regexpCompile cfg.AuthRegex <;> cases regexpCompile cfg.QuotaRegex <;>
      cases regexpCompile cfg.RateLimitRegex <;> cases regexpCompile cfg.TimeoutRegex <;> rfl
  · unfold Compile
    cases h1 : regexpCompile cfg.SuccessRegex with
    | error e => simp
    | ok r1 =>
      cases h2 : regexpCompile cfg.NotFoundRegex with
      | error e => simp
      | ok r2 =>
        cases h3 : regexpCompile cfg.AuthRegex with
        | error e => simp
        | ok r3 =>
          cases h4 : regexpCompile cfg.QuotaRegex with
          | error e => simp
          | ok r4 =>
            cases h5 : regexpCompile cfg.RateLimitRegex with
            | error e => simp
            | ok r5 =>
              cases h6 : regexpCompile cfg.TimeoutRegex with
              | error e => simp
              | ok r6 => simp

/-- Instance of C25: the configuration of the test
`TestInvalidRegexReturnsError`, whose success pattern is "[invalid". -/
theorem compile_spec_witness :
    (Compile sampleRegexpCompile { DefaultConfig with SuccessRegex := str "[invalid" }).2 =
      some (str "regex SuccessRegex inválida: error parsing regexp: missing closing ]") :=
  (compile_spec sampleRegexpCompile
    { DefaultConfig with SuccessRegex := str "[invalid" }).2.1.trans (by decide)

/-! ## The worker body: cache hit and miss (C21) -/

/-- C21, as stated, fails: with caching enabled, a cache hit whose result has
an empty `Model` field is not reused; the worker probes the model and writes
the new result to the cache. -/
theorem processJob_hit_counterexample :
    (processJob (str "test/model") { sampleCfg with UseCache := true } sampleKB
        (zeroModelResult, true) execStartError).map (fun o => (o.probed, o.cacheSets.length)) =
      some (true, 1) := by
  decide

/-- C21, amended: with caching enabled, when `Get` returns `(r, true)` and
`r.Model` is not empty, the worker emits `r` with " (cached)" appended to its
reason and all other fields unchanged, runs no probe and writes nothing to
the cache; when `Get` returns `(r, false)`, or `(r, true)` with an empty
`r.Model`, the worker emits the result of `TestModel` unchanged and writes it
to the cache under the model identifier. -/
theorem processJob_cache (model : GoString) (cfg : RunConfig) (compiledKB : Compiled)
    (r : ModelResult) (exec : Nat → ProbeOutcome) (huse : cfg.UseCache = true) :
    (r.Model ≠ [] →
      processJob model cfg compiledKB (r, true) exec =
        some { res := { r with Reason := r.Reason ++ str " (cached)" },
               probed := false, cacheSets := [] }) ∧
    (processJob model cfg compiledKB (r, false) exec =
      match TestModel model cfg compiledKB exec with
      | none => none
      | some tested => some { res := tested, probed := true, cacheSets := [(model, tested)] }) ∧
    (r.Model = [] →
      processJob model cfg compiledKB (r, true) exec =
        match TestModel model cfg compiledKB exec with
        | none => none
        | some tested =>
          some { res := tested, probed := true, cacheSets := [(model, tested)] }) := by
  refine ⟨fun hne => ?_, ?_, fun he => ?_⟩
  · simp [processJob, huse, hne]
  · simp only [processJob, huse, if_true]
    have hz : zeroModelResult.Model = [] := rfl
    simp only [Bool.false_eq_true, if_false, hz, if_true]
  · simp only [processJob, huse, if_true, he]

/-- Instance of C21 (amended): a cache hit for the model `groq/llama-3.1`. -/
theorem processJob_cache_witness :
    processJob (str "groq/llama-3.1") { sampleCfg with UseCache := true } sampleKB
        (sampleCached, true) execStartError =
      some { res := { sampleCached with Reason := sampleCached.Reason ++ str " (cached)" },
             probed := false, cacheSets := [] } :=
  (processJob_cache (str "groq/llama-3.1") { sampleCfg with UseCache := true } sampleKB
    sampleCached execStartError rfl).1 (by decide)

/-! ## The worker pool (C22) -/

theorem flatMap_set_perm {α β : Type} (f : α → List β) :
    ∀ (ws : List α) (i : Nat) (w w1 : α), ws[i]? = some w →
      ((ws.set i w1).flatMap f ++ f w).Perm (ws.flatMap f ++ f w1) := by
  intro ws
  induction ws with
  | nil => intro i w w1 h; simp at h
  | cons x rest ih =>
    intro i w w1 h
    cases i with
    | zero =>
      simp only [List.getElem?_cons_zero, Option.some.injEq] at h
      subst h
      simp only [List.set_cons_zero, List.flatMap_cons]
      rw [← Multiset.coe_eq_coe]
      simp only [← Multiset.coe_add]
      abel
    | succ j =>
      simp only [List.getElem?_cons_succ] at h
      have := ih j w w1 h
      rw [← Multiset.coe_eq_coe] at this ⊢
      simp only [List.set_cons_succ, List.flatMap_cons, ← Multiset.coe_add] at this ⊢
      rw [add_assoc, this]
      abel

theorem sum_map_set {α : Type} (g : α → Nat) :
    ∀ (ws : List α) (i : Nat) (w w1 : α), ws[i]? = some w →
      ((ws.set i w1).map g).sum + g w = (ws.map g).sum + g w1 := by
  intro ws
  induction ws with
  | nil => intro i w w1 h; simp at h
  | cons x rest ih =>
    intro i w w1 h
    cases i with
    | zero =>
      simp only [List.getElem?_cons_zero, Option.some.injEq] at h
      subst h
      simp only [List.set_cons_zero, List.map_cons, List.sum_cons]
      omega
    | succ j =>
      simp only [List.getElem?_cons_succ] at h
      have := ih j w w1 h
      simp only [List.set_cons_succ, List.map_cons, List.sum_cons]
      omega

theorem resultsOf_append (l₁ l₂ : List Msg) :
    resultsOf (l₁ ++ l₂) = resultsOf l₁ ++ resultsOf l₂ := by
  induction l₁ with
  | nil => rfl
  | cons e rest ih =>
    cases e with
    | start m => simp [resultsOf, ih]
    | result r => simp [resultsOf, ih]

/-- The record that `TestModel` returns bears the name of the model. -/
theorem TestModel_Model (modelName : GoString) (cfg : RunConfig) (compiledKB : Compiled)
    (exec : Nat → ProbeOutcome) (r : ModelResult)
    (h : TestModel modelName cfg compiledKB exec = some r) : r.Model = modelName := by
  unfold TestModel at h
  simp only at h
  split at h
  · cases h
  · split at h
    · cases h
    · cases h
      rfl

/-- The result a worker computes bears the name of its job, when the cache
is off, misses, or returns a record whose `Model` is the job or is empty. -/
theorem processJob_Model (model : GoString) (cfg : RunConfig) (compiledKB : Compiled)
    (cacheGet : ModelResult × Bool) (exec : Nat → ProbeOutcome) (out : JobOutcome)
    (hok : cfg.UseCache = false ∨ cacheGet.2 = false ∨ cacheGet.1.Model = model ∨
      cacheGet.1.Model = [])
    (h : processJob model cfg compiledKB cacheGet exec = some out) : out.res.Model = model := by
  have hz : zeroModelResult.Model = [] := rfl
  unfold processJob at h
  by_cases hcached : cfg.UseCache = true ∧ cacheGet.2 = true ∧ cacheGet.1.Model ≠ []
  · obtain ⟨huse, hhit, hne⟩ := hcached
    simp only [huse, hhit, if_true, hne, if_false, Option.some.injEq] at h
    rw [← h]
    rcases hok with hk | hk | hk | hk
    · rw [huse] at hk; cases hk
    · rw [hhit] at hk; cases hk
    · exact hk
    · exact absurd hk hne
  · have hres : (if cfg.UseCache = true then
          if cacheGet.2 = true then
            { cacheGet.1 with Reason := cacheGet.1.Reason ++ str " (cached)" }
          else zeroModelResult
        else zeroModelResult).Model = [] := by
      split_ifs with h1 h2
      · by_contra hne
        exact hcached ⟨h1, h2, hne⟩
      · rfl
      · rfl
    simp only [hres, if_true] at h
    cases ht : TestModel model cfg compiledKB exec with
    | none => rw [ht] at h; cases h
    | some t =>
      rw [ht] at h
      simp only [Option.some.injEq] at h
      rw [← h]
      exact TestModel_Model _ _ _ _ _ ht

/-- For an output budget of at least 0 and below 2^52 kilobytes the worker
body never panics. -/
theorem processJob_isSome (model : GoString) (cfg : RunConfig) (compiledKB : Compiled)
    (cacheGet : ModelResult × Bool) (exec : Nat → ProbeOutcome)
    (h0 : 0 ≤ cfg.MaxOutputKB) (h1 : cfg.MaxOutputKB < (2 : Int) ^ 52) :
    ∃ out, processJob model cfg compiledKB cacheGet exec = some out := by
  have hT : ∃ t, TestModel model cfg compiledKB exec = some t := by
    obtain ⟨t, ht⟩ := Option.isSome_iff_exists.1
      (SmartTrim_isSome (runLoop cfg compiledKB exec).lastOut _ h0 h1)
    obtain ⟨r, hr, -⟩ :=
      Classify_shape model (runLoop cfg compiledKB exec).exitCode t compiledKB
    simp only [TestModel, ht, hr]
    exact ⟨_, rfl⟩
  obtain ⟨t, ht⟩ := hT
  unfold processJob
  simp only [ht]
  split_ifs <;> exact ⟨_, rfl⟩

theorem PoolInv_initPool (modelList : List GoString) (cfg : RunConfig) :
    PoolInv modelList cfg initPool where
  jobs_perm := by simp [initPool, pendingJobs]
  processed_eq := rfl
  results_len := rfl
  jobsClosed_iff := by simp [initPool]
  exited_drained := by simp [initPool]
  msgClosed_iff := by simp [initPool]
  closed_exited := by simp [initPool]
  workers_len := by
    constructor
    · intro i h
      simp only [initPool, MainPc.spawning.injEq] at h
      subst h
      simp [initPool]
    · intro h
      exact absurd rfl (h 0)

theorem PoolInv_mainStep (modelList : List GoString) (cfg : RunConfig) (s s1 : PoolState)
    (hinv : PoolInv modelList cfg s) (h : mainStep modelList cfg s = some s1) :
    PoolInv modelList cfg s1 := by
  obtain ⟨h1, h2, h3, h4, h5, h6, h7, h8⟩ := hinv
  unfold mainStep at h
  cases hm : s.main with
  | spawning i =>
    simp only [hm] at h
    split_ifs at h with hlt
    · simp only [Option.some.injEq] at h
      subst h
      simp only [hm, pendingJobs] at h1 h4 h5 h6 h7 h8
      refine ⟨?_, ?_, h3, ?_, ?_, ?_, ?_, ?_⟩
      · simpa [pendingJobs, inHand] using h1
      · simpa [countedMark] using h2
      · simpa using h4
      · intro hx
        simp only [List.mem_append, List.mem_singleton] at hx
        rcases hx with hx | hx
        · exact h5 hx
        · cases hx
      · simpa using h6
      · simp
      · constructor
        · intro j hj
          simp only [MainPc.spawning.injEq] at hj
          subst hj
          have := (h8.1 i rfl).1
          simp only [List.length_append, List.length_singleton, this, true_and]
          omega
        · intro hj
          exact absurd rfl (hj (i + 1))
    · simp only [Option.some.injEq] at h
      subst h
      simp only [hm, pendingJobs] at h1 h4 h5 h6 h7 h8
      refine ⟨?_, h2, h3, ?_, h5, ?_, ?_, ?_⟩
      · simpa [pendingJobs] using h1
      · simpa using h4
      · simpa using h6
      · simp
      · constructor
        · intro j hj
          cases hj
        · intro _
          have := h8.1 i rfl
          simp only
          omega
  | enqueuing rest =>
    cases rest with
    | nil =>
      simp only [hm] at h
      simp only [Option.some.injEq] at h
      subst h
      simp only [hm, pendingJobs] at h1 h4 h5 h6 h7 h8
      refine ⟨?_, h2, h3, ?_, ?_, ?_, ?_, ?_⟩
      · simpa [pendingJobs] using h1
      · simp
      · intro hx
        have := (h5 hx).1
        rw [h4] at this
        simp at this
      · simpa using h6
      · simp
      · constructor
        · intro j hj
          cases hj
        · intro _
          exact h8.2 (by intro j hj; cases hj)
    | cons m rest =>
      simp only [hm] at h
      simp only [Option.some.injEq] at h
      subst h
      simp only [hm, pendingJobs] at h1 h4 h5 h6 h7 h8
      refine ⟨?_, h2, h3, ?_, ?_, ?_, ?_, ?_⟩
      · simpa [pendingJobs] using h1
      · simpa using h4
      · intro hx
        have := (h5 hx).1
        rw [h4] at this
        simp at this
      · simpa using h6
      · simp
      · constructor
        · intro j hj
          cases hj
        · intro _
          exact h8.2 (by intro j hj; cases hj)
  | waiting =>
    simp only [hm] at h
    split_ifs at h with hall
    simp only [Option.some.injEq] at h
    subst h
    simp only [hm, pendingJobs] at h1 h4 h5 h6 h7 h8
    refine ⟨?_, h2, h3, ?_, h5, ?_, ?_, ?_⟩
    · simpa [pendingJobs] using h1
    · simpa using h4
    · simp
    · intro _ w hw
      simp only [List.all_eq_true, decide_eq_true_eq] at hall
      exact hall w hw
    · constructor
      · intro j hj
        cases hj
      · intro _
        exact h8.2 (by intro j hj; cases hj)
  | closed =>
    simp only [hm] at h
    cases h


theorem forall_mem_set {α : Type} (P : α → Prop) (ws : List α) (i : Nat) (w1 : α)
    (hall : ∀ w ∈ ws, P w) (h1 : P w1) : ∀ w ∈ ws.set i w1, P w := by
  intro w hw
  rcases List.mem_or_eq_of_mem_set hw with hw | hw
  · exact hall w hw
  · rw [hw]; exact h1

theorem mem_of_getElem?_eq_some {α : Type} (ws : List α) (i : Nat) (w : α)
    (h : ws[i]? = some w) : w ∈ ws := by
  rw [List.getElem?_eq_some] at h
  obtain ⟨hi, rfl⟩ := h
  exact List.getElem_mem hi

theorem multiset_set_inHand (ws : List WorkerPc) (i : Nat) (w w1 : WorkerPc)
    (h : ws[i]? = some w) :
    ((↑((ws.set i w1).flatMap inHand) : Multiset GoString) + ↑(inHand w)) =
      ↑(ws.flatMap inHand) + ↑(inHand w1) := by
  have := flatMap_set_perm inHand ws i w w1 h
  rw [← Multiset.coe_eq_coe] at this
  simpa only [← Multiset.coe_add] using this


theorem PoolInv_workerStep (modelList : List GoString) (cfg : RunConfig) (compiledKB : Compiled)
    (s s1 : PoolState) (i : Nat) (cacheGet : ModelResult × Bool) (exec : Nat → ProbeOutcome)
    (hinv : PoolInv modelList cfg s)
    (h : workerStep cfg compiledKB s i cacheGet exec = some s1) : PoolInv modelList cfg s1 := by
  obtain ⟨h1, h2, h3, h4, h5, h6, h7, h8⟩ := hinv
  unfold workerStep at h
  cases hw : s.workers[i]? with
  | none => simp only [hw] at h; cases h
  | some w =>
    have hmem := mem_of_getElem?_eq_some _ _ _ hw
    have hperm := fun w1 => multiset_set_inHand s.workers i w w1 hw
    have hsum := fun w1 => sum_map_set countedMark s.workers i w w1 hw
    have hne : w ≠ WorkerPc.exited → s.main ≠ MainPc.closed :=
      fun hx hc => hx (h7 hc w hmem)
    have hex : ∀ w1, w1 ≠ WorkerPc.exited → WorkerPc.exited ∈ s.workers.set i w1 →
        WorkerPc.exited ∈ s.workers := by
      intro w1 hw1 hx
      rcases List.mem_or_eq_of_mem_set hx with hx | hx
      · exact hx
      · exact absurd hx.symm hw1
    rw [← Multiset.coe_eq_coe] at h1
    cases w with
    | receiving =>
      simp only [hw] at h
      cases hj : s.jobs with
      | nil =>
        simp only [hj] at h
        split_ifs at h with hc
        simp only [Option.some.injEq] at h
        subst h
        have hp := hperm WorkerPc.exited
        have hs := hsum WorkerPc.exited
        simp only [inHand, countedMark, Multiset.coe_nil, add_zero] at hp hs
        refine ⟨?_, ?_, h3, h4, ?_, h6, ?_, ?_⟩
        · rw [← Multiset.coe_eq_coe]
          simp only [← Multiset.coe_add] at h1 ⊢
          rw [hp]
          rw [hj] at h1
          exact h1
        · simp only [hs]
          exact h2
        · intro _
          exact ⟨hc, rfl⟩
        · intro hm
          exact absurd hm (hne (by simp))
        · simpa only [List.length_set] using h8
      | cons m rest =>
        simp only [hj] at h
        simp only [Option.some.injEq] at h
        subst h
        have hp := hperm (WorkerPc.gotJob m)
        have hs := hsum (WorkerPc.gotJob m)
        rw [hj, ← List.singleton_append] at h1
        simp only [inHand, countedMark, Multiset.coe_nil, add_zero] at hp hs
        refine ⟨?_, ?_, h3, h4, ?_, h6, ?_, ?_⟩
        · rw [← Multiset.coe_eq_coe]
          simp only [← Multiset.coe_add] at h1 ⊢
          rw [← h1, hp]
          abel
        · simp only [hs]
          exact h2
        · intro hx
          have := (h5 (hex _ (by simp) hx)).2
          rw [hj] at this
          cases this
        · intro hm
          exact absurd hm (hne (by simp))
        · simpa only [List.length_set] using h8
    | gotJob m =>
      simp only [hw] at h
      simp only [Option.some.injEq] at h
      subst h
      have hp := hperm (WorkerPc.started m)
      have hs := hsum (WorkerPc.started m)
      simp only [inHand, countedMark, add_zero, add_left_inj] at hp hs
      refine ⟨?_, ?_, ?_, h4, ?_, h6, ?_, ?_⟩
      · rw [← Multiset.coe_eq_coe]
        simp only [← Multiset.coe_add] at h1 ⊢
        rw [hp]
        exact h1
      · simp only [hs]
        exact h2
      · simpa [resultsOf_append, resultsOf] using h3
      · intro hx
        exact h5 (hex _ (by simp) hx)
      · intro hm
        exact absurd hm (hne (by simp))
      · simpa only [List.length_set] using h8
    | started m =>
      simp only [hw] at h
      cases hpj : processJob m cfg compiledKB cacheGet exec with
      | none => simp only [hpj] at h; cases h
      | some out =>
        simp only [hpj] at h
        simp only [Option.some.injEq] at h
        subst h
        have hp := hperm (WorkerPc.computed m out.res)
        have hs := hsum (WorkerPc.computed m out.res)
        simp only [inHand, countedMark, add_zero, add_left_inj] at hp hs
        refine ⟨?_, ?_, h3, h4, ?_, h6, ?_, ?_⟩
        · rw [← Multiset.coe_eq_coe]
          simp only [← Multiset.coe_add] at h1 ⊢
          rw [hp]
          exact h1
        · simp only [hs]
          exact h2
        · intro hx
          exact h5 (hex _ (by simp) hx)
        · intro hm
          exact absurd hm (hne (by simp))
        · simpa only [List.length_set] using h8
    | computed m res =>
      simp only [hw] at h
      simp only [Option.some.injEq] at h
      subst h
      have hp := hperm (WorkerPc.counted m res)
      have hs := hsum (WorkerPc.counted m res)
      simp only [inHand, countedMark, add_zero, add_left_inj] at hp hs
      refine ⟨?_, ?_, h3, h4, ?_, h6, ?_, ?_⟩
      · rw [← Multiset.coe_eq_coe]
        simp only [← Multiset.coe_add] at h1 ⊢
        rw [hp]
        exact h1
      · simp only [hs]
        omega
      · intro hx
        exact h5 (hex _ (by simp) hx)
      · intro hm
        exact absurd hm (hne (by simp))
      · simpa only [List.length_set] using h8
    | counted m res =>
      simp only [hw] at h
      simp only [Option.some.injEq] at h
      subst h
      have hp := hperm WorkerPc.receiving
      have hs := hsum WorkerPc.receiving
      simp only [inHand, countedMark, add_zero, Multiset.coe_nil] at hp hs
      refine ⟨?_, ?_, ?_, h4, ?_, h6, ?_, ?_⟩
      · rw [← Multiset.coe_eq_coe]
        simp only [← Multiset.coe_add] at h1 ⊢
        rw [← h1, ← hp]
        abel
      · simp only [List.length_append, List.length_singleton]
        omega
      · simpa [resultsOf_append, resultsOf] using h3
      · intro hx
        exact h5 (hex _ (by simp) hx)
      · intro hm
        exact absurd hm (hne (by simp))
      · simpa only [List.length_set] using h8
    | exited =>
      simp only [hw] at h
      cases h

theorem PoolInv_poolStep (modelList : List GoString) (cfg : RunConfig) (compiledKB : Compiled)
    (s s1 : PoolState) (a : Action) (hinv : PoolInv modelList cfg s)
    (h : poolStep modelList cfg compiledKB s a = some s1) : PoolInv modelList cfg s1 := by
  cases a with
  | main => exact PoolInv_mainStep _ _ _ _ hinv h
  | worker i cacheGet exec => exact PoolInv_workerStep _ _ _ _ _ _ _ _ hinv h

theorem PoolInv_runPool (modelList : List GoString) (cfg : RunConfig) (compiledKB : Compiled) :
    ∀ (sched : List Action) (s s1 : PoolState), PoolInv modelList cfg s →
      runPool modelList cfg compiledKB sched s = some s1 → PoolInv modelList cfg s1 := by
  intro sched
  induction sched with
  | nil =>
    intro s s1 hinv h
    simp only [runPool, Option.some.injEq] at h
    rw [← h]
    exact hinv
  | cons a rest ih =>
    intro s s1 hinv h
    simp only [runPool] at h
    cases hs : poolStep modelList cfg compiledKB s a with
    | none => simp only [hs] at h; cases h
    | some s2 =>
      simp only [hs] at h
      exact ih s2 s1 (PoolInv_poolStep _ _ _ _ _ _ hinv hs) h

theorem poolStep_measure (modelList : List GoString) (cfg : RunConfig) (compiledKB : Compiled)
    (s s1 : PoolState) (a : Action) (h : poolStep modelList cfg compiledKB s a = some s1) :
    poolMeasure modelList cfg s1 < poolMeasure modelList cfg s := by
  cases a with
  | main =>
    simp only [poolStep, mainStep] at h
    cases hm : s.main with
    | spawning i =>
      simp only [hm] at h
      split_ifs at h with hlt
      · simp only [Option.some.injEq] at h
        subst h
        simp only [poolMeasure, hm, mainRemaining, List.map_append, List.sum_append,
          List.map_cons, List.map_nil, List.sum_cons, List.sum_nil, workerRemaining]
        omega
      · simp only [Option.some.injEq] at h
        subst h
        simp only [poolMeasure, hm, mainRemaining]
        omega
    | enqueuing rest =>
      cases rest with
      | nil =>
        simp only [hm, Option.some.injEq] at h
        subst h
        simp only [poolMeasure, hm, mainRemaining, List.length_nil]
        omega
      | cons m rest =>
        simp only [hm, Option.some.injEq] at h
        subst h
        simp only [poolMeasure, hm, mainRemaining, List.length_cons, List.length_append,
          List.length_nil]
        omega
    | waiting =>
      simp only [hm] at h
      split_ifs at h with hall
      simp only [Option.some.injEq] at h
      subst h
      simp only [poolMeasure, hm, mainRemaining]
      omega
    | closed =>
      simp only [hm] at h
      cases h
  | worker i cacheGet exec =>
    simp only [poolStep, workerStep] at h
    cases hw : s.workers[i]? with
    | none => simp only [hw] at h; cases h
    | some w =>
      have hsum := fun w1 => sum_map_set workerRemaining s.workers i w w1 hw
      cases w with
      | receiving =>
        simp only [hw] at h
        cases hj : s.jobs with
        | nil =>
          simp only [hj] at h
          split_ifs at h with hc
          simp only [Option.some.injEq] at h
          subst h
          have := hsum WorkerPc.exited
          simp only [workerRemaining] at this
          simp only [poolMeasure, hj, List.length_nil]
          omega
        | cons m rest =>
          simp only [hj, Option.some.injEq] at h
          subst h
          have := hsum (WorkerPc.gotJob m)
          simp only [workerRemaining] at this
          simp only [poolMeasure, hj, List.length_cons]
          omega
      | gotJob m =>
        simp only [hw, Option.some.injEq] at h
        subst h
        have := hsum (WorkerPc.started m)
        simp only [workerRemaining] at this
        simp only [poolMeasure]
        omega
      | started m =>
        simp only [hw] at h
        cases hpj : processJob m cfg compiledKB cacheGet exec with
        | none => simp only [hpj] at h; cases h
        | some out =>
          simp only [hpj, Option.some.injEq] at h
          subst h
          have := hsum (WorkerPc.computed m out.res)
          simp only [workerRemaining] at this
          simp only [poolMeasure]
          omega
      | computed m res =>
        simp only [hw, Option.some.injEq] at h
        subst h
        have := hsum (WorkerPc.counted m res)
        simp only [workerRemaining] at this
        simp only [poolMeasure]
        omega
      | counted m res =>
        simp only [hw, Option.some.injEq] at h
        subst h
        have := hsum WorkerPc.receiving
        simp only [workerRemaining] at this
        simp only [poolMeasure]
        omega
      | exited =>
        simp only [hw] at h
        cases h

theorem runPool_length (modelList : List GoString) (cfg : RunConfig) (compiledKB : Compiled) :
    ∀ (sched : List Action) (s s1 : PoolState),
      runPool modelList cfg compiledKB sched s = some s1 →
        sched.length + poolMeasure modelList cfg s1 ≤ poolMeasure modelList cfg s := by
  intro sched
  induction sched with
  | nil =>
    intro s s1 h
    simp only [runPool, Option.some.injEq] at h
    rw [← h]
    simp
  | cons a rest ih =>
    intro s s1 h
    simp only [runPool] at h
    cases hs : poolStep modelList cfg compiledKB s a with
    | none => simp only [hs] at h; cases h
    | some s2 =>
      simp only [hs] at h
      have h1 := ih s2 s1 h
      have h2 := poolStep_measure _ _ _ _ _ _ hs
      simp only [List.length_cons]
      omega

theorem all_exited (ws : List WorkerPc) (h : ∀ w ∈ ws, w = WorkerPc.exited) :
    ws.flatMap inHand = [] ∧ (ws.map countedMark).sum = 0 := by
  induction ws with
  | nil => exact ⟨rfl, rfl⟩
  | cons w rest ih =>
    have hw := h w (List.mem_cons_self _ _)
    have hr := ih (fun x hx => h x (List.mem_cons_of_mem _ hx))
    subst hw
    simp only [List.flatMap_cons, inHand, List.nil_append, List.map_cons, List.sum_cons,
      countedMark, zero_add]
    exact hr

/-- What holds once `msgChan` is closed, for a concurrency of at least 1. -/
theorem PoolInv_closed (modelList : List GoString) (cfg : RunConfig) (s : PoolState)
    (hc : 1 ≤ cfg.Concurrency) (hinv : PoolInv modelList cfg s) (hcl : s.msgClosed = true) :
    (resultsOf s.msgs).length = modelList.length ∧ s.finished.Perm modelList ∧
      s.processed = modelList.length := by
  obtain ⟨h1, h2, h3, h4, h5, h6, h7, h8⟩ := hinv
  have hm := h6.1 hcl
  have hall := h7 hm
  obtain ⟨hf, hs⟩ := all_exited _ hall
  have hlen := h8.2 (by intro i hi; rw [hm] at hi; cases hi)
  have hne : s.workers ≠ [] := by
    intro hnil
    rw [hnil] at hlen
    simp only [List.length_nil] at hlen
    omega
  obtain ⟨w, hw⟩ := List.exists_mem_of_ne_nil _ hne
  have hj := (h5 (hall w hw ▸ hw)).2
  simp only [hf, hj, hm, pendingJobs, List.append_nil] at h1
  refine ⟨?_, h1, ?_⟩
  · rw [h3, h1.length_eq]
  · rw [h2, hs, h1.length_eq]
    rfl

theorem NamesInv_initPool : NamesInv initPool := by
  refine ⟨rfl, ?_⟩
  intro w hw
  simp [initPool] at hw

/-- A step keeps the names of the results in line with the jobs, when the
cache is off or its answer at the step is one a cache keyed by model
identifier gives. -/
theorem NamesInv_poolStep (modelList : List GoString) (cfg : RunConfig) (compiledKB : Compiled)
    (s s1 : PoolState) (a : Action) (hinv : NamesInv s)
    (hok : cfg.UseCache = false ∨ cacheAnswerOk s a = true)
    (h : poolStep modelList cfg compiledKB s a = some s1) : NamesInv s1 := by
  obtain ⟨hres, hheld⟩ := hinv
  cases a with
  | main =>
    simp only [poolStep, mainStep] at h
    cases hm : s.main with
    | spawning i =>
      simp only [hm] at h
      split_ifs at h with hlt
      · simp only [Option.some.injEq] at h
        subst h
        refine ⟨hres, ?_⟩
        intro w hw m res hh
        simp only [List.mem_append, List.mem_singleton] at hw
        rcases hw with hw | hw
        · exact hheld w hw m res hh
        · subst hw
          cases hh
      · simp only [Option.some.injEq] at h
        subst h
        exact ⟨hres, hheld⟩
    | enqueuing rest =>
      cases rest with
      | nil =>
        simp only [hm, Option.some.injEq] at h
        subst h
        exact ⟨hres, hheld⟩
      | cons m rest =>
        simp only [hm, Option.some.injEq] at h
        subst h
        exact ⟨hres, hheld⟩
    | waiting =>
      simp only [hm] at h
      split_ifs at h with hall
      simp only [Option.some.injEq] at h
      subst h
      exact ⟨hres, hheld⟩
    | closed =>
      simp only [hm] at h
      cases h
  | worker i cacheGet exec =>
    simp only [poolStep, workerStep] at h
    cases hw : s.workers[i]? with
    | none => simp only [hw] at h; cases h
    | some w =>
      have hmem := mem_of_getElem?_eq_some _ _ _ hw
      cases w with
      | receiving =>
        simp only [hw] at h
        cases hj : s.jobs with
        | nil =>
          simp only [hj] at h
          split_ifs at h with hc
          simp only [Option.some.injEq] at h
          subst h
          exact ⟨hres, forall_mem_set _ _ _ _ hheld (by intro m res hh; cases hh)⟩
        | cons m rest =>
          simp only [hj, Option.some.injEq] at h
          subst h
          exact ⟨hres, forall_mem_set _ _ _ _ hheld (by intro m res hh; cases hh)⟩
      | gotJob m =>
        simp only [hw, Option.some.injEq] at h
        subst h
        refine ⟨?_, forall_mem_set _ _ _ _ hheld (by intro m res hh; cases hh)⟩
        simpa [resultsOf_append, resultsOf] using hres
      | started m =>
        simp only [hw] at h
        cases hpj : processJob m cfg compiledKB cacheGet exec with
        | none => simp only [hpj] at h; cases h
        | some out =>
          simp only [hpj, Option.some.injEq] at h
          subst h
          refine ⟨hres, forall_mem_set _ _ _ _ hheld ?_⟩
          intro m1 res hh
          simp only [heldResult, Option.some.injEq, Prod.mk.injEq] at hh
          rw [← hh.1, ← hh.2]
          refine processJob_Model _ _ _ _ _ _ ?_ hpj
          rcases hok with hu | hans
          · exact Or.inl hu
          · right
            simp only [cacheAnswerOk, hw, Bool.or_eq_true, Bool.not_eq_true',
              decide_eq_true_eq] at hans
            rcases hans with (hans | hans) | hans
            · exact Or.inl hans
            · exact Or.inr (Or.inl hans)
            · exact Or.inr (Or.inr hans)
      | computed m res =>
        simp only [hw, Option.some.injEq] at h
        subst h
        refine ⟨hres, forall_mem_set _ _ _ _ hheld ?_⟩
        intro m1 res1 hh
        simp only [heldResult, Option.some.injEq, Prod.mk.injEq] at hh
        rw [← hh.1, ← hh.2]
        exact hheld _ hmem m res rfl
      | counted m res =>
        simp only [hw, Option.some.injEq] at h
        subst h
        refine ⟨?_, forall_mem_set _ _ _ _ hheld (by intro m res hh; cases hh)⟩
        have := hheld _ hmem m res rfl
        simp [resultsOf_append, resultsOf, hres, this]
      | exited =>
        simp only [hw] at h
        cases h

theorem NamesInv_runPool (modelList : List GoString) (cfg : RunConfig) (compiledKB : Compiled) :
    ∀ (sched : List Action) (s s1 : PoolState), NamesInv s →
      (cfg.UseCache = false ∨ cacheFaithful modelList cfg compiledKB sched s = true) →
      runPool modelList cfg compiledKB sched s = some s1 → NamesInv s1 := by
  intro sched
  induction sched with
  | nil =>
    intro s s1 hinv _ h
    simp only [runPool, Option.some.injEq] at h
    rw [← h]
    exact hinv
  | cons a rest ih =>
    intro s s1 hinv hok h
    simp only [runPool] at h
    cases hs : poolStep modelList cfg compiledKB s a with
    | none => simp only [hs] at h; cases h
    | some s2 =>
      simp only [hs] at h
      simp only [cacheFaithful, hs, Bool.and_eq_true] at hok
      refine ih s2 s1 (NamesInv_poolStep _ _ _ _ _ _ hinv ?_ hs) ?_ h
      · exact hok.imp id (fun hf => hf.1)
      · exact hok.imp id (fun hf => hf.2)

/-- While `msgChan` is open some goroutine can take a step, whatever the
cache and the probes answer, provided the output budget is at least 0 and
below 2^52 kilobytes. -/
theorem poolStep_enabled (modelList : List GoString) (cfg : RunConfig) (compiledKB : Compiled)
    (s : PoolState) (hinv : PoolInv modelList cfg s)
    (h0 : 0 ≤ cfg.MaxOutputKB) (h1 : cfg.MaxOutputKB < (2 : Int) ^ 52)
    (hopen : s.msgClosed = false) (cacheGet : ModelResult × Bool) (exec : Nat → ProbeOutcome) :
    (∃ s1, poolStep modelList cfg compiledKB s Action.main = some s1) ∨
      ∃ i s1, poolStep modelList cfg compiledKB s (Action.worker i cacheGet exec) = some s1 := by
  cases hm : s.main with
  | spawning i =>
    left
    simp only [poolStep, mainStep, hm]
    split_ifs <;> exact ⟨_, rfl⟩
  | enqueuing rest =>
    left
    cases rest with
    | nil => simp only [poolStep, mainStep, hm]; exact ⟨_, rfl⟩
    | cons m rest => simp only [poolStep, mainStep, hm]; exact ⟨_, rfl⟩
  | waiting =>
    by_cases hall : s.workers.all (fun w => decide (w = WorkerPc.exited)) = true
    · left
      simp only [poolStep, mainStep, hm, hall, if_true]
      exact ⟨_, rfl⟩
    · right
      simp only [List.all_eq_true, decide_eq_true_eq, not_forall] at hall
      obtain ⟨w, hw, hne⟩ := hall
      obtain ⟨i, hi⟩ := List.mem_iff_getElem?.1 hw
      refine ⟨i, ?_⟩
      simp only [poolStep, workerStep, hi]
      cases w with
      | receiving =>
        cases hj : s.jobs with
        | nil =>
          have hc : s.jobsClosed = true := hinv.jobsClosed_iff.2 (Or.inl hm)
          simp only [hc, if_true]
          exact ⟨_, rfl⟩
        | cons m rest => exact ⟨_, rfl⟩
      | gotJob m => exact ⟨_, rfl⟩
      | started m =>
        obtain ⟨out, hout⟩ := processJob_isSome m cfg compiledKB cacheGet exec h0 h1
        simp only [hout]
        exact ⟨_, rfl⟩
      | computed m res => exact ⟨_, rfl⟩
      | counted m res => exact ⟨_, rfl⟩
      | exited => exact absurd rfl hne
  | closed =>
    have := hinv.msgClosed_iff.2 hm
    rw [hopen] at this
    cases this

/-- Once `msgChan` is closed no goroutine takes a step any more. -/
theorem poolStep_closed (modelList : List GoString) (cfg : RunConfig) (compiledKB : Compiled)
    (s : PoolState) (hinv : PoolInv modelList cfg s) (hcl : s.msgClosed = true) (a : Action) :
    poolStep modelList cfg compiledKB s a = none := by
  have hm := hinv.msgClosed_iff.1 hcl
  have hall := hinv.closed_exited hm
  cases a with
  | main => simp only [poolStep, mainStep, hm]
  | worker i cacheGet exec =>
    simp only [poolStep, workerStep]
    cases hw : s.workers[i]? with
    | none => rfl
    | some w =>
      have := hall w (mem_of_getElem?_eq_some _ _ _ hw)
      subst this
      rfl

/-- A step under which the cache misses is one a cache keyed by model
identifier gives. -/
theorem cacheAnswerOk_miss (s : PoolState) (i : Nat) (r : ModelResult)
    (exec : Nat → ProbeOutcome) : cacheAnswerOk s (Action.worker i (r, false) exec) = true := by
  simp only [cacheAnswerOk]
  cases hw : s.workers[i]? with
  | none => rfl
  | some w => cases w <;> simp

/-- From every state of a run there is a way on to the closing of `msgChan`,
whatever the probes answer, along which the cache misses at every lookup. -/
theorem runPool_exists_closed (modelList : List GoString) (cfg : RunConfig)
    (compiledKB : Compiled) (h0 : 0 ≤ cfg.MaxOutputKB) (h1 : cfg.MaxOutputKB < (2 : Int) ^ 52)
    (r : ModelResult) (exec : Nat → ProbeOutcome) :
    ∀ (n : Nat) (s : PoolState), poolMeasure modelList cfg s ≤ n → PoolInv modelList cfg s →
      ∃ sched s1, runPool modelList cfg compiledKB sched s = some s1 ∧ s1.msgClosed = true ∧
        cacheFaithful modelList cfg compiledKB sched s = true := by
  intro n
  induction n with
  | zero =>
    intro s hn hinv
    cases hcl : s.msgClosed with
    | true => exact ⟨[], s, rfl, hcl, rfl⟩
    | false =>
      rcases poolStep_enabled _ _ compiledKB s hinv h0 h1 hcl (r, false) exec with
        ⟨s1, hs⟩ | ⟨i, s1, hs⟩
      · have := poolStep_measure _ _ _ _ _ _ hs
        omega
      · have := poolStep_measure _ _ _ _ _ _ hs
        omega
  | succ n ih =>
    intro s hn hinv
    cases hcl : s.msgClosed with
    | true => exact ⟨[], s, rfl, hcl, rfl⟩
    | false =>
      rcases poolStep_enabled _ _ compiledKB s hinv h0 h1 hcl (r, false) exec with
        ⟨s1, hs⟩ | ⟨i, s1, hs⟩
      · have hlt := poolStep_measure _ _ _ _ _ _ hs
        obtain ⟨sched, s2, hrun, hcl2, hf⟩ :=
          ih s1 (by omega) (PoolInv_poolStep _ _ _ _ _ _ hinv hs)
        refine ⟨Action.main :: sched, s2, by simp only [runPool, hs, hrun], hcl2, ?_⟩
        simp only [cacheFaithful, hs, hf, cacheAnswerOk, Bool.and_self]
      · have hlt := poolStep_measure _ _ _ _ _ _ hs
        obtain ⟨sched, s2, hrun, hcl2, hf⟩ :=
          ih s1 (by omega) (PoolInv_poolStep _ _ _ _ _ _ hinv hs)
        refine ⟨Action.worker i (r, false) exec :: sched, s2,
          by simp only [runPool, hs, hrun], hcl2, ?_⟩
        simp only [cacheFaithful, hs, hf, cacheAnswerOk_miss, Bool.and_self]

theorem poolMeasure_initPool (modelList : List GoString) (cfg : RunConfig) :
    poolMeasure modelList cfg initPool =
      2 * cfg.Concurrency.toNat + 6 * modelList.length + 3 := by
  simp only [poolMeasure, initPool, mainRemaining, List.length_nil, List.map_nil, List.sum_nil]
  omega

/-- C22, as stated, fails, in two ways.  With a concurrency of 0,
`StartWorkers` spawns no worker, sends the one job of the list `a/b` to the
buffered channel `jobs`, closes it, passes `wg.Wait()` at once and closes
`msgChan`: no completion event has been sent and the counter stands at 0,
for a list of length 1.  And with the cache on and one worker, when the cache
answers the lookup for the job `a/b` with a record whose `Model` is
`groq/llama-3.1`, the one completion event sent before `msgChan` is closed
bears the identifier `groq/llama-3.1`, which is not in the list. -/
theorem startWorkers_no_workers_counterexample :
    (∃ s, runPool [str "a/b"] { sampleCfg with Concurrency := 0 } sampleKB scheduleNoWorkers
        initPool = some s ∧
      s.msgClosed = true ∧ resultsOf s.msgs = [] ∧ s.processed = 0 ∧
      ([str "a/b"] : List GoString).length = 1) ∧
    (∃ s, runPool [str "a/b"] { sampleCfg with Concurrency := 1, UseCache := true } sampleKB
        scheduleCachedHit initPool = some s ∧
      s.msgClosed = true ∧
      (resultsOf s.msgs).map (fun r => r.Model) = [str "groq/llama-3.1"] ∧
      str "groq/llama-3.1" ∉ ([str "a/b"] : List GoString)) := by
  refine ⟨⟨_, rfl, ?_⟩, ⟨_, rfl, ?_⟩⟩
  · decide
  · decide

/-- C22, amended: with a concurrency of at least 1 the worker pool processes
each input identifier exactly once, and the completion events bear the input
identifiers when the cache is off or answers every lookup for a job with a
miss or with a record whose `Model` is that job or is empty.  For every model
list and every state that a run of `StartWorkers` reaches under any schedule
and any answers of the cache and the probes: the run has taken at most
`2 * Concurrency + 6 * n + 3` steps, `n` the length of the list; if `msgChan`
is closed in that state, then exactly `n` completion events have been sent,
the jobs reported are the input list up to order (one for each position,
none for a job not in the list), the counter has been incremented exactly `n`
times, no goroutine takes a further step, and, under the condition on the
cache, the identifiers the completion events bear are those of the jobs
reported, in order, hence the input list up to order; and if `msgChan` is
still open and the output budget is at least 0 and below 2^52 kilobytes, some
goroutine can take a step.  Under the same condition on the budget a run that
closes `msgChan` exists, along which the cache misses at every lookup. -/
theorem startWorkers_each_once (modelList : List GoString) (cfg : RunConfig)
    (compiledKB : Compiled) (hc : 1 ≤ cfg.Concurrency) :
    (∀ (sched : List Action) (s : PoolState),
      runPool modelList cfg compiledKB sched initPool = some s →
        sched.length ≤ 2 * cfg.Concurrency.toNat + 6 * modelList.length + 3 ∧
        (s.msgClosed = true →
          (resultsOf s.msgs).length = modelList.length ∧ s.finished.Perm modelList ∧
          s.processed = modelList.length ∧
          (∀ a, poolStep modelList cfg compiledKB s a = none) ∧
          ((cfg.UseCache = false ∨
              cacheFaithful modelList cfg compiledKB sched initPool = true) →
            (resultsOf s.msgs).map (fun r => r.Model) = s.finished ∧
            ((resultsOf s.msgs).map (fun r => r.Model)).Perm modelList)) ∧
        (0 ≤ cfg.MaxOutputKB → cfg.MaxOutputKB < (2 : Int) ^ 52 → s.msgClosed = false →
          ∀ (cacheGet : ModelResult × Bool) (exec : Nat → ProbeOutcome),
            (∃ s1, poolStep modelList cfg compiledKB s Action.main = some s1) ∨
              ∃ i s1,
                poolStep modelList cfg compiledKB s (Action.worker i cacheGet exec) = some s1)) ∧
    (0 ≤ cfg.MaxOutputKB → cfg.MaxOutputKB < (2 : Int) ^ 52 →
      ∃ sched s, runPool modelList cfg compiledKB sched initPool = some s ∧
        s.msgClosed = true ∧
        cacheFaithful modelList cfg compiledKB sched initPool = true) := by
  constructor
  · intro sched s hrun
    have hinv := PoolInv_runPool modelList cfg compiledKB sched _ _
      (PoolInv_initPool modelList cfg) hrun
    have hlen := runPool_length modelList cfg compiledKB sched _ _ hrun
    rw [poolMeasure_initPool] at hlen
    refine ⟨by omega, ?_, ?_⟩
    · intro hcl
      obtain ⟨r1, r2, r3⟩ := PoolInv_closed modelList cfg s hc hinv hcl
      refine ⟨r1, r2, r3, poolStep_closed modelList cfg compiledKB s hinv hcl, fun hok => ?_⟩
      have hnames := (NamesInv_runPool modelList cfg compiledKB sched _ _
        NamesInv_initPool hok hrun).1
      exact ⟨hnames, hnames ▸ r2⟩
    · intro h0 h1 hopen cacheGet exec
      exact poolStep_enabled modelList cfg compiledKB s hinv h0 h1 hopen cacheGet exec
  · intro h0 h1
    exact runPool_exists_closed modelList cfg compiledKB h0 h1 zeroModelResult
      (fun _ => { out := [], code := 0, err := none, elapsed := 0 }) _ initPool (le_refl _)
      (PoolInv_initPool modelList cfg)

/-- The amended C22 at the run of two workers on the jobs `a/b` and `c/d`
under the sample schedule, in which the second job is reported first: the
run ends with `msgChan` closed, two completion events, bearing the names
`c/d` and `a/b`, and a counter of 2. -/
theorem startWorkers_each_once_witness :
    (1 : Int) ≤ sampleCfg.Concurrency ∧
    ∃ s, runPool [str "a/b", str "c/d"] sampleCfg sampleKB sampleSchedule initPool = some s ∧
      s.msgClosed = true ∧
      (resultsOf s.msgs).length = 2 ∧ s.finished.Perm [str "a/b", str "c/d"] ∧
      s.processed = 2 ∧
      (resultsOf s.msgs).map (fun r => r.Model) = [str "c/d", str "a/b"] ∧
      ((resultsOf s.msgs).map (fun r => r.Model)).Perm [str "a/b", str "c/d"] := by
  refine ⟨by decide, ?_⟩
  have hrun : ∃ s, runPool [str "a/b", str "c/d"] sampleCfg sampleKB sampleSchedule initPool
      = some s ∧ s.msgClosed = true ∧ s.finished = [str "c/d", str "a/b"] :=
    ⟨_, rfl, by decide⟩
  obtain ⟨s, hs, hcl, hfin⟩ := hrun
  obtain ⟨r1, r2, r3, -, r5⟩ :=
    ((startWorkers_each_once [str "a/b", str "c/d"] sampleCfg sampleKB (by decide)).1
      sampleSchedule s hs).2.1 hcl
  obtain ⟨r6, r7⟩ := r5 (Or.inl rfl)
  exact ⟨s, hs, hcl, r1, r2, r3, by rw [r6, hfin], r7⟩

end LlmRadar
